import Mathlib

/-!
# Project tracking API: authorization and state-transition rules

A shallow embedding of the REST backend: the three routers
`backend/routes/projects.js`, `backend/routes/auth.js` and
`backend/routes/developers.js`, together with the three Mongoose models they
work on (`User`, `Project`, `Phase`).  Each collection is a list of
documents, a handler is a function from the caller, the request and the
stores to a response and the next stores.  Four pieces of the client are
embedded as well: the response interceptor of `services/api.js`,
`formatDateForDisplay` of `utils/dateUtils.js`, the task list of the
add-phase form of `components/ProjectView.js` and the widths of the progress
bars of `components/DeveloperDashboard.js` and `components/ProjectView.js`.

Conventions of the embedding:
* an `ObjectId` is a natural number; request path ids are taken after the
  cast to `ObjectId`;
* request bodies are records of optional fields (`none` is `undefined`),
  holding values after the schema cast;
* dates are natural numbers (milliseconds);
* the `timestamps` columns are not part of the model;
* the owner allow-list and the two `bcryptjs` functions are parameters, and
  so is the rounding of a double operation.
-/

namespace ProjectTracking

/-! ## Data model (backend/models) -/

abbrev ObjectId := Nat

/-- The `role` enum of `userSchema`. -/
inductive Role where
  | owner
  | developer
deriving DecidableEq, Repr

/-- A document of the `User` collection (`models/User.js`). -/
structure User where
  _id : ObjectId
  name : String
  email : String
  username : Option String
  password : String
  role : Role
  school : Option String
  grade : Option String
  hoursPerWeek : Option Nat
  resume : Option String
  skills : List String
  assignedProjects : List ObjectId
deriving DecidableEq, Repr

/-- An element of `phaseSchema.tasks`. -/
structure Task where
  name : Option String
  completed : Bool
  assignedTo : Option ObjectId
deriving DecidableEq, Repr

/-- A document of the `Phase` collection (`models/Phase.js`). -/
structure Phase where
  _id : ObjectId
  name : String
  project : ObjectId
  status : String
  startDate : Nat
  endDate : Nat
  tasks : List Task
  assignedDevelopers : List ObjectId
deriving DecidableEq, Repr

/-- A document of the `Project` collection (`models/Project.js`). -/
structure Project where
  _id : ObjectId
  name : String
  description : String
  status : String
  startDate : Nat
  endDate : Nat
  owner : ObjectId
  assignedDevelopers : List ObjectId
  phases : List ObjectId
deriving DecidableEq, Repr

/-- The three collections of the document database. -/
structure Store where
  users : List User
  projects : List Project
  phases : List Phase
deriving DecidableEq, Repr

/-- The authenticated caller, `req.user`: the handlers read `_id` and `role`. -/
structure ReqUser where
  _id : ObjectId
  role : Role
deriving DecidableEq, Repr

/-! ## Request bodies -/

/-- Body of `PUT /projects/:id`: the schema paths of `Project` it may carry,
and the names of the keys that are not schema paths.  A body with the key
`_id` or with an update operator as a key (`$set`, `$push`, ..) is not a
value of this type: the model does not follow such a body. -/
structure ProjectUpdate where
  name : Option String
  description : Option String
  status : Option String
  startDate : Option Nat
  endDate : Option Nat
  owner : Option ObjectId
  assignedDevelopers : Option (List ObjectId)
  phases : Option (List ObjectId)
  extra : List String
deriving DecidableEq, Repr

/-- Body of `POST /projects`. -/
structure ProjectInput where
  name : Option String
  description : Option String
  startDate : Option Nat
  endDate : Option Nat
deriving DecidableEq, Repr

/-- Body of `POST /projects/:id/phases`. -/
structure PhaseInput where
  name : Option String
  startDate : Option Nat
  endDate : Option Nat
  tasks : Option (List String)
deriving DecidableEq, Repr

/-- An element of `tasks` in the body of a phase update. -/
structure TaskInput where
  name : Option String
  completed : Option Bool
  assignedTo : Option ObjectId
deriving DecidableEq, Repr

/-- Body of `PUT /projects/:projectId/phases/:phaseId`. -/
structure PhaseUpdate where
  status : Option String
  tasks : Option (List TaskInput)
deriving DecidableEq, Repr

/-- Body of `POST /auth/register`: the seven fields the handler reads, and
four more keys a payload may carry, which the handler does not read. -/
structure RegisterInput where
  name : Option String
  email : Option String
  school : Option String
  grade : Option String
  hoursPerWeek : Option Nat
  resume : Option String
  password : Option String
  role : Option String
  username : Option String
  skills : Option (List String)
  assignedProjects : Option (List ObjectId)
deriving DecidableEq, Repr

/-- Body of `POST /auth/login`. -/
structure LoginInput where
  email : Option String
  password : Option String
  username : Option String
  type : Option String
deriving DecidableEq, Repr

/-- Body of `PUT /developers/profile`: the schema paths of `User` it may
carry. -/
structure ProfileUpdate where
  name : Option String
  school : Option String
  grade : Option String
  hoursPerWeek : Option Nat
  resume : Option String
  skills : Option (List String)
  email : Option String
  username : Option String
  password : Option String
  role : Option Role
  assignedProjects : Option (List ObjectId)
deriving DecidableEq, Repr

/-! ## Responses -/

/-- A populated user reference: `_id` and the selected fields. -/
structure UserView where
  _id : ObjectId
  name : Option String
  email : Option String
  username : Option String
  school : Option String
  grade : Option String
  hoursPerWeek : Option Nat
deriving DecidableEq, Repr

/-- A populated phase: the document, and the nested populated paths when the
query asks for them. -/
structure PhaseView where
  doc : Phase
  assignedDevelopers : Option (List UserView)
  taskAssignees : Option (List (Option UserView))
deriving DecidableEq, Repr

/-- A project as a query returns it: the document with `assignedDevelopers`
populated, and `phases` and `owner` populated when the query asks for them
(`owner` is `some none` when the referenced identity does not exist). -/
structure ProjectView where
  doc : Project
  assignedDevelopers : List UserView
  phases : Option (List PhaseView)
  owner : Option (Option UserView)
deriving DecidableEq, Repr

/-- The payload of a session token (`jwt.sign`); the signature and the
expiry are not part of the model. -/
structure Token where
  userId : ObjectId
  role : Role
deriving DecidableEq, Repr

/-- The `user` summary of a login response. -/
structure LoginUser where
  id : ObjectId
  name : String
  email : String
  username : Option String
  role : Role
  school : Option String
  grade : Option String
  hoursPerWeek : Option Nat
deriving DecidableEq, Repr

/-- A populated project reference: `_id` and the selected fields. -/
structure ProjectSummary where
  _id : ObjectId
  name : Option String
  description : Option String
  status : Option String
  startDate : Option Nat
  endDate : Option Nat
deriving DecidableEq, Repr

/-- An identity as the developer routes return it, `select('-password')`:
every path but `password`, and `assignedProjects` populated when the query
asks for it. -/
structure UserProfile where
  _id : ObjectId
  name : String
  email : String
  username : Option String
  role : Role
  school : Option String
  grade : Option String
  hoursPerWeek : Option Nat
  resume : Option String
  skills : List String
  assignedProjects : List ObjectId
  populatedProjects : Option (List ProjectSummary)
deriving DecidableEq, Repr

/-- A JSON response body. -/
inductive Body where
  | message (m : String)
  | serverError
  | projectList (l : List ProjectView)
  | projectView (v : ProjectView)
  | project (p : Project)
  | phase (p : Phase)
  | null
  | login (token : Token) (user : LoginUser)
  | user (u : UserProfile)
  | userList (l : List UserProfile)
deriving DecidableEq, Repr

/-- The HTTP status and the body of `res.status(..).json(..)`. -/
structure Response where
  status : Nat
  body : Body
deriving DecidableEq, Repr

/-- The handler's `catch`: `res.status(500).json({ message: 'Server error', .. })`. -/
def serverError : Response := ⟨500, Body.serverError⟩

/-! ## What the authentication routes take from outside -/

/-- An entry of the owner allow-list `data/owners.json`. -/
structure OwnerEntry where
  username : String
  password : String
deriving DecidableEq, Repr

/-- The allow-list `data/owners.json`, which `routes/auth.js` requires and
which is not among the sources, and the two functions of the `bcryptjs`
library that `models/User.js` calls: `hash` is `bcrypt.hash(password, 10)`,
`compare password stored` is `bcrypt.compare(password, stored)`. -/
structure Env where
  owners : List OwnerEntry
  hash : String → String
  compare : String → String → Bool

/-! ## Queries of the document store -/

/-- `User.findById`. -/
def findUser (users : List User) (id : ObjectId) : Option User :=
  users.find? (fun u => u._id == id)

/-- `Project.findById`. -/
def findProject (projects : List Project) (id : ObjectId) : Option Project :=
  projects.find? (fun p => p._id == id)

/-- `Phase.findById`. -/
def findPhase (phases : List Phase) (id : ObjectId) : Option Phase :=
  phases.find? (fun p => p._id == id)

/-- The update of `Project.findByIdAndUpdate`: the first document with the
given `_id` is changed, nothing happens when there is none. -/
def updateProjectById (id : ObjectId) (f : Project → Project) :
    List Project → List Project
  | [] => []
  | p :: ps => if p._id = id then f p :: ps else p :: updateProjectById id f ps

/-- `Project.findByIdAndDelete`: the first document with the given `_id` is
removed. -/
def deleteProjectById (id : ObjectId) : List Project → List Project
  | [] => []
  | p :: ps => if p._id = id then ps else p :: deleteProjectById id ps

/-- `phase.save()` of a loaded phase: the stored document with its `_id` is
replaced. -/
def savePhase (ph : Phase) : List Phase → List Phase
  | [] => []
  | q :: qs => if q._id = ph._id then ph :: qs else q :: savePhase ph qs

/-- The `$addToSet` operator with `$each`: every value not yet in the array
is appended, in order. -/
def addToSet (xs : List ObjectId) (vals : List ObjectId) : List ObjectId :=
  vals.foldl (fun acc v => if v ∈ acc then acc else acc ++ [v]) xs

/-- The `$pull` operator with `$in`: every element that is one of the values
is removed. -/
def pullIn (xs : List ObjectId) (vals : List ObjectId) : List ObjectId :=
  xs.filter (fun x => !(vals.contains x))

/-- The `$pull` operator with one value. -/
def pull (xs : List ObjectId) (v : ObjectId) : List ObjectId :=
  xs.filter (fun x => !(x == v))

/-- The update of `User.findByIdAndUpdate`: the first document with the given
`_id` is changed, nothing happens when there is none. -/
def updateUserById (id : ObjectId) (f : User → User) : List User → List User
  | [] => []
  | u :: us => if u._id = id then f u :: us else u :: updateUserById id f us

/-- `User.findOne` with the filter `email`: the first stored identity with
that email; a missing email (`undefined`) matches no stored identity. -/
def findUserByEmail (users : List User) (email : Option String) : Option User :=
  match email with
  | some e => users.find? (fun u => u.email == e)
  | none => none

/-- `User.findOne` with the filter `email, role: 'developer'`: the first
stored developer with that email; a missing email matches no stored
identity. -/
def findDeveloperByEmail (users : List User) (email : Option String) : Option User :=
  match email with
  | some e => users.find? (fun u => u.email == e && u.role == Role.developer)
  | none => none

/-- `User.findOne` with the filter `username, role: 'owner'`. -/
def findOwnerByUsername (users : List User) (username : String) : Option User :=
  users.find? (fun u => u.username == some username && u.role == Role.owner)

/-! ## Population -/

/-- Selection `'name email'`. -/
def selectNameEmail (u : User) : UserView :=
  { _id := u._id, name := some u.name, email := some u.email, username := none,
    school := none, grade := none, hoursPerWeek := none }

/-- Selection `'name email school grade hoursPerWeek'`. -/
def selectDeveloper (u : User) : UserView :=
  { _id := u._id, name := some u.name, email := some u.email, username := none,
    school := u.school, grade := u.grade, hoursPerWeek := u.hoursPerWeek }

/-- Selection `'name username'`. -/
def selectNameUsername (u : User) : UserView :=
  { _id := u._id, name := some u.name, email := none, username := u.username,
    school := none, grade := none, hoursPerWeek := none }

/-- Population of an array of user references: each id is replaced by the
selected identity, an id without an identity is dropped. -/
def populateUsers (users : List User) (sel : User → UserView)
    (ids : List ObjectId) : List UserView :=
  ids.filterMap (fun id => (findUser users id).map sel)

/-- Population of the `phases` path without nested population. -/
def populatePhases (s : Store) (ids : List ObjectId) : List PhaseView :=
  ids.filterMap (fun id => (findPhase s.phases id).map
    (fun ph => { doc := ph, assignedDevelopers := none, taskAssignees := none }))

/-- Population of the `phases` path with the nested
`'assignedDevelopers tasks.assignedTo'` population, selection `'name email'`. -/
def populatePhasesDeep (s : Store) (ids : List ObjectId) : List PhaseView :=
  ids.filterMap (fun id => (findPhase s.phases id).map
    (fun ph =>
      { doc := ph,
        assignedDevelopers :=
          some (populateUsers s.users selectNameEmail ph.assignedDevelopers),
        taskAssignees := some (ph.tasks.map (fun t =>
          t.assignedTo.bind (fun a => (findUser s.users a).map selectNameEmail))) }))

/-- The three populations of `GET /projects`. -/
def populateListed (s : Store) (p : Project) : ProjectView :=
  { doc := p,
    assignedDevelopers := populateUsers s.users selectNameEmail p.assignedDevelopers,
    phases := some (populatePhases s p.phases),
    owner := some ((findUser s.users p.owner).map selectNameUsername) }

/-- The three populations of `GET /projects/:id`. -/
def populateSingle (s : Store) (p : Project) : ProjectView :=
  { doc := p,
    assignedDevelopers := populateUsers s.users selectDeveloper p.assignedDevelopers,
    phases := some (populatePhasesDeep s p.phases),
    owner := some ((findUser s.users p.owner).map selectNameUsername) }

/-- The population `('assignedDevelopers', 'name email')` of the update,
assign and remove routes. -/
def populateAssigned (s : Store) (p : Project) : ProjectView :=
  { doc := p,
    assignedDevelopers := populateUsers s.users selectNameEmail p.assignedDevelopers,
    phases := none,
    owner := none }

/-! ## Middleware -/

/-- Modelled from the spec: the `ownerOnly` middleware of `middleware/auth`,
which the routes import and which is not among the sources.  The spec gives
its contract ("Creating a project: owner role only", "Assigning/removing
developers, creating phases: owner role only") and its outcome ("forbidden
(authenticated but lacking permission)"): a caller whose role is not owner
gets a 403 response and the handler does not run.  The text of the message is
not given by the spec.  The result is `none` when the request passes. -/
def ownerOnly (user : ReqUser) : Option Response :=
  if user.role = Role.owner then none else some ⟨403, Body.message "Access denied"⟩

/-! ## Route handlers (backend/routes/projects.js) -/

/-- Handler of `GET /projects`. -/
def listProjects (user : ReqUser) (s : Store) : Response :=
  let projects :=
    if user.role = Role.owner then s.projects
    else s.projects.filter (fun p => p.assignedDevelopers.contains user._id)
  ⟨200, Body.projectList (projects.map (populateListed s))⟩

/-- Handler of `GET /projects/:id`. -/
def getProject (user : ReqUser) (id : ObjectId) (s : Store) : Response :=
  match findProject s.projects id with
  | none => ⟨404, Body.message "Project not found"⟩
  | some p =>
    let project := populateSingle s p
    if user.role = Role.developer ∧
        ¬ (project.assignedDevelopers.any (fun dev => dev._id == user._id)) then
      ⟨403, Body.message "Access denied"⟩
    else ⟨200, Body.projectView project⟩

/-- Handler of `POST /projects`, `newId` being the `_id` that `new Project`
generates.  `project.save()` validates the required paths (a required string
must be non-empty) and inserts the document; a failed validation or a
duplicate `_id` throws, which the handler answers with 500. -/
def createProject (user : ReqUser) (newId : ObjectId) (body : ProjectInput)
    (s : Store) : Response × Store :=
  match ownerOnly user with
  | some denied => (denied, s)
  | none =>
    match body.name, body.description, body.startDate, body.endDate with
    | some name, some description, some startDate, some endDate =>
      if name = "" ∨ description = "" then (serverError, s)
      else if (findProject s.projects newId).isSome then (serverError, s)
      else
        let project : Project :=
          { _id := newId, name := name, description := description,
            status := "Planning", startDate := startDate, endDate := endDate,
            owner := user._id, assignedDevelopers := [], phases := [] }
        (⟨201, Body.project project⟩, { s with projects := s.projects ++ [project] })
    | _, _, _, _ => (serverError, s)

/-- The update document applied to a project: every path it carries is set
(no validators run on `findByIdAndUpdate`), keys that are not schema paths
are dropped. -/
def applyUpdate (u : ProjectUpdate) (p : Project) : Project :=
  { _id := p._id,
    name := u.name.getD p.name,
    description := u.description.getD p.description,
    status := u.status.getD p.status,
    startDate := u.startDate.getD p.startDate,
    endDate := u.endDate.getD p.endDate,
    owner := u.owner.getD p.owner,
    assignedDevelopers := u.assignedDevelopers.getD p.assignedDevelopers,
    phases := u.phases.getD p.phases }

/-- The `updates` object of the developer branch: of the body only the keys
in `allowedUpdates = ['status']` that are not `undefined`. -/
def allowedUpdates (body : ProjectUpdate) : ProjectUpdate :=
  { name := none, description := none, status := body.status, startDate := none,
    endDate := none, owner := none, assignedDevelopers := none, phases := none,
    extra := [] }

/-- `Object.keys` of an update object. -/
def ProjectUpdate.keys (u : ProjectUpdate) : List String :=
  (if u.name.isSome then ["name"] else []) ++
  (if u.description.isSome then ["description"] else []) ++
  (if u.status.isSome then ["status"] else []) ++
  (if u.startDate.isSome then ["startDate"] else []) ++
  (if u.endDate.isSome then ["endDate"] else []) ++
  (if u.owner.isSome then ["owner"] else []) ++
  (if u.assignedDevelopers.isSome then ["assignedDevelopers"] else []) ++
  (if u.phases.isSome then ["phases"] else []) ++ u.extra

/-- `Project.findByIdAndUpdate(id, updates, { new: true })` followed by the
population of `assignedDevelopers`: the next stores and the JSON body. -/
def findByIdAndUpdate (id : ObjectId) (f : Project → Project) (s : Store) :
    Body × Store :=
  let s1 : Store := { s with projects := updateProjectById id f s.projects }
  match findProject s1.projects id with
  | some p => (Body.projectView (populateAssigned s1 p), s1)
  | none => (Body.null, s1)

/-- Handler of `PUT /projects/:id`. -/
def updateProject (user : ReqUser) (id : ObjectId) (body : ProjectUpdate)
    (s : Store) : Response × Store :=
  match findProject s.projects id with
  | none => (⟨404, Body.message "Project not found"⟩, s)
  | some project =>
    if user.role = Role.developer then
      if ¬ (project.assignedDevelopers.contains user._id) then
        (⟨403, Body.message "Access denied. You are not assigned to this project."⟩, s)
      else
        let updates := allowedUpdates body
        if updates.keys.length = 0 then
          (⟨400, Body.message "No valid updates provided"⟩, s)
        else
          let r := findByIdAndUpdate id (applyUpdate updates) s
          (⟨200, r.1⟩, r.2)
    else
      let r := findByIdAndUpdate id (applyUpdate body) s
      (⟨200, r.1⟩, r.2)

/-- Handler of `DELETE /projects/:id`. -/
def deleteProject (user : ReqUser) (projectId : ObjectId) (s : Store) :
    Response × Store :=
  match ownerOnly user with
  | some denied => (denied, s)
  | none =>
    match findProject s.projects projectId with
    | none => (⟨404, Body.message "Project not found"⟩, s)
    | some project =>
      if project.owner ≠ user._id then
        (⟨403, Body.message "Access denied. You can only delete your own projects."⟩, s)
      else
        let phases := s.phases.filter (fun ph => !(ph.project == projectId))
        let users := s.users.map (fun u =>
          if projectId ∈ u.assignedProjects then
            { u with assignedProjects := pull u.assignedProjects projectId }
          else u)
        let projects := deleteProjectById projectId s.projects
        (⟨200, Body.message "Project deleted successfully"⟩,
          { users := users, projects := projects, phases := phases })

/-- Handler of `POST /projects/:id/remove`. -/
def removeDevelopers (user : ReqUser) (id : ObjectId) (developerIds : List ObjectId)
    (s : Store) : Response × Store :=
  match ownerOnly user with
  | some denied => (denied, s)
  | none =>
    let r := findByIdAndUpdate id
      (fun p => { p with assignedDevelopers := pullIn p.assignedDevelopers developerIds }) s
    let users := r.2.users.map (fun u =>
      if developerIds.contains u._id then
        { u with assignedProjects := pull u.assignedProjects id }
      else u)
    (⟨200, r.1⟩, { r.2 with users := users })

/-- Handler of `POST /projects/:id/assign`. -/
def assignDevelopers (user : ReqUser) (id : ObjectId) (developerIds : List ObjectId)
    (s : Store) : Response × Store :=
  match ownerOnly user with
  | some denied => (denied, s)
  | none =>
    let r := findByIdAndUpdate id
      (fun p => { p with assignedDevelopers := addToSet p.assignedDevelopers developerIds }) s
    let users := r.2.users.map (fun u =>
      if developerIds.contains u._id then
        { u with assignedProjects := addToSet u.assignedProjects [id] }
      else u)
    (⟨200, r.1⟩, { r.2 with users := users })

/-- Handler of `POST /projects/:id/phases`, `newId` being the `_id` that
`new Phase` generates.  `tasks.map` throws when the body has no `tasks`;
`phase.save()` validates the required paths and inserts the document. -/
def addPhase (user : ReqUser) (id : ObjectId) (newId : ObjectId) (body : PhaseInput)
    (s : Store) : Response × Store :=
  match ownerOnly user with
  | some denied => (denied, s)
  | none =>
    match body.tasks with
    | none => (serverError, s)
    | some tasks =>
      match body.name, body.startDate, body.endDate with
      | some name, some startDate, some endDate =>
        if name = "" then (serverError, s)
        else if (findPhase s.phases newId).isSome then (serverError, s)
        else
          let phase : Phase :=
            { _id := newId, name := name, project := id, status := "pending",
              startDate := startDate, endDate := endDate,
              tasks := tasks.map (fun task =>
                { name := some task, completed := false, assignedTo := none }),
              assignedDevelopers := [] }
          let phases := s.phases ++ [phase]
          let projects := updateProjectById id
            (fun p => { p with phases := p.phases ++ [phase._id] }) s.projects
          (⟨201, Body.phase phase⟩, { s with projects := projects, phases := phases })
      | _, _, _ => (serverError, s)

/-- The `status` enum of `phaseSchema`. -/
def phaseStatuses : List String := ["pending", "in-progress", "completed"]

/-- The cast of a task of the request body to the task sub-schema
(`completed` defaults to `false`). -/
def castTask (t : TaskInput) : Task :=
  { name := t.name, completed := t.completed.getD false, assignedTo := t.assignedTo }

/-- Handler of `PUT /projects/:projectId/phases/:phaseId`.  For a developer
the project is looked up by the `projectId` of the path and reading
`assignedDevelopers` of a missing project throws (500).  `if (status)` skips
the empty string, `if (tasks)` takes every array; `phase.save()` validates a
modified `status` against the enum and throws when it fails. -/
def updatePhase (user : ReqUser) (projectId : ObjectId) (phaseId : ObjectId)
    (body : PhaseUpdate) (s : Store) : Response × Store :=
  match findPhase s.phases phaseId with
  | none => (⟨404, Body.message "Phase not found"⟩, s)
  | some phase =>
    let denied : Option Response :=
      if user.role = Role.developer then
        match findProject s.projects projectId with
        | none => some serverError
        | some project =>
          if ¬ (project.assignedDevelopers.contains user._id) then
            some ⟨403, Body.message "Access denied"⟩
          else none
      else none
    match denied with
    | some r => (r, s)
    | none =>
      let phase1 : Phase :=
        match body.status with
        | some status => if status ≠ "" then { phase with status := status } else phase
        | none => phase
      let phase2 : Phase :=
        match body.tasks with
        | some tasks => { phase1 with tasks := tasks.map castTask }
        | none => phase1
      if phase2.status ≠ phase.status ∧ phase2.status ∉ phaseStatuses then
        (serverError, s)
      else
        (⟨200, Body.phase phase2⟩, { s with phases := savePhase phase2 s.phases })

/-! ## The API as a transition system -/

/-- A request to one of the routes of `routes/projects.js`. -/
inductive Request where
  | listProjects
  | getProject (id : ObjectId)
  | createProject (newId : ObjectId) (body : ProjectInput)
  | updateProject (id : ObjectId) (body : ProjectUpdate)
  | deleteProject (id : ObjectId)
  | removeDevelopers (id : ObjectId) (developerIds : List ObjectId)
  | assignDevelopers (id : ObjectId) (developerIds : List ObjectId)
  | addPhase (id : ObjectId) (newId : ObjectId) (body : PhaseInput)
  | updatePhase (projectId : ObjectId) (phaseId : ObjectId) (body : PhaseUpdate)
deriving DecidableEq, Repr

/-- The router: the response and the next stores of one request. -/
def handle (user : ReqUser) (req : Request) (s : Store) : Response × Store :=
  match req with
  | Request.listProjects => (listProjects user s, s)
  | Request.getProject id => (getProject user id s, s)
  | Request.createProject newId body => createProject user newId body s
  | Request.updateProject id body => updateProject user id body s
  | Request.deleteProject id => deleteProject user id s
  | Request.removeDevelopers id developerIds => removeDevelopers user id developerIds s
  | Request.assignDevelopers id developerIds => assignDevelopers user id developerIds s
  | Request.addPhase id newId body => addPhase user id newId body s
  | Request.updatePhase projectId phaseId body => updatePhase user projectId phaseId body s

/-! ## Route handlers (backend/routes/auth.js) -/

/-- The insert of `user.save()` for a new identity: the `_id` index and the
`unique` index on `email` refuse a document whose `_id` or `email` is stored
already (`none` is the duplicate-key error). -/
def insertUser (u : User) (users : List User) : Option (List User) :=
  if users.any (fun x => x._id == u._id || x.email == u.email) then none
  else some (users ++ [u])

/-- Handler of `POST /auth/register`, `newId` being the `_id` that `new User`
generates.  `user.save()` validates the required paths (with role developer
all seven fields are required, a required string must be non-empty), hashes
the password in the `pre('save')` hook and inserts the document; a failed
validation or a duplicate key throws, which the handler answers with 500. -/
def register (env : Env) (newId : ObjectId) (body : RegisterInput) (s : Store) :
    Response × Store :=
  match findUserByEmail s.users body.email with
  | some _ => (⟨400, Body.message "User already exists"⟩, s)
  | none =>
    match body.name, body.email, body.school, body.grade, body.hoursPerWeek,
        body.resume, body.password with
    | some name, some email, some school, some grade, some hoursPerWeek,
        some resume, some password =>
      if name = "" ∨ email = "" ∨ school = "" ∨ grade = "" ∨ resume = "" ∨ password = "" then
        (serverError, s)
      else
        let user : User :=
          { _id := newId, name := name, email := email, username := none,
            password := env.hash password, role := Role.developer,
            school := some school, grade := some grade,
            hoursPerWeek := some hoursPerWeek, resume := some resume,
            skills := [], assignedProjects := [] }
        match insertUser user s.users with
        | none => (serverError, s)
        | some users =>
          (⟨201, Body.message "Developer registered successfully"⟩, { s with users := users })
    | _, _, _, _, _, _, _ => (serverError, s)

/-- The `user` summary of the owner branch of the login. -/
def ownerSummary (u : User) : LoginUser :=
  { id := u._id, name := u.name, email := u.email, username := u.username,
    role := Role.owner, school := none, grade := none, hoursPerWeek := none }

/-- The `user` summary of the developer branch of the login. -/
def developerSummary (u : User) : LoginUser :=
  { id := u._id, name := u.name, email := u.email, username := none,
    role := Role.developer, school := u.school, grade := u.grade,
    hoursPerWeek := u.hoursPerWeek }

/-- Handler of `POST /auth/login`, `newId` being the `_id` that `new User`
generates when the owner branch creates the owner's identity.  An entry of
the allow-list never equals a missing username or password.  In the developer
branch `bcrypt.compare` throws when the password is not a string. -/
def login (env : Env) (newId : ObjectId) (body : LoginInput) (s : Store) :
    Response × Store :=
  if body.type = some "owner" then
    match body.username, body.password with
    | some username, some password =>
      match env.owners.find? (fun o => o.username == username && o.password == password) with
      | none => (⟨401, Body.message "Invalid credentials"⟩, s)
      | some _ =>
        match findOwnerByUsername s.users username with
        | some ownerUser =>
          (⟨200, Body.login ⟨ownerUser._id, Role.owner⟩ (ownerSummary ownerUser)⟩, s)
        | none =>
          if username = "" ∨ password = "" then (serverError, s)
          else
            let ownerUser : User :=
              { _id := newId, name := username, email := username ++ "@company.com",
                username := some username, password := env.hash password,
                role := Role.owner, school := none, grade := none, hoursPerWeek := none,
                resume := none, skills := [], assignedProjects := [] }
            match insertUser ownerUser s.users with
            | none => (serverError, s)
            | some users =>
              (⟨200, Body.login ⟨ownerUser._id, Role.owner⟩ (ownerSummary ownerUser)⟩,
                { s with users := users })
    | _, _ => (⟨401, Body.message "Invalid credentials"⟩, s)
  else
    match findDeveloperByEmail s.users body.email with
    | none => (⟨401, Body.message "Invalid credentials"⟩, s)
    | some user =>
      match body.password with
      | none => (serverError, s)
      | some password =>
        if ¬ (env.compare password user.password) then
          (⟨401, Body.message "Invalid credentials"⟩, s)
        else
          (⟨200, Body.login ⟨user._id, Role.developer⟩ (developerSummary user)⟩, s)

/-! ## Route handlers (backend/routes/developers.js) -/

/-- Selection `'name'` of a populated project. -/
def selectProjectName (p : Project) : ProjectSummary :=
  { _id := p._id, name := some p.name, description := none, status := none,
    startDate := none, endDate := none }

/-- Selection `'name description status startDate endDate'` of a populated
project. -/
def selectProjectDetails (p : Project) : ProjectSummary :=
  { _id := p._id, name := some p.name, description := some p.description,
    status := some p.status, startDate := some p.startDate, endDate := some p.endDate }

/-- Population of an array of project references; an id without a project
is dropped. -/
def populateProjects (projects : List Project) (sel : Project → ProjectSummary)
    (ids : List ObjectId) : List ProjectSummary :=
  ids.filterMap (fun id => (findProject projects id).map sel)

/-- The selection `'-password'` of an identity. -/
def withoutPassword (u : User) (populated : Option (List ProjectSummary)) : UserProfile :=
  { _id := u._id, name := u.name, email := u.email, username := u.username,
    role := u.role, school := u.school, grade := u.grade,
    hoursPerWeek := u.hoursPerWeek, resume := u.resume, skills := u.skills,
    assignedProjects := u.assignedProjects, populatedProjects := populated }

/-- Handler of `GET /developers`. -/
def getDevelopers (user : ReqUser) (s : Store) : Response :=
  match ownerOnly user with
  | some denied => denied
  | none =>
    let developers := s.users.filter (fun u => u.role == Role.developer)
    ⟨200, Body.userList (developers.map (fun u =>
      withoutPassword u (some (populateProjects s.projects selectProjectName
        u.assignedProjects))))⟩

/-- Handler of `GET /developers/profile`. -/
def getProfile (user : ReqUser) (s : Store) : Response :=
  match findUser s.users user._id with
  | none => ⟨200, Body.null⟩
  | some u =>
    ⟨200, Body.user (withoutPassword u (some (populateProjects s.projects
      selectProjectDetails u.assignedProjects)))⟩

/-- The `updates` object of the profile update: of the body only the keys in
`allowedUpdates` that are not `undefined`. -/
def allowedProfileUpdates (body : ProfileUpdate) : ProfileUpdate :=
  { name := body.name, school := body.school, grade := body.grade,
    hoursPerWeek := body.hoursPerWeek, resume := body.resume, skills := body.skills,
    email := none, username := none, password := none, role := none,
    assignedProjects := none }

/-- The update document applied to an identity: every path it carries is
set. -/
def applyProfileUpdate (u : ProfileUpdate) (x : User) : User :=
  { _id := x._id,
    name := u.name.getD x.name,
    email := u.email.getD x.email,
    username := match u.username with | some v => some v | none => x.username,
    password := u.password.getD x.password,
    role := u.role.getD x.role,
    school := match u.school with | some v => some v | none => x.school,
    grade := match u.grade with | some v => some v | none => x.grade,
    hoursPerWeek := match u.hoursPerWeek with | some v => some v | none => x.hoursPerWeek,
    resume := match u.resume with | some v => some v | none => x.resume,
    skills := u.skills.getD x.skills,
    assignedProjects := u.assignedProjects.getD x.assignedProjects }

/-- Handler of `PUT /developers/profile`. -/
def updateProfile (user : ReqUser) (body : ProfileUpdate) (s : Store) : Response × Store :=
  let updates := allowedProfileUpdates body
  let s1 : Store :=
    { s with users := updateUserById user._id (applyProfileUpdate updates) s.users }
  match findUser s1.users user._id with
  | none => (⟨200, Body.null⟩, s1)
  | some u => (⟨200, Body.user (withoutPassword u none)⟩, s1)

/-! ## The whole API -/

/-- Modelled from the spec: the `auth` middleware of `middleware/auth`, which
the routes import and which is not among the sources.  The spec gives its
contract: "All authenticated routes require a bearer session token; absence
or invalidity yields an unauthorized response", the token "carrying the
identity id and role".  `caller` is the identity and role that the token of
the request carries, `none` when the token is missing, expired or invalid;
the result is `req.user`, or the 401 response.  The text of the message is
not given by the spec. -/
def auth (caller : Option ReqUser) : Except Response ReqUser :=
  match caller with
  | some user => Except.ok user
  | none => Except.error ⟨401, Body.message "Unauthorized"⟩

/-- A request to one of the routes of the three routers. -/
inductive ApiRequest where
  | register (newId : ObjectId) (body : RegisterInput)
  | login (newId : ObjectId) (body : LoginInput)
  | projects (req : Request)
  | getDevelopers
  | getProfile
  | updateProfile (body : ProfileUpdate)
deriving DecidableEq, Repr

/-- The response and the next stores of one request to the API: the two
authentication routes take no token, every other route passes `auth`
first. -/
def api (env : Env) (caller : Option ReqUser) (req : ApiRequest) (s : Store) :
    Response × Store :=
  match req with
  | ApiRequest.register newId body => register env newId body s
  | ApiRequest.login newId body => login env newId body s
  | ApiRequest.projects r =>
    match auth caller with
    | Except.error denied => (denied, s)
    | Except.ok user => handle user r s
  | ApiRequest.getDevelopers =>
    match auth caller with
    | Except.error denied => (denied, s)
    | Except.ok user => (getDevelopers user s, s)
  | ApiRequest.getProfile =>
    match auth caller with
    | Except.error denied => (denied, s)
    | Except.ok user => (getProfile user s, s)
  | ApiRequest.updateProfile body =>
    match auth caller with
    | Except.error denied => (denied, s)
    | Except.ok user => updateProfile user body s

/-- A run of the API: the stores after a sequence of requests, each with the
caller its token carries. -/
def run (env : Env) (steps : List (Option ReqUser × ApiRequest)) (s : Store) : Store :=
  steps.foldl (fun st step => (api env step.1 step.2 st).2) s

/-- An owner login: `POST /auth/login` with type 'owner'. -/
def ownerLogin (env : Env) (newId : ObjectId) (username password : String) (s : Store) :
    Response × Store :=
  login env newId ⟨none, some password, some username, some "owner"⟩ s

/-- A sequence of owner logins with one username, each with the password it
submits and the `_id` that `new User` would generate: the responses in order
and the stores at the end. -/
def ownerLogins (env : Env) (username : String) :
    List (ObjectId × String) → Store → List Response × Store
  | [], s => ([], s)
  | attempt :: rest, s =>
    let r := ownerLogin env attempt.1 username attempt.2 s
    let rs := ownerLogins env username rest r.2
    (r.1 :: rs.1, rs.2)

/-! ## Predicates on the stores -/

/-- The `_id` index of the `Project` collection: no two stored projects have
the same `_id`. -/
def UniqueProjectIds (s : Store) : Prop :=
  (s.projects.map (fun p => p._id)).Nodup

instance (s : Store) : Decidable (UniqueProjectIds s) := by
  unfold UniqueProjectIds
  exact inferInstance

/-- Assignment symmetry: every reference has its mirror.  For every stored
project `P` and every stored identity `D`, `D` is in `P.assignedDevelopers`
if and only if `P._id` is in `D.assignedProjects`; every id in the
`assignedDevelopers` of a stored project is the id of a stored identity, and
every id in the `assignedProjects` of a stored identity is the id of a stored
project (a reference to a document that is not stored has no mirror). -/
def Symmetric (s : Store) : Prop :=
  (∀ P ∈ s.projects, ∀ D ∈ s.users,
    D._id ∈ P.assignedDevelopers ↔ P._id ∈ D.assignedProjects) ∧
  (∀ P ∈ s.projects, ∀ d ∈ P.assignedDevelopers, ∃ D ∈ s.users, D._id = d) ∧
  (∀ D ∈ s.users, ∀ pid ∈ D.assignedProjects, ∃ P ∈ s.projects, P._id = pid)

instance (s : Store) : Decidable (Symmetric s) := by
  unfold Symmetric
  exact inferInstance

/-- The keys of an update body other than `status`. -/
def ProjectUpdate.otherKeys (u : ProjectUpdate) : List String :=
  u.keys.filter (fun k => k != "status")

/-- The schema paths of `Project` that an update body carries (the
recognized fields). -/
def ProjectUpdate.recognized (u : ProjectUpdate) : List String :=
  ({ u with extra := [] } : ProjectUpdate).keys

/-- The `unique` index on `email`: no two stored identities have the same
email. -/
def UniqueEmails (s : Store) : Prop :=
  (s.users.map (fun u => u.email)).Nodup

instance (s : Store) : Decidable (UniqueEmails s) := by
  unfold UniqueEmails
  exact inferInstance

/-- The owner records of a username. -/
def ownerRecords (s : Store) (username : String) : List User :=
  s.users.filter (fun u => u.username == some username && u.role == Role.owner)

/-- A step of a run is a delete of project `pid` issued by the owner-role
caller with id `O`. -/
def DeletesAs (pid O : ObjectId) (step : Option ReqUser × ApiRequest) : Prop :=
  ∃ u, step.1 = some u ∧ u.role = Role.owner ∧ u._id = O ∧
    step.2 = ApiRequest.projects (Request.deleteProject pid)

/-- A step of a run is a project update of `pid` by an owner-role caller
whose payload carries an `owner` other than `O`. -/
def Reowns (pid O : ObjectId) (step : Option ReqUser × ApiRequest) : Prop :=
  ∃ u body o, step.1 = some u ∧ u.role = Role.owner ∧
    step.2 = ApiRequest.projects (Request.updateProject pid body) ∧
    body.owner = some o ∧ o ≠ O

/-- The `status` enum of `projectSchema`. -/
def projectStatuses : List String := ["Planning", "In Progress", "Completed", "On Hold"]

/-- An identity with its stored password blanked. -/
def erasePassword (u : User) : User := { u with password := "" }

/-- Two states of the stores that differ at most in the stored password
values of the identities. -/
def SamePublic (s t : Store) : Prop :=
  s.users.map erasePassword = t.users.map erasePassword ∧
  s.projects = t.projects ∧ s.phases = t.phases

instance (s t : Store) : Decidable (SamePublic s t) := by
  unfold SamePublic
  exact inferInstance

/-! ## The client: response interceptor (frontend/src/services/api.js) -/

/-- An HTTP response as far as the interceptor reads it. -/
structure HttpResponse where
  status : Nat
deriving DecidableEq, Repr

/-- An axios error: `error.response` is missing when no response arrived. -/
structure AxiosError where
  response : Option HttpResponse
  message : String
deriving DecidableEq, Repr

/-- The browser state that the interceptor writes: `localStorage` as a list
of entries, and `window.location.href`. -/
structure Browser where
  localStorage : List (String × String)
  href : String
deriving DecidableEq, Repr

/-- `localStorage.getItem(key)`. -/
def getItem (key : String) (storage : List (String × String)) : Option String :=
  (storage.find? (fun kv => kv.1 == key)).map (fun kv => kv.2)

/-- `localStorage.removeItem(key)`. -/
def removeItem (key : String) (storage : List (String × String)) :
    List (String × String) :=
  storage.filter (fun kv => kv.1 != key)

/-- The promise a handler of the interceptor returns. -/
inductive Settled where
  | fulfilled (response : HttpResponse)
  | rejected (error : AxiosError)
deriving DecidableEq, Repr

/-- The first handler of `api.interceptors.response.use`: the response is
passed on. -/
def onResponse (response : HttpResponse) (b : Browser) : Browser × Settled :=
  (b, Settled.fulfilled response)

/-- The second handler of `api.interceptors.response.use`: on
`error.response?.status === 401` the two entries are removed and the page
goes to '/'; the error is rejected again. -/
def onResponseError (error : AxiosError) (b : Browser) : Browser × Settled :=
  if error.response.map (fun r => r.status) = some 401 then
    ({ localStorage := removeItem "user" (removeItem "token" b.localStorage), href := "/" },
      Settled.rejected error)
  else (b, Settled.rejected error)

/-! ## The client: dates (frontend/src/utils/dateUtils.js)

A calendar day is counted in days from 1970-01-01, a `Date` is its time value
in milliseconds, and the local timezone is an offset in minutes (local time
minus UTC).  The inputs of the model are the dates from 1970-01-01 to
9999-12-31: a date string names a calendar day of that range, a `Date` has a
time value of that range.  (Outside of it the function goes other ways, which
the model does not follow: `new Date(year, ..)` adds 1900 to a year from 0 to
99, and the ISO form of a `Date` before the year 0 starts with `-`.)  The text
of a date string and the text that `toLocaleDateString` produces are not part
of the model: a date string is the calendar day that its `YYYY-MM-DD` part
names, the formatted text is the calendar day it shows. -/

/-- A calendar day, in days from 1970-01-01. -/
abbrev Day := Int

/-- Milliseconds in a day. -/
def msPerDay : Int := 86400000

/-- Milliseconds in a minute. -/
def msPerMinute : Int := 60000

/-- The number of calendar days from 1970-01-01 to 9999-12-31. -/
def dayCount : Nat := 2932897

/-- A JavaScript `Date` from the epoch to the end of the year 9999: its time
value, milliseconds from the epoch. -/
structure JSDate where
  time : Fin (dayCount * 86400000)
deriving DecidableEq, Repr

/-- The time value of a `Date` as an integer. -/
def JSDate.value (d : JSDate) : Int := (d.time.val : Int)

/-- An ISO date or date-time string as far as the function reads it: the
calendar day from 1970-01-01 to 9999-12-31 that the part before `T` names,
and the time of day after `T`, in milliseconds, when there is one. -/
structure IsoString where
  datePart : Fin dayCount
  timeOfDay : Option (Fin 86400000)
deriving DecidableEq, Repr

/-- The argument of `formatDateForDisplay`: `undefined` or `null`, the empty
string, a date string, or a `Date`. -/
inductive DateInput where
  | missing
  | empty
  | iso (s : IsoString)
  | date (d : JSDate)
deriving DecidableEq, Repr

/-- The string that `formatDateForDisplay` returns: the empty string, or the
rendering of a calendar day. -/
inductive Shown where
  | blank
  | day (d : Day)
deriving DecidableEq, Repr

/-- `Date.prototype.toISOString`: the UTC calendar day and time of day. -/
def toISOString (d : JSDate) : IsoString :=
  { datePart := ⟨d.time.val / 86400000, (Nat.div_lt_iff_lt_mul (by decide)).mpr d.time.isLt⟩,
    timeOfDay := some ⟨d.time.val % 86400000, Nat.mod_lt _ (by decide)⟩ }

/-- `new Date(year, month - 1, day)`: the time value of midnight of the
calendar day in the local timezone. -/
def localMidnight (offset : Int) (day : Fin dayCount) : Int :=
  (day.val : Int) * msPerDay - offset * msPerMinute

/-- The local calendar day of a time value, which `toLocaleDateString`
renders. -/
def localDay (offset : Int) (time : Int) : Day :=
  (time + offset * msPerMinute) / msPerDay

/-- The function `formatDateForDisplay` under a local timezone offset. -/
def formatDateForDisplay (offset : Int) (dateInput : DateInput) : Shown :=
  match dateInput with
  | DateInput.missing => Shown.blank
  | DateInput.empty => Shown.blank
  | DateInput.iso dateStr =>
    let date := localMidnight offset dateStr.datePart
    Shown.day (localDay offset date)
  | DateInput.date d =>
    let dateStr := toISOString d
    let date := localMidnight offset dateStr.datePart
    Shown.day (localDay offset date)

/-! ## The client: task list of the add-phase form
(frontend/src/components/ProjectView.js)

A string is the list of its characters. -/

/-- `split(',')`: the segments between the commas. -/
def splitComma : List Char → List (List Char)
  | [] => [[]]
  | c :: cs =>
    if c = ',' then [] :: splitComma cs
    else
      match splitComma cs with
      | [] => [[c]]
      | seg :: rest => (c :: seg) :: rest

/-- The characters that `trim()` removes: the white space and line
terminator code points of ECMAScript. -/
def isWhiteSpace (c : Char) : Bool :=
  [0x9, 0xA, 0xB, 0xC, 0xD, 0x20, 0xA0, 0x1680, 0x2028, 0x2029, 0x202F, 0x205F, 0x3000,
    0xFEFF].contains c.toNat || (0x2000 ≤ c.toNat && c.toNat ≤ 0x200A)

/-- `String.prototype.trim`. -/
def trim (t : List Char) : List Char :=
  (t.dropWhile isWhiteSpace).rdropWhile isWhiteSpace

/-- The `tasks` of `addPhase`:
`newPhase.tasks.split(',').map(t => t.trim()).filter(t => t)`. -/
def parseTasks (s : List Char) : List (List Char) :=
  ((splitComma s).map trim).filter (fun t => !t.isEmpty)

/-- A segment is blank: every character is white space. -/
def isBlank (t : List Char) : Bool := t.all isWhiteSpace

/-- The two assignments of the phase update on the loaded phase,
`if (status) phase.status = status` and `if (tasks) phase.tasks = tasks`. -/
def assignPhaseFields (body : PhaseUpdate) (phase : Phase) : Phase :=
  let phase1 : Phase :=
    match body.status with
    | some status => if status ≠ "" then { phase with status := status } else phase
    | none => phase
  match body.tasks with
  | some tasks => { phase1 with tasks := tasks.map castTask }
  | none => phase1

/-- The document that the create-phase handler builds,
`new Phase({ name, project: req.params.id, startDate, endDate, tasks: .. })`,
with the defaults of the schema. -/
def newPhaseDocument (id newId : ObjectId) (name : String) (startDate endDate : Nat)
    (tasks : List String) : Phase :=
  { _id := newId, name := name, project := id, status := "pending",
    startDate := startDate, endDate := endDate,
    tasks := tasks.map (fun task =>
      { name := some task, completed := false, assignedTo := none }),
    assignedDevelopers := [] }

/-! ## The client: progress bars
(frontend/src/components/DeveloperDashboard.js, ProjectView.js)

The width of a bar is `(completed.length / all.length) * 100` on JavaScript
numbers, which are binary64 doubles: the division and the multiplication are
each the exact result, rounded.  The rounding is a parameter of the model. -/

/-- The rounding of one double operation (binary64, round to nearest), a
parameter of the model: it is monotone, it keeps 0, 1 and 100, which are
doubles, and in the normal range, from `2 ^ (-1022)` to `2 ^ 1023`, its
relative error is at most `2 ^ (-53)`. -/
structure Rounding where
  round : ℚ → ℚ
  mono : ∀ x y, x ≤ y → round x ≤ round y
  zero : round 0 = 0
  one : round 1 = 1
  hundred : round 100 = 100
  near : ∀ x, 1 / 2 ^ 1022 ≤ x → x ≤ 2 ^ 1023 → |round x - x| ≤ x / 2 ^ 53

/-- A JavaScript number as far as the progress bars meet it: `NaN`,
`Infinity`, or a finite value that is not negative. -/
inductive JSNumber where
  | nan
  | infinity
  | finite (x : ℚ)
deriving DecidableEq

/-- The quotient `a / b` of two array lengths: `0 / 0` is `NaN`, another
division by zero is `Infinity`. -/
def divide (fl : Rounding) (a b : Nat) : JSNumber :=
  if b = 0 then (if a = 0 then JSNumber.nan else JSNumber.infinity)
  else JSNumber.finite (fl.round ((a : ℚ) / (b : ℚ)))

/-- The product `x * 100`. -/
def timesHundred (fl : Rounding) (x : JSNumber) : JSNumber :=
  match x with
  | JSNumber.nan => JSNumber.nan
  | JSNumber.infinity => JSNumber.infinity
  | JSNumber.finite q => JSNumber.finite (fl.round (q * 100))

/-- The progress summary of `DeveloperDashboard`, `phases` being the value
of `project.phases` (`none` when the project has no such property, else the
populated phases): `none` when the guard
`project.phases && project.phases.length > 0` keeps the bar from being
rendered, else the width
`(project.phases.filter(p => p.status === 'completed').length /
project.phases.length) * 100`. -/
def phaseProgressWidth (fl : Rounding) (phases : Option (List PhaseView)) : Option JSNumber :=
  match phases with
  | none => none
  | some phases =>
    if phases.length > 0 then
      some (timesHundred fl
        (divide fl (phases.filter (fun p => p.doc.status == "completed")).length phases.length))
    else none

/-- The task progress of a phase in the timeline of `ProjectView`, `tasks`
being the value of `phase.tasks`: `none` when the guard
`phase.tasks && phase.tasks.length > 0` keeps the bar from being rendered,
else the width
`(phase.tasks.filter(t => t.completed).length / phase.tasks.length) * 100`. -/
def taskProgressWidth (fl : Rounding) (tasks : Option (List Task)) : Option JSNumber :=
  match tasks with
  | none => none
  | some tasks =>
    if tasks.length > 0 then
      some (timesHundred fl (divide fl (tasks.filter (fun t => t.completed)).length tasks.length))
    else none

/-! ## A sample state

One owner, two developers, two projects with one phase each: Dana is assigned
to Alpha, Devon to Beta. -/

def olivia : User :=
  { _id := 1, name := "olivia", email := "olivia@company.com", username := some "olivia",
    password := "h1", role := Role.owner, school := none, grade := none,
    hoursPerWeek := none, resume := none, skills := [], assignedProjects := [] }

def dana : User :=
  { _id := 2, name := "Dana", email := "dana@school.edu", username := none,
    password := "h2", role := Role.developer, school := some "North", grade := some "11",
    hoursPerWeek := some 6, resume := some "cv", skills := [], assignedProjects := [10] }

def devon : User :=
  { _id := 3, name := "Devon", email := "devon@school.edu", username := none,
    password := "h3", role := Role.developer, school := some "South", grade := some "12",
    hoursPerWeek := some 4, resume := some "cv", skills := [], assignedProjects := [11] }

def alpha : Project :=
  { _id := 10, name := "Alpha", description := "first", status := "Planning",
    startDate := 100, endDate := 200, owner := 1, assignedDevelopers := [2],
    phases := [100] }

def beta : Project :=
  { _id := 11, name := "Beta", description := "second", status := "Planning",
    startDate := 100, endDate := 200, owner := 1, assignedDevelopers := [3],
    phases := [101] }

def design : Phase :=
  { _id := 100, name := "Design", project := 10, status := "pending", startDate := 100,
    endDate := 150, tasks := [⟨some "wireframes", false, none⟩, ⟨some "review", false, none⟩],
    assignedDevelopers := [] }

def build : Phase :=
  { _id := 101, name := "Build", project := 11, status := "pending", startDate := 100,
    endDate := 150, tasks := [⟨some "compile", false, none⟩], assignedDevelopers := [] }

def sampleStore : Store :=
  { users := [olivia, dana, devon], projects := [alpha, beta], phases := [design, build] }

/-- Olivia as a caller. -/
def asOlivia : ReqUser := ⟨1, Role.owner⟩

/-- Dana as a caller. -/
def asDana : ReqUser := ⟨2, Role.developer⟩

/-- Devon as a caller. -/
def asDevon : ReqUser := ⟨3, Role.developer⟩

/-- A second owner, who created neither project. -/
def asOtherOwner : ReqUser := ⟨4, Role.owner⟩

/-- The empty update body. -/
def emptyUpdate : ProjectUpdate :=
  { name := none, description := none, status := none, startDate := none,
    endDate := none, owner := none, assignedDevelopers := none, phases := none,
    extra := [] }

/-- A body with `status` and one more field. -/
def mixedUpdate : ProjectUpdate :=
  { emptyUpdate with status := some "Completed", name := some "Renamed" }

/-- A body that replaces the assigned developers by Devon alone. -/
def reassignUpdate : ProjectUpdate :=
  { emptyUpdate with assignedDevelopers := some [3] }

/-- A sample environment: two allow-listed owners; the hash of a password is
the password after the letter `h`. -/
def sampleEnv : Env :=
  { owners := [⟨"olivia", "1"⟩, ⟨"oscar", "9"⟩],
    hash := fun password => "h" ++ password,
    compare := fun password stored => stored == "h" ++ password }

/-- A phase body with every field. -/
def phaseInput : PhaseInput :=
  { name := some "Orphan", startDate := some 100, endDate := some 150,
    tasks := some ["draft"] }

/-- A registration body with every required field. -/
def fullRegistration : RegisterInput :=
  { name := some "Eve", email := some "eve@school.edu", school := some "East",
    grade := some "10", hoursPerWeek := some 5, resume := some "cv",
    password := some "5", role := none, username := none, skills := none,
    assignedProjects := none }

/-- A project body with every field. -/
def projectInput : ProjectInput :=
  { name := some "Gamma", description := some "third", startDate := some 100,
    endDate := some 200 }

/-- A registration body that also carries `role`, `username`, `skills` and
`assignedProjects`. -/
def escalatingRegistration : RegisterInput :=
  { name := some "Eve", email := some "eve@school.edu", school := some "East",
    grade := some "10", hoursPerWeek := some 5, resume := some "cv",
    password := some "5", role := some "owner", username := some "olivia",
    skills := some ["root"], assignedProjects := some [10] }

/-- A registration body whose email is the one the owner branch of the login
gives to the allow-listed owner `oscar`. -/
def squatRegistration : RegisterInput :=
  { fullRegistration with email := some "oscar@company.com" }

/-- The login body of the allow-listed owner `oscar`. -/
def oscarLogin : LoginInput :=
  { email := none, password := some "9", username := some "oscar", type := some "owner" }

/-- The login body of the developer Dana. -/
def danaLogin : LoginInput :=
  { email := some "dana@school.edu", password := some "2", username := none,
    type := some "developer" }

/-- A body that sets the `owner` of a project to the identity 4. -/
def ownerChange : ProjectUpdate :=
  { emptyUpdate with owner := some 4 }

/-- The stores after Olivia has created the project 12. -/
def afterCreation : Store :=
  (api sampleEnv (some asOlivia)
    (ApiRequest.projects (Request.createProject 12 projectInput)) sampleStore).2

/-- Two requests of the owner 4: set the `owner` of project 12, then delete
project 12. -/
def takeover : List (Option ReqUser × ApiRequest) :=
  [(some asOtherOwner, ApiRequest.projects (Request.updateProject 12 ownerChange)),
   (some asOtherOwner, ApiRequest.projects (Request.deleteProject 12))]

/-- A body whose `status` is none of the values of the enum. -/
def bananaUpdate : ProjectUpdate :=
  { emptyUpdate with status := some "Banana" }

/-- A browser state with a session and one more entry. -/
def loggedIn : Browser :=
  { localStorage := [("theme", "dark"), ("token", "t1"), ("user", "dana")],
    href := "/dashboard" }

/-- A profile update that also carries `role`, `email`, `password` and
`assignedProjects`. -/
def escalatingProfile : ProfileUpdate :=
  { name := some "Dana D.", school := none, grade := none, hoursPerWeek := some 8,
    resume := none, skills := some ["lean"], email := some "root@company.com",
    username := some "olivia", password := some "x", role := some Role.owner,
    assignedProjects := some [10, 11] }

/-- The sample state with other stored password values. -/
def rehashedStore : Store :=
  { sampleStore with users := sampleStore.users.map (fun u => { u with password := "zz" }) }

/-- The login body of the developer Dana without password. -/
def danaLoginNoPassword : LoginInput :=
  { email := some "dana@school.edu", password := none, username := none,
    type := some "developer" }

/-- The `Date` 2022-01-08T01:00:00.000Z, one hour after midnight (UTC) of the
day 19000. -/
def winterNight : JSDate := ⟨⟨1641603600000, by decide⟩⟩

/-- Arithmetic without rounding error. -/
def exactArithmetic : Rounding :=
  { round := fun x => x
    mono := fun _ _ h => h
    zero := rfl
    one := rfl
    hundred := rfl
    near := fun x h _ => by
      have hx : (0 : ℚ) ≤ x := le_trans (by positivity) h
      simp only [sub_self, abs_zero]
      positivity }

/-- Two populated phases, one of them completed. -/
def listedPhases : List PhaseView :=
  [⟨{ design with status := "completed" }, none, none⟩, ⟨build, none, none⟩]

/-! ## Lemmas on the store queries -/

theorem findUser_some {users : List User} {id : ObjectId} {u : User}
    (h : findUser users id = some u) : u ∈ users ∧ u._id = id := by
  unfold findUser at h
  exact ⟨List.mem_of_find?_eq_some h, by simpa using List.find?_some h⟩

theorem findUser_of_mem {users : List User} {id : ObjectId}
    (h : ∃ u ∈ users, u._id = id) : ∃ u, findUser users id = some u := by
  obtain ⟨u, hu, hid⟩ := h
  have : (findUser users id).isSome = true := by
    unfold findUser
    rw [List.find?_isSome]
    exact ⟨u, hu, by simpa using hid⟩
  exact Option.isSome_iff_exists.mp this

theorem findProject_some {projects : List Project} {id : ObjectId} {p : Project}
    (h : findProject projects id = some p) : p ∈ projects ∧ p._id = id := by
  unfold findProject at h
  exact ⟨List.mem_of_find?_eq_some h, by simpa using List.find?_some h⟩

/-- A populated array holds an identity exactly when the array of references
holds its id and the identity is stored. -/
theorem any_populateUsers (users : List User) (sel : User → UserView)
    (hsel : ∀ u, (sel u)._id = u._id) (ids : List ObjectId) (x : ObjectId) :
    (populateUsers users sel ids).any (fun dev => dev._id == x) = true ↔
      x ∈ ids ∧ ∃ u ∈ users, u._id = x := by
  unfold populateUsers
  simp only [List.any_eq_true, List.mem_filterMap, Option.map_eq_some', beq_iff_eq]
  constructor
  · rintro ⟨v, ⟨i, hi, u, hu, rfl⟩, hv⟩
    obtain ⟨hmem, hid⟩ := findUser_some hu
    rw [hsel] at hv
    subst hid
    subst hv
    exact ⟨hi, u, hmem, rfl⟩
  · rintro ⟨hx, hex⟩
    obtain ⟨u, hu⟩ := findUser_of_mem hex
    refine ⟨sel u, ⟨x, hx, u, hu, rfl⟩, ?_⟩
    rw [hsel]
    exact (findUser_some hu).2

/-! ## Reading one project -/

/-- C1: reading an existing project `P` (`GET /projects/:id`), the caller
being a stored identity.  An owner gets the project; a developer gets it if
and only if the caller's id is in `P.assignedDevelopers`, and otherwise the
response is 403 'Access denied'. -/
theorem getProject_access (user : ReqUser) (id : ObjectId) (s : Store) (P : Project)
    (hP : findProject s.projects id = some P)
    (hu : ∃ u ∈ s.users, u._id = user._id) :
    (user.role = Role.owner →
      getProject user id s = ⟨200, Body.projectView (populateSingle s P)⟩) ∧
    (user.role = Role.developer →
      (getProject user id s = ⟨200, Body.projectView (populateSingle s P)⟩ ↔
        user._id ∈ P.assignedDevelopers) ∧
      (user._id ∉ P.assignedDevelopers →
        getProject user id s = ⟨403, Body.message "Access denied"⟩)) := by
  have hany : (populateSingle s P).assignedDevelopers.any (fun dev => dev._id == user._id)
      = true ↔ user._id ∈ P.assignedDevelopers := by
    have := any_populateUsers s.users selectDeveloper (fun _ => rfl)
      P.assignedDevelopers user._id
    simp only [populateSingle]
    rw [this]
    exact ⟨fun h => h.1, fun h => ⟨h, hu⟩⟩
  constructor
  · intro hr
    simp [getProject, hP, hr]
  · intro hr
    by_cases hm : user._id ∈ P.assignedDevelopers
    · have h1 := hany.mpr hm
      simp [getProject, hP, hr, h1, hm]
    · have h1 : ¬ ((populateSingle s P).assignedDevelopers.any
          (fun dev => dev._id == user._id) = true) := fun h => hm (hany.mp h)
      simp [getProject, hP, hr, h1, hm]

theorem getProject_access_witness :
    findProject sampleStore.projects 10 = some alpha ∧
    (∃ u ∈ sampleStore.users, u._id = asDana._id) ∧
    getProject asDana 10 sampleStore
      = ⟨200, Body.projectView (populateSingle sampleStore alpha)⟩ :=
  ⟨rfl, ⟨dana, by decide, rfl⟩,
    ((getProject_access asDana 10 sampleStore alpha rfl ⟨dana, by decide, rfl⟩).2 rfl).1.mpr
      (by decide)⟩

/-! ## Updating a phase -/

/-- C2: a developer who is not assigned to the parent project of a phase
updates that phase by naming, in the path, another project that the
developer is assigned to.  Dana is assigned to Alpha only; the phase `build`
belongs to Beta; `PUT /projects/10/phases/101` with status 'completed' is
answered 200 and the stored phase is changed. -/
theorem updatePhase_checks_path_project :
    findPhase sampleStore.phases 101 = some build ∧
    findProject sampleStore.projects build.project = some beta ∧
    asDana._id ∉ beta.assignedDevelopers ∧
    (updatePhase asDana 10 101 ⟨some "completed", none⟩ sampleStore).1
      = ⟨200, Body.phase { build with status := "completed" }⟩ ∧
    findPhase (updatePhase asDana 10 101 ⟨some "completed", none⟩ sampleStore).2.phases 101
      = some { build with status := "completed" } := by
  refine ⟨rfl, rfl, by decide, ?_, ?_⟩ <;> decide

/-! ## Updating a project -/

theorem keys_allowedUpdates (body : ProjectUpdate) :
    (allowedUpdates body).keys = if body.status.isSome then ["status"] else [] := by
  cases h : body.status <;> simp [allowedUpdates, ProjectUpdate.keys, h]

theorem applyUpdate_allowedUpdates_some (body : ProjectUpdate) (st : String)
    (h : body.status = some st) :
    applyUpdate (allowedUpdates body) = fun p => { p with status := st } := by
  funext p
  simp [applyUpdate, allowedUpdates, h]

theorem findByIdAndUpdate_store (id : ObjectId) (f : Project → Project) (s : Store) :
    (findByIdAndUpdate id f s).2 = { s with projects := updateProjectById id f s.projects } := by
  unfold findByIdAndUpdate
  dsimp only
  split <;> rfl

theorem updateProjectById_id (id : ObjectId) (f : Project → Project)
    (hf : ∀ p, f p = p) (l : List Project) : updateProjectById id f l = l := by
  induction l with
  | nil => rfl
  | cons p ps ih =>
    unfold updateProjectById
    split
    · rw [hf]
    · rw [ih]

/-- C3 as the code has it: for an assigned developer and every payload, no
field other than `status` is applied.  A payload without `status` is rejected
with 400 and the stores are unchanged; a payload with `status` is accepted
with 200, whatever else it carries, and the stores change only in that the
project's `status` is set. -/
theorem updateProject_developer_status_only (user : ReqUser) (id : ObjectId)
    (body : ProjectUpdate) (s : Store) (P : Project)
    (hP : findProject s.projects id = some P)
    (hr : user.role = Role.developer)
    (hm : user._id ∈ P.assignedDevelopers) :
    (body.status = none →
      updateProject user id body s = (⟨400, Body.message "No valid updates provided"⟩, s)) ∧
    (∀ st, body.status = some st →
      (updateProject user id body s).1.status = 200 ∧
      (updateProject user id body s).2 =
        { s with projects :=
            updateProjectById id (fun p => { p with status := st }) s.projects }) := by
  constructor
  · intro hst
    simp [updateProject, hP, hr, hm, keys_allowedUpdates, hst]
  · intro st hst
    simp [updateProject, hP, hr, hm, keys_allowedUpdates, hst, findByIdAndUpdate_store,
      applyUpdate_allowedUpdates_some body st hst]

theorem updateProject_developer_status_only_witness :
    findProject sampleStore.projects 10 = some alpha ∧
    asDana.role = Role.developer ∧
    asDana._id ∈ alpha.assignedDevelopers ∧
    updateProject asDana 10 { emptyUpdate with name := some "Renamed" } sampleStore
      = (⟨400, Body.message "No valid updates provided"⟩, sampleStore) :=
  ⟨rfl, rfl, by decide,
    (updateProject_developer_status_only asDana 10 { emptyUpdate with name := some "Renamed" }
      sampleStore alpha rfl rfl (by decide)).1 rfl⟩

/-- C3 as stated fails: Dana, assigned to Alpha, sends `status` together with
`name`; the request succeeds and the stored status is changed (the name is
not). -/
theorem updateProject_developer_mixed_payload_accepted :
    findProject sampleStore.projects 10 = some alpha ∧
    asDana._id ∈ alpha.assignedDevelopers ∧
    mixedUpdate.otherKeys = ["name"] ∧
    (updateProject asDana 10 mixedUpdate sampleStore).1.status = 200 ∧
    findProject (updateProject asDana 10 mixedUpdate sampleStore).2.projects 10
      = some { alpha with status := "Completed" } := by
  refine ⟨rfl, by decide, by decide, ?_, ?_⟩ <;> decide

/-- C4: a developer who is not in the assigned developers of an existing
project gets 403 on `PUT /projects/:id` for every payload, and the stores are
unchanged. -/
theorem updateProject_unassigned_developer_forbidden (user : ReqUser) (id : ObjectId)
    (body : ProjectUpdate) (s : Store) (P : Project)
    (hP : findProject s.projects id = some P)
    (hr : user.role = Role.developer)
    (hm : user._id ∉ P.assignedDevelopers) :
    updateProject user id body s =
      (⟨403, Body.message "Access denied. You are not assigned to this project."⟩, s) := by
  simp [updateProject, hP, hr, hm]

theorem updateProject_unassigned_developer_forbidden_witness :
    findProject sampleStore.projects 10 = some alpha ∧
    asDevon.role = Role.developer ∧
    asDevon._id ∉ alpha.assignedDevelopers ∧
    updateProject asDevon 10 mixedUpdate sampleStore =
      (⟨403, Body.message "Access denied. You are not assigned to this project."⟩,
        sampleStore) :=
  ⟨rfl, rfl, by decide,
    updateProject_unassigned_developer_forbidden asDevon 10 mixedUpdate sampleStore alpha
      rfl rfl (by decide)⟩

/-! ## Deleting a project -/

theorem ownerOnly_owner {user : ReqUser} (h : user.role = Role.owner) :
    ownerOnly user = none := by
  simp [ownerOnly, h]

theorem ownerOnly_developer {user : ReqUser} (h : user.role = Role.developer) :
    ownerOnly user = some ⟨403, Body.message "Access denied"⟩ := by
  simp [ownerOnly, h]

/-- C5: on `DELETE /projects/:id` of an existing project `P`, an owner-role
caller whose id differs from `P.owner` gets 403 and the three stores are
unchanged; a delete that succeeds was issued by the caller whose id is
`P.owner`. -/
theorem deleteProject_only_own (user : ReqUser) (id : ObjectId) (s : Store) (P : Project)
    (hP : findProject s.projects id = some P)
    (hr : user.role = Role.owner) :
    (user._id ≠ P.owner →
      deleteProject user id s =
        (⟨403, Body.message "Access denied. You can only delete your own projects."⟩, s)) ∧
    ((deleteProject user id s).1.status = 200 → user._id = P.owner) := by
  constructor
  · intro hne
    have hne2 : ¬ P.owner = user._id := fun h => hne h.symm
    simp [deleteProject, ownerOnly_owner hr, hP, hne2]
  · intro hok
    by_contra hne
    have hne2 : ¬ P.owner = user._id := fun h => hne h.symm
    simp [deleteProject, ownerOnly_owner hr, hP, hne2] at hok

theorem deleteProject_only_own_witness :
    findProject sampleStore.projects 10 = some alpha ∧
    asOtherOwner.role = Role.owner ∧
    asOtherOwner._id ≠ alpha.owner ∧
    deleteProject asOtherOwner 10 sampleStore =
      (⟨403, Body.message "Access denied. You can only delete your own projects."⟩,
        sampleStore) :=
  ⟨rfl, rfl, by decide,
    (deleteProject_only_own asOtherOwner 10 sampleStore alpha rfl rfl).1 (by decide)⟩

theorem deleteProjectById_eq_filter (id : ObjectId) (l : List Project)
    (h : (l.map (fun p => p._id)).Nodup) :
    deleteProjectById id l = l.filter (fun p => !(p._id == id)) := by
  induction l with
  | nil => rfl
  | cons p ps ih =>
    rw [List.map_cons, List.nodup_cons] at h
    unfold deleteProjectById
    by_cases hp : p._id = id
    · have hall : ∀ q ∈ ps, (!(q._id == id)) = true := by
        intro q hq
        have : q._id ≠ id := by
          intro hq2
          apply h.1
          rw [hp, ← hq2]
          exact List.mem_map_of_mem _ hq
        simpa using this
      simp [hp, List.filter_eq_self.mpr hall]
    · simp [hp, ih h.2]

/-- A delete that is answered 200 went through every step of the handler. -/
theorem deleteProject_ok (user : ReqUser) (id : ObjectId) (s : Store)
    (hok : (deleteProject user id s).1.status = 200) :
    (deleteProject user id s).2 =
      { users := s.users.map (fun u =>
          if id ∈ u.assignedProjects then
            { u with assignedProjects := pull u.assignedProjects id }
          else u),
        projects := deleteProjectById id s.projects,
        phases := s.phases.filter (fun ph => !(ph.project == id)) } := by
  unfold deleteProject at hok ⊢
  cases ho : ownerOnly user with
  | some r =>
    unfold ownerOnly at ho
    split at ho
    · simp at ho
    · simp only [Option.some.injEq] at ho
      subst ho
      simp [ownerOnly] at hok
      simp_all
  | none =>
    rw [ho] at hok
    simp only at hok ⊢
    cases hf : findProject s.projects id with
    | none => rw [hf] at hok; simp at hok
    | some P =>
      rw [hf] at hok
      simp only at hok ⊢
      by_cases hne : P.owner ≠ user._id
      · simp [hne] at hok
      · simp [hne]

theorem mem_pull (xs : List ObjectId) (v x : ObjectId) :
    x ∈ pull xs v ↔ x ∈ xs ∧ x ≠ v := by
  simp [pull]

theorem mem_pullIn (xs vals : List ObjectId) (x : ObjectId) :
    x ∈ pullIn xs vals ↔ x ∈ xs ∧ x ∉ vals := by
  simp [pullIn]

theorem mem_addToSet (xs vals : List ObjectId) (x : ObjectId) :
    x ∈ addToSet xs vals ↔ x ∈ xs ∨ x ∈ vals := by
  unfold addToSet
  induction vals generalizing xs with
  | nil => simp
  | cons v vs ih =>
    rw [List.foldl_cons, ih]
    by_cases hv : v ∈ xs
    · simp only [hv, if_true, List.mem_cons]
      constructor
      · rintro (h | h)
        · exact Or.inl h
        · exact Or.inr (Or.inr h)
      · rintro (h | h | h)
        · exact Or.inl h
        · exact Or.inl (h ▸ hv)
        · exact Or.inr h
    · simp only [hv, if_false, List.mem_append, List.mem_singleton, List.mem_cons]
      tauto

/-- C6: after a delete of project `id` that is answered 200, the project
ids being unique: no phase of the project remains, no identity has the id in
`assignedProjects`, no project with the id remains, and the phase and project
stores are the earlier ones without the project and its phases. -/
theorem deleteProject_cascade (user : ReqUser) (id : ObjectId) (s : Store)
    (huniq : UniqueProjectIds s)
    (hok : (deleteProject user id s).1.status = 200) :
    (∀ ph ∈ (deleteProject user id s).2.phases, ph.project ≠ id) ∧
    (∀ u ∈ (deleteProject user id s).2.users, id ∉ u.assignedProjects) ∧
    (∀ p ∈ (deleteProject user id s).2.projects, p._id ≠ id) ∧
    (deleteProject user id s).2.phases = s.phases.filter (fun ph => ph.project ≠ id) ∧
    (deleteProject user id s).2.projects = s.projects.filter (fun p => p._id ≠ id) := by
  rw [deleteProject_ok user id s hok]
  have hproj : deleteProjectById id s.projects = s.projects.filter (fun p => p._id ≠ id) := by
    rw [deleteProjectById_eq_filter id s.projects huniq]
    congr 1
    funext p
    rw [Bool.eq_iff_iff]
    simp
  refine ⟨?_, ?_, ?_, ?_, ?_⟩
  · intro ph hph
    simpa using (List.mem_filter.mp hph).2
  · intro u hu
    simp only [List.mem_map] at hu
    obtain ⟨u0, _, rfl⟩ := hu
    by_cases h : id ∈ u0.assignedProjects
    · simp only [h, if_true]
      intro hmem
      exact ((mem_pull _ _ _).mp hmem).2 rfl
    · simp [h]
  · intro q hq
    simp only [hproj] at hq
    simpa using (List.mem_filter.mp hq).2
  · simp only
    congr 1
    funext ph
    rw [Bool.eq_iff_iff]
    simp
  · exact hproj

theorem deleteProject_cascade_witness :
    UniqueProjectIds sampleStore ∧
    (deleteProject asOlivia 10 sampleStore).1.status = 200 ∧
    (deleteProject asOlivia 10 sampleStore).2.projects
      = sampleStore.projects.filter (fun p => p._id ≠ 10) :=
  ⟨by decide, by decide,
    (deleteProject_cascade asOlivia 10 sampleStore (by decide) (by decide)).2.2.2.2⟩

/-! ## Updates of the project store -/

theorem updateProjectById_eq_map (id : ObjectId) (f : Project → Project) (l : List Project)
    (h : (l.map (fun p => p._id)).Nodup) :
    updateProjectById id f l = l.map (fun p => if p._id = id then f p else p) := by
  induction l with
  | nil => rfl
  | cons p ps ih =>
    rw [List.map_cons, List.nodup_cons] at h
    unfold updateProjectById
    by_cases hp : p._id = id
    · have hrest : ps.map (fun q => if q._id = id then f q else q) = ps := by
        conv_rhs => rw [← List.map_id ps]
        apply List.map_congr_left
        intro q hq
        have : q._id ≠ id := by
          intro hq2
          apply h.1
          rw [hp, ← hq2]
          exact List.mem_map_of_mem _ hq
        simp [this]
      simp [hp, hrest]
    · simp [hp, ih h.2]

theorem mem_updateProjectById {id : ObjectId} {f : Project → Project} {l : List Project}
    {q : Project} (h : q ∈ updateProjectById id f l) : q ∈ l ∨ ∃ p ∈ l, q = f p := by
  induction l with
  | nil => simp [updateProjectById] at h
  | cons p ps ih =>
    unfold updateProjectById at h
    split at h
    · rcases List.mem_cons.mp h with h1 | h1
      · exact Or.inr ⟨p, List.mem_cons_self _ _, h1⟩
      · exact Or.inl (List.mem_cons_of_mem _ h1)
    · rcases List.mem_cons.mp h with h1 | h1
      · exact Or.inl (h1 ▸ List.mem_cons_self _ _)
      · rcases ih h1 with h2 | ⟨p0, hp0, h2⟩
        · exact Or.inl (List.mem_cons_of_mem _ h2)
        · exact Or.inr ⟨p0, List.mem_cons_of_mem _ hp0, h2⟩

theorem applyUpdate_frame (u : ProjectUpdate) (hu : u.assignedDevelopers = none) (p : Project) :
    (applyUpdate u p)._id = p._id ∧
    (applyUpdate u p).assignedDevelopers = p.assignedDevelopers := by
  simp [applyUpdate, hu]

theorem deleteProject_cases (user : ReqUser) (id : ObjectId) (s : Store) :
    (deleteProject user id s).2 = s ∨ (deleteProject user id s).1.status = 200 := by
  unfold deleteProject
  cases ownerOnly user with
  | some r => exact Or.inl rfl
  | none =>
    simp only
    split
    · exact Or.inl rfl
    · split
      · exact Or.inl rfl
      · exact Or.inr rfl

theorem map_id_updateProjectById (id : ObjectId) (f : Project → Project)
    (hf : ∀ p, (f p)._id = p._id) (l : List Project) :
    (updateProjectById id f l).map (fun p => p._id) = l.map (fun p => p._id) := by
  induction l with
  | nil => rfl
  | cons p ps ih =>
    unfold updateProjectById
    split
    · simp [hf]
    · simp [ih]

theorem deleteProjectById_sublist (id : ObjectId) (l : List Project) :
    (deleteProjectById id l).Sublist l := by
  induction l with
  | nil => exact List.Sublist.refl _
  | cons p ps ih =>
    unfold deleteProjectById
    split
    · exact List.sublist_cons_self p ps
    · exact List.Sublist.cons₂ p ih

theorem unique_update (s : Store) (id : ObjectId) (f : Project → Project)
    (hf : ∀ p, (f p)._id = p._id) (users : List User) (phases : List Phase)
    (h : UniqueProjectIds s) :
    UniqueProjectIds
      { users := users, projects := updateProjectById id f s.projects, phases := phases } := by
  unfold UniqueProjectIds at h ⊢
  simp only
  rw [map_id_updateProjectById id f hf]
  exact h

theorem findProject_none {projects : List Project} {id : ObjectId}
    (h : ¬ (findProject projects id).isSome = true) : ∀ p ∈ projects, p._id ≠ id := by
  intro p hp hid
  apply h
  unfold findProject
  rw [List.find?_isSome]
  exact ⟨p, hp, by simpa using hid⟩

/-- Every request keeps the project ids unique. -/
theorem unique_handle (user : ReqUser) (req : Request) (s : Store)
    (h : UniqueProjectIds s) : UniqueProjectIds (handle user req s).2 := by
  cases req with
  | listProjects => exact h
  | getProject id => exact h
  | createProject newId body =>
    simp only [handle]
    unfold createProject
    cases ownerOnly user with
    | some r => exact h
    | none =>
      simp only
      split
      · split
        · exact h
        · split
          · exact h
          · rename_i hnone
            have hne := findProject_none hnone
            unfold UniqueProjectIds at h ⊢
            simp only [List.map_append, List.map_cons, List.map_nil]
            refine List.Nodup.append h (List.nodup_singleton _) ?_
            intro x hx hx2
            simp only [List.mem_map] at hx
            obtain ⟨p, hp, rfl⟩ := hx
            simp only [List.mem_singleton] at hx2
            exact hne p hp hx2
      · exact h
  | updateProject id body =>
    simp only [handle]
    unfold updateProject
    split
    · exact h
    · split
      · split
        · exact h
        · simp only
          split
          · exact h
          · rw [findByIdAndUpdate_store]
            refine unique_update s id _ ?_ s.users s.phases h
            intro p
            rfl
      · simp only
        rw [findByIdAndUpdate_store]
        refine unique_update s id _ ?_ s.users s.phases h
        intro p
        rfl
  | deleteProject id =>
    simp only [handle]
    rcases deleteProject_cases user id s with h1 | h1
    · rw [h1]; exact h
    · rw [deleteProject_ok user id s h1]
      unfold UniqueProjectIds at h ⊢
      exact List.Nodup.sublist ((deleteProjectById_sublist id s.projects).map _) h
  | removeDevelopers id developerIds =>
    simp only [handle]
    unfold removeDevelopers
    cases ownerOnly user with
    | some r => exact h
    | none =>
      simp only [findByIdAndUpdate_store]
      refine unique_update s id _ ?_ _ s.phases h
      intro p
      rfl
  | assignDevelopers id developerIds =>
    simp only [handle]
    unfold assignDevelopers
    cases ownerOnly user with
    | some r => exact h
    | none =>
      simp only [findByIdAndUpdate_store]
      refine unique_update s id _ ?_ _ s.phases h
      intro p
      rfl
  | addPhase id newId body =>
    simp only [handle]
    unfold addPhase
    cases ownerOnly user with
    | some r => exact h
    | none =>
      simp only
      split
      · exact h
      · split
        · split
          · exact h
          · split
            · exact h
            · exact unique_update s id
                (fun p => { p with phases := p.phases ++ [newId] }) (fun _ => rfl) _ _ h
        · exact h
  | updatePhase projectId phaseId body =>
    simp only [handle]
    unfold updatePhase
    split
    · exact h
    · simp only
      split
      · exact h
      · split
        · exact h
        · exact h

/-! ## Assignment symmetry -/

theorem exists_id_map_users (g : User → User) (hg : ∀ u, (g u)._id = u._id)
    (l : List User) (d : ObjectId) :
    (∃ D ∈ l.map g, D._id = d) ↔ ∃ D ∈ l, D._id = d := by
  constructor
  · rintro ⟨D, hD, hd⟩
    obtain ⟨u, hu, rfl⟩ := List.mem_map.mp hD
    exact ⟨u, hu, (hg u).symm.trans hd⟩
  · rintro ⟨u, hu, hd⟩
    exact ⟨g u, List.mem_map.mpr ⟨u, hu, rfl⟩, (hg u).trans hd⟩

theorem exists_id_iff_mem_map (l : List Project) (pid : ObjectId) :
    (∃ P ∈ l, P._id = pid) ↔ pid ∈ l.map (fun p => p._id) := by
  simp [List.mem_map]

theorem exists_id_updateProjectById (id : ObjectId) (f : Project → Project)
    (hf : ∀ p, (f p)._id = p._id) (l : List Project) (pid : ObjectId) :
    (∃ P ∈ updateProjectById id f l, P._id = pid) ↔ ∃ P ∈ l, P._id = pid := by
  rw [exists_id_iff_mem_map, exists_id_iff_mem_map, map_id_updateProjectById id f hf]

/-- Symmetry reads the identity and project stores only. -/
theorem symmetric_of_eq {s t : Store} (hu : t.users = s.users) (hp : t.projects = s.projects)
    (h : Symmetric s) : Symmetric t := by
  unfold Symmetric at h ⊢
  rw [hu, hp]
  exact h

/-- An update that keeps `_id` and `assignedDevelopers` keeps the symmetry. -/
theorem symmetric_update_frame (s : Store) (id : ObjectId) (f : Project → Project)
    (hf : ∀ p, (f p)._id = p._id ∧ (f p).assignedDevelopers = p.assignedDevelopers)
    (phases : List Phase) (h : Symmetric s) :
    Symmetric { users := s.users, projects := updateProjectById id f s.projects,
                phases := phases } := by
  obtain ⟨hm, hd, hp⟩ := h
  refine ⟨?_, ?_, ?_⟩
  · intro P hP D hD
    rcases mem_updateProjectById hP with h1 | ⟨p0, hp0, rfl⟩
    · exact hm P h1 D hD
    · rw [(hf p0).1, (hf p0).2]
      exact hm p0 hp0 D hD
  · intro P hP d hdP
    rcases mem_updateProjectById hP with h1 | ⟨p0, hp0, rfl⟩
    · exact hd P h1 d hdP
    · rw [(hf p0).2] at hdP
      exact hd p0 hp0 d hdP
  · intro D hD pid hpid
    exact (exists_id_updateProjectById id f (fun p => (hf p).1) s.projects pid).mpr
      (hp D hD pid hpid)

/-- Assigning stored identities to a stored project keeps the symmetry. -/
theorem symmetric_assign (s : Store) (id : ObjectId) (developerIds : List ObjectId)
    (phases : List Phase) (huniq : UniqueProjectIds s) (h : Symmetric s)
    (hproject : ∃ P ∈ s.projects, P._id = id)
    (hdevs : ∀ d ∈ developerIds, ∃ D ∈ s.users, D._id = d) :
    Symmetric
      { users := s.users.map (fun u =>
          if developerIds.contains u._id then
            { u with assignedProjects := addToSet u.assignedProjects [id] }
          else u),
        projects := updateProjectById id
          (fun p => { p with assignedDevelopers := addToSet p.assignedDevelopers developerIds })
          s.projects,
        phases := phases } := by
  obtain ⟨hm, hd, hp⟩ := h
  have hg : ∀ u : User, (if developerIds.contains u._id then
      { u with assignedProjects := addToSet u.assignedProjects [id] } else u)._id = u._id := by
    intro u
    split <;> rfl
  refine ⟨?_, ?_, ?_⟩
  · intro P hP D hD
    simp only [updateProjectById_eq_map id _ s.projects huniq, List.mem_map] at hP hD
    obtain ⟨p0, hp0, rfl⟩ := hP
    obtain ⟨d0, hd0, rfl⟩ := hD
    have h0 := hm p0 hp0 d0 hd0
    by_cases hpe : p0._id = id <;> by_cases hde : d0._id ∈ developerIds
    · have hc : developerIds.contains d0._id = true := by simpa using hde
      simp [hpe, hde, hc, mem_addToSet]
    · have hc : developerIds.contains d0._id = false := by simpa using hde
      simp only [hpe, hc, if_true, mem_addToSet]
      rw [← hpe]
      simpa [hde] using h0
    · have hc : developerIds.contains d0._id = true := by simpa using hde
      simp only [hpe, hc, if_true, if_false, mem_addToSet, List.mem_singleton, or_false]
      exact h0
    · have hc : developerIds.contains d0._id = false := by simpa using hde
      simp only [hpe, hc, if_false]
      simpa using h0
  · intro P hP d hdP
    simp only at hP ⊢
    rw [exists_id_map_users _ hg]
    rcases mem_updateProjectById hP with h1 | ⟨p0, hp0, rfl⟩
    · exact hd P h1 d hdP
    · simp only [mem_addToSet] at hdP
      rcases hdP with h1 | h1
      · exact hd p0 hp0 d h1
      · exact hdevs d h1
  · intro D hD pid hpid
    simp only at hD ⊢
    rw [exists_id_updateProjectById id
      (fun p => { p with assignedDevelopers := addToSet p.assignedDevelopers developerIds })
      (fun _ => rfl)]
    obtain ⟨d0, hd0, rfl⟩ := List.mem_map.mp hD
    split at hpid
    · simp only [mem_addToSet, List.mem_singleton] at hpid
      rcases hpid with h1 | h1
      · exact hp d0 hd0 pid h1
      · rw [h1]
        exact hproject
    · exact hp d0 hd0 pid hpid

theorem symmetric_remove (s : Store) (id : ObjectId) (developerIds : List ObjectId)
    (phases : List Phase) (huniq : UniqueProjectIds s) (h : Symmetric s) :
    Symmetric
      { users := s.users.map (fun u =>
          if developerIds.contains u._id then
            { u with assignedProjects := pull u.assignedProjects id }
          else u),
        projects := updateProjectById id
          (fun p => { p with assignedDevelopers := pullIn p.assignedDevelopers developerIds })
          s.projects,
        phases := phases } := by
  obtain ⟨hm, hd, hp⟩ := h
  have hg : ∀ u : User, (if developerIds.contains u._id then
      { u with assignedProjects := pull u.assignedProjects id } else u)._id = u._id := by
    intro u
    split <;> rfl
  refine ⟨?_, ?_, ?_⟩
  · intro P hP D hD
    simp only [updateProjectById_eq_map id _ s.projects huniq, List.mem_map] at hP hD
    obtain ⟨p0, hp0, rfl⟩ := hP
    obtain ⟨d0, hd0, rfl⟩ := hD
    have h0 := hm p0 hp0 d0 hd0
    by_cases hpe : p0._id = id <;> by_cases hde : d0._id ∈ developerIds
    · have hc : developerIds.contains d0._id = true := by simpa using hde
      simp [hpe, hde, hc, mem_pullIn, mem_pull]
    · have hc : developerIds.contains d0._id = false := by simpa using hde
      simp only [hpe, hc, if_true, mem_pullIn]
      rw [← hpe]
      simpa [hde] using h0
    · have hc : developerIds.contains d0._id = true := by simpa using hde
      simp only [hpe, hc, if_true, if_false, mem_pull, ne_eq, not_false_eq_true, and_true]
      exact h0
    · have hc : developerIds.contains d0._id = false := by simpa using hde
      simp only [hpe, hc, if_false]
      simpa using h0
  · intro P hP d hdP
    simp only at hP ⊢
    rw [exists_id_map_users _ hg]
    rcases mem_updateProjectById hP with h1 | ⟨p0, hp0, rfl⟩
    · exact hd P h1 d hdP
    · simp only [mem_pullIn] at hdP
      exact hd p0 hp0 d hdP.1
  · intro D hD pid hpid
    simp only at hD ⊢
    rw [exists_id_updateProjectById id
      (fun p => { p with assignedDevelopers := pullIn p.assignedDevelopers developerIds })
      (fun _ => rfl)]
    obtain ⟨d0, hd0, rfl⟩ := List.mem_map.mp hD
    split at hpid
    · simp only [mem_pull] at hpid
      exact hp d0 hd0 pid hpid.1
    · exact hp d0 hd0 pid hpid

theorem symmetric_delete (s : Store) (id : ObjectId) (phases : List Phase)
    (huniq : UniqueProjectIds s) (h : Symmetric s) :
    Symmetric
      { users := s.users.map (fun u =>
          if id ∈ u.assignedProjects then
            { u with assignedProjects := pull u.assignedProjects id }
          else u),
        projects := deleteProjectById id s.projects,
        phases := phases } := by
  obtain ⟨hm, hd, hp⟩ := h
  have hg : ∀ u : User, (if id ∈ u.assignedProjects then
      { u with assignedProjects := pull u.assignedProjects id } else u)._id = u._id := by
    intro u
    split <;> rfl
  refine ⟨?_, ?_, ?_⟩
  · intro P hP D hD
    simp only [deleteProjectById_eq_filter id s.projects huniq, List.mem_map,
      List.mem_filter] at hP hD
    obtain ⟨hp0, hne⟩ := hP
    obtain ⟨d0, hd0, rfl⟩ := hD
    have hne2 : P._id ≠ id := by simpa using hne
    have h0 := hm P hp0 d0 hd0
    by_cases hde : id ∈ d0.assignedProjects
    · simp only [hde, if_true, mem_pull, ne_eq, hne2, not_false_eq_true, and_true]
      exact h0
    · simp only [hde, if_false]
      exact h0
  · intro P hP d hdP
    simp only [deleteProjectById_eq_filter id s.projects huniq, List.mem_filter] at hP
    simp only
    rw [exists_id_map_users _ hg]
    exact hd P hP.1 d hdP
  · intro D hD pid hpid
    simp only at hD
    simp only [deleteProjectById_eq_filter id s.projects huniq, List.mem_filter]
    obtain ⟨d0, hd0, rfl⟩ := List.mem_map.mp hD
    have hboth : pid ∈ d0.assignedProjects ∧ pid ≠ id := by
      split at hpid
      · simpa [mem_pull] using hpid
      · rename_i hnot
        refine ⟨hpid, ?_⟩
        intro he
        exact hnot (he ▸ hpid)
    obtain ⟨P, hP, hPid⟩ := hp d0 hd0 pid hboth.1
    refine ⟨P, ⟨hP, ?_⟩, hPid⟩
    simpa [hPid] using hboth.2

theorem symmetric_createProject (user : ReqUser) (newId : ObjectId) (body : ProjectInput)
    (s : Store) (h : Symmetric s) :
    Symmetric (createProject user newId body s).2 := by
  unfold createProject
  cases ownerOnly user with
  | some r => exact h
  | none =>
    simp only
    split
    · split
      · exact h
      · split
        · exact h
        · rename_i hfree
          obtain ⟨hm, hd, hp⟩ := h
          refine ⟨?_, ?_, ?_⟩
          · intro P hP D hD
            simp only [List.mem_append, List.mem_singleton] at hP
            rcases hP with hP | rfl
            · exact hm P hP D hD
            · simp only [List.not_mem_nil, false_iff]
              intro hmem
              obtain ⟨Q, hQ, hQid⟩ := hp D hD newId hmem
              exact findProject_none hfree Q hQ hQid
          · intro P hP d hdP
            simp only [List.mem_append, List.mem_singleton] at hP
            rcases hP with hP | rfl
            · exact hd P hP d hdP
            · simp at hdP
          · intro D hD pid hpid
            obtain ⟨Q, hQ, hQid⟩ := hp D hD pid hpid
            exact ⟨Q, List.mem_append_left _ hQ, hQid⟩
    · exact h

theorem symmetric_updateProject (user : ReqUser) (id : ObjectId) (body : ProjectUpdate)
    (s : Store) (hbody : user.role = Role.owner → body.assignedDevelopers = none)
    (h : Symmetric s) : Symmetric (updateProject user id body s).2 := by
  unfold updateProject
  split
  · exact h
  · split
    · split
      · exact h
      · simp only
        split
        · exact h
        · rw [findByIdAndUpdate_store]
          exact symmetric_update_frame s id _ (applyUpdate_frame _ rfl) s.phases h
    · rename_i hr
      have hro : user.role = Role.owner := by
        cases hrole : user.role with
        | owner => rfl
        | developer => exact absurd hrole hr
      simp only
      rw [findByIdAndUpdate_store]
      exact symmetric_update_frame s id _ (applyUpdate_frame _ (hbody hro)) s.phases h

theorem symmetric_deleteProject (user : ReqUser) (id : ObjectId) (s : Store)
    (huniq : UniqueProjectIds s) (h : Symmetric s) :
    Symmetric (deleteProject user id s).2 := by
  rcases deleteProject_cases user id s with h1 | h1
  · rw [h1]; exact h
  · rw [deleteProject_ok user id s h1]
    exact symmetric_delete s id _ huniq h

theorem symmetric_removeDevelopers (user : ReqUser) (id : ObjectId)
    (developerIds : List ObjectId) (s : Store) (huniq : UniqueProjectIds s)
    (h : Symmetric s) : Symmetric (removeDevelopers user id developerIds s).2 := by
  unfold removeDevelopers
  cases ownerOnly user with
  | some r => exact h
  | none =>
    simp only [findByIdAndUpdate_store]
    exact symmetric_remove s id developerIds s.phases huniq h

theorem symmetric_assignDevelopers (user : ReqUser) (id : ObjectId)
    (developerIds : List ObjectId) (s : Store) (huniq : UniqueProjectIds s)
    (h : Symmetric s)
    (hstored : user.role = Role.owner →
      (∃ P ∈ s.projects, P._id = id) ∧ ∀ d ∈ developerIds, ∃ D ∈ s.users, D._id = d) :
    Symmetric (assignDevelopers user id developerIds s).2 := by
  cases hrole : user.role with
  | developer =>
    have hdenied := ownerOnly_developer hrole
    unfold assignDevelopers
    rw [hdenied]
    exact h
  | owner =>
    have hpass := ownerOnly_owner hrole
    unfold assignDevelopers
    rw [hpass]
    simp only [findByIdAndUpdate_store]
    exact symmetric_assign s id developerIds s.phases huniq h (hstored hrole).1
      (hstored hrole).2

theorem symmetric_addPhase (user : ReqUser) (id newId : ObjectId) (body : PhaseInput)
    (s : Store) (h : Symmetric s) : Symmetric (addPhase user id newId body s).2 := by
  unfold addPhase
  cases ownerOnly user with
  | some r => exact h
  | none =>
    simp only
    split
    · exact h
    · split
      · split
        · exact h
        · split
          · exact h
          · exact symmetric_update_frame s id
              (fun p => { p with phases := p.phases ++ [newId] }) (fun _ => ⟨rfl, rfl⟩) _ h
      · exact h

theorem symmetric_updatePhase (user : ReqUser) (projectId phaseId : ObjectId)
    (body : PhaseUpdate) (s : Store) (h : Symmetric s) :
    Symmetric (updatePhase user projectId phaseId body s).2 := by
  unfold updatePhase
  split
  · exact h
  · simp only
    split
    · exact h
    · split
      · exact h
      · exact symmetric_of_eq rfl rfl h

/-- C7 as the code has it: the assignment symmetry (every stored reference
has its mirror and refers to a stored document), together with the
uniqueness of the project ids, is kept by every request to the project
routes, with any project id and any `developerIds` list, provided that an
owner's project update does not carry `assignedDevelopers` and that an
owner's assign request names a stored project and stored identities only. -/
theorem symmetric_preserved (user : ReqUser) (req : Request) (s : Store)
    (huniq : UniqueProjectIds s) (hsym : Symmetric s)
    (hupd : ∀ id body, req = Request.updateProject id body →
      user.role = Role.owner → body.assignedDevelopers = none)
    (hassign : ∀ id developerIds, req = Request.assignDevelopers id developerIds →
      user.role = Role.owner →
      (∃ P ∈ s.projects, P._id = id) ∧ ∀ d ∈ developerIds, ∃ D ∈ s.users, D._id = d) :
    UniqueProjectIds (handle user req s).2 ∧ Symmetric (handle user req s).2 := by
  refine ⟨unique_handle user req s huniq, ?_⟩
  cases req with
  | listProjects => exact hsym
  | getProject id => exact hsym
  | createProject newId body => exact symmetric_createProject user newId body s hsym
  | updateProject id body =>
    exact symmetric_updateProject user id body s (hupd id body rfl) hsym
  | deleteProject id => exact symmetric_deleteProject user id s huniq hsym
  | removeDevelopers id developerIds =>
    exact symmetric_removeDevelopers user id developerIds s huniq hsym
  | assignDevelopers id developerIds =>
    exact symmetric_assignDevelopers user id developerIds s huniq hsym
      (hassign id developerIds rfl)
  | addPhase id newId body => exact symmetric_addPhase user id newId body s hsym
  | updatePhase projectId phaseId body =>
    exact symmetric_updatePhase user projectId phaseId body s hsym

theorem symmetric_preserved_witness :
    UniqueProjectIds sampleStore ∧ Symmetric sampleStore ∧
    asOlivia.role = Role.owner ∧
    (handle asOlivia (Request.assignDevelopers 10 [3]) sampleStore).1.status = 200 ∧
    Symmetric (handle asOlivia (Request.assignDevelopers 10 [3]) sampleStore).2 :=
  ⟨by decide, by decide, by decide, by decide,
    (symmetric_preserved asOlivia (Request.assignDevelopers 10 [3]) sampleStore
      (by decide) (by decide)
      (fun _ _ h => Request.noConfusion h)
      (fun id developerIds h _ => by
        injection h with h1 h2
        subst h1
        subst h2
        decide)).2⟩

/-- C7 as stated fails, in three ways, each from the symmetric sample state
and each answered 200.  Olivia, an owner, sends `PUT /projects/10` with
`assignedDevelopers = [3]`: afterwards Devon is in Alpha's assigned
developers and Alpha is not in Devon's assigned projects.  She sends
`POST /projects/99/assign` with `developerIds = [3]`, no project 99 being
stored: afterwards Devon's assigned projects hold 99, which no project
mirrors.  She sends `POST /projects/10/assign` with `developerIds = [50]`, no
identity 50 being stored: afterwards Alpha's assigned developers hold 50,
which no identity mirrors. -/
theorem symmetric_broken_by_owner_update :
    Symmetric sampleStore ∧
    (handle asOlivia (Request.updateProject 10 reassignUpdate) sampleStore).1.status = 200 ∧
    ¬ Symmetric (handle asOlivia (Request.updateProject 10 reassignUpdate) sampleStore).2 ∧
    (handle asOlivia (Request.assignDevelopers 99 [3]) sampleStore).1.status = 200 ∧
    ¬ Symmetric (handle asOlivia (Request.assignDevelopers 99 [3]) sampleStore).2 ∧
    (handle asOlivia (Request.assignDevelopers 10 [50]) sampleStore).1.status = 200 ∧
    ¬ Symmetric (handle asOlivia (Request.assignDevelopers 10 [50]) sampleStore).2 := by
  refine ⟨by decide, by decide, by decide, by decide, by decide, by decide, by decide⟩

/-! ## Assign and remove -/

theorem update_update_restore (id : ObjectId) (f g : Project → Project) (P : Project)
    (l : List Project) (hP : findProject l id = some P) (hid : (f P)._id = id)
    (hgf : g (f P) = P) :
    updateProjectById id g (updateProjectById id f l) = l := by
  induction l with
  | nil => simp [findProject] at hP
  | cons p ps ih =>
    by_cases hp : p._id = id
    · have hPp : P = p := by
        have : findProject (p :: ps) id = some p := by simp [findProject, hp]
        rw [this] at hP
        exact (Option.some.inj hP).symm
      subst hPp
      simp [updateProjectById, hp, hid, hgf]
    · have hP2 : findProject ps id = some P := by
        simpa [findProject, List.find?_cons, hp] using hP
      simp [updateProjectById, hp, ih hP2]

theorem addToSet_singleton_of_not_mem (xs : List ObjectId) (v : ObjectId) (h : v ∉ xs) :
    addToSet xs [v] = xs ++ [v] := by
  simp [addToSet, h]

theorem pull_append_singleton (xs : List ObjectId) (v : ObjectId) (h : v ∉ xs) :
    pull (xs ++ [v]) v = xs := by
  unfold pull
  rw [List.filter_append]
  have hall : ∀ x ∈ xs, (!(x == v)) = true := by
    intro x hx
    have : x ≠ v := fun hxv => h (hxv ▸ hx)
    simpa using this
  simp [List.filter_eq_self.mpr hall]

theorem pullIn_singleton (xs : List ObjectId) (v : ObjectId) :
    pullIn xs [v] = pull xs v := by
  unfold pullIn pull
  congr 1
  funext x
  rw [Bool.eq_iff_iff]
  simp

/-- C8 as the code has it: for an owner caller, an existing project `P` and a
developer id `D` that is not yet assigned (`D` is not in `P.assignedDevelopers`
and no identity with id `D` has `P`'s id in `assignedProjects`), assigning
`[D]` and then removing `[D]` restores the stores, so `D`'s assigned projects
and `P`'s assigned developers are what they were before the assignment. -/
theorem assign_remove_roundtrip (user : ReqUser) (id D : ObjectId) (s : Store) (P : Project)
    (hr : user.role = Role.owner)
    (hP : findProject s.projects id = some P)
    (hD : D ∉ P.assignedDevelopers)
    (hU : ∀ u ∈ s.users, u._id = D → id ∉ u.assignedProjects) :
    (removeDevelopers user id [D] (assignDevelopers user id [D] s).2).2 = s := by
  have hPid : P._id = id := (findProject_some hP).2
  have hprojects :
      updateProjectById id
        (fun p => { p with assignedDevelopers := pullIn p.assignedDevelopers [D] })
        (updateProjectById id
          (fun p => { p with assignedDevelopers := addToSet p.assignedDevelopers [D] })
          s.projects) = s.projects := by
    apply update_update_restore id _ _ P s.projects hP hPid
    simp only [addToSet_singleton_of_not_mem _ _ hD, pullIn_singleton,
      pull_append_singleton _ _ hD]
  have husers :
      (s.users.map (fun u =>
          if [D].contains u._id then
            { u with assignedProjects := addToSet u.assignedProjects [id] }
          else u)).map (fun u =>
          if [D].contains u._id then
            { u with assignedProjects := pull u.assignedProjects id }
          else u) = s.users := by
    rw [List.map_map]
    conv_rhs => rw [← List.map_id s.users]
    apply List.map_congr_left
    intro u hu
    by_cases hud : u._id = D
    · have hc : [D].contains u._id = true := by simp [hud]
      have hfresh := hU u hu hud
      simp only [Function.comp_apply, hc, if_true,
        addToSet_singleton_of_not_mem _ _ hfresh, pull_append_singleton _ _ hfresh]
      rfl
    · have hc : [D].contains u._id = false := by simpa using hud
      simp only [Function.comp_apply, hc, Bool.false_eq_true, if_false]
      rfl
  simp only [removeDevelopers, assignDevelopers, ownerOnly_owner hr, findByIdAndUpdate_store,
    hprojects, husers]

theorem assign_remove_roundtrip_witness :
    asOlivia.role = Role.owner ∧
    findProject sampleStore.projects 10 = some alpha ∧
    (3 : ObjectId) ∉ alpha.assignedDevelopers ∧
    (∀ u ∈ sampleStore.users, u._id = 3 → (10 : ObjectId) ∉ u.assignedProjects) ∧
    (assignDevelopers asOlivia 10 [3] sampleStore).2 ≠ sampleStore ∧
    (removeDevelopers asOlivia 10 [3] (assignDevelopers asOlivia 10 [3] sampleStore).2).2
      = sampleStore :=
  ⟨rfl, rfl, by decide, by decide, by decide,
    assign_remove_roundtrip asOlivia 10 3 sampleStore alpha rfl rfl (by decide) (by decide)⟩

/-- C8 as stated fails: Dana is already assigned to Alpha; after assigning
`[2]` and removing `[2]`, Alpha's assigned developers and Dana's assigned
projects are empty, not what they were before the assignment. -/
theorem assign_remove_not_restoring :
    (findProject sampleStore.projects 10).map (fun p => p.assignedDevelopers) = some [2] ∧
    (findUser sampleStore.users 2).map (fun u => u.assignedProjects) = some [10] ∧
    (findProject
      (removeDevelopers asOlivia 10 [2] (assignDevelopers asOlivia 10 [2] sampleStore).2).2.projects
      10).map (fun p => p.assignedDevelopers) = some [] ∧
    (findUser
      (removeDevelopers asOlivia 10 [2] (assignDevelopers asOlivia 10 [2] sampleStore).2).2.users
      2).map (fun u => u.assignedProjects) = some [] := by
  refine ⟨by decide, by decide, by decide, by decide⟩

/-! ## Listing projects -/

/-- C9: `GET /projects` answers 200 with a list of populated projects.  For
an owner the listed documents are the project store; for a developer with id
`uid` a document is listed if and only if it is a stored project whose
`assignedDevelopers` contains `uid`. -/
theorem listProjects_result (uid : ObjectId) (s : Store) :
    (∃ l, listProjects ⟨uid, Role.owner⟩ s = ⟨200, Body.projectList l⟩ ∧
      l.map (fun v => v.doc) = s.projects) ∧
    (∃ l, listProjects ⟨uid, Role.developer⟩ s = ⟨200, Body.projectList l⟩ ∧
      ∀ p, p ∈ l.map (fun v => v.doc) ↔ (p ∈ s.projects ∧ uid ∈ p.assignedDevelopers)) := by
  have hdoc : ∀ l : List Project, (l.map (populateListed s)).map (fun v => v.doc) = l := by
    intro l
    rw [List.map_map]
    conv_rhs => rw [← List.map_id l]
    apply List.map_congr_left
    intro p _
    rfl
  constructor
  · exact ⟨s.projects.map (populateListed s), by simp [listProjects], hdoc _⟩
  · refine ⟨(s.projects.filter (fun p => p.assignedDevelopers.contains uid)).map
      (populateListed s), by simp [listProjects], ?_⟩
    intro p
    rw [hdoc]
    simp [List.mem_filter]

/-! ## Updates without recognized fields -/

theorem recognized_eq_nil {body : ProjectUpdate} (h : body.recognized = []) :
    body.name = none ∧ body.description = none ∧ body.status = none ∧
    body.startDate = none ∧ body.endDate = none ∧ body.owner = none ∧
    body.assignedDevelopers = none ∧ body.phases = none := by
  simp only [ProjectUpdate.recognized, ProjectUpdate.keys, List.append_eq_nil,
    List.append_nil] at h
  obtain ⟨⟨⟨⟨⟨⟨⟨h1, h2⟩, h3⟩, h4⟩, h5⟩, h6⟩, h7⟩, h8⟩ := h
  refine ⟨?_, ?_, ?_, ?_, ?_, ?_, ?_, ?_⟩
  · cases hx : body.name with
    | none => rfl
    | some _ => simp [hx] at h1
  · cases hx : body.description with
    | none => rfl
    | some _ => simp [hx] at h2
  · cases hx : body.status with
    | none => rfl
    | some _ => simp [hx] at h3
  · cases hx : body.startDate with
    | none => rfl
    | some _ => simp [hx] at h4
  · cases hx : body.endDate with
    | none => rfl
    | some _ => simp [hx] at h5
  · cases hx : body.owner with
    | none => rfl
    | some _ => simp [hx] at h6
  · cases hx : body.assignedDevelopers with
    | none => rfl
    | some _ => simp [hx] at h7
  · cases hx : body.phases with
    | none => rfl
    | some _ => simp [hx] at h8

/-- C10 as the code has it: on `PUT /projects/:id` of an existing project with
a payload that has no recognized project field, an assigned developer gets
400 and an owner gets 200; in both cases the stores are unchanged. -/
theorem updateProject_no_recognized_fields (user : ReqUser) (id : ObjectId)
    (body : ProjectUpdate) (s : Store) (P : Project)
    (hP : findProject s.projects id = some P)
    (hbody : body.recognized = []) :
    (user.role = Role.developer → user._id ∈ P.assignedDevelopers →
      updateProject user id body s = (⟨400, Body.message "No valid updates provided"⟩, s)) ∧
    (user.role = Role.owner →
      (updateProject user id body s).1.status = 200 ∧ (updateProject user id body s).2 = s) := by
  obtain ⟨h1, h2, h3, h4, h5, h6, h7, h8⟩ := recognized_eq_nil hbody
  constructor
  · intro hr hm
    simp [updateProject, hP, hr, hm, keys_allowedUpdates, h3]
  · intro hr
    have hsame : ∀ p, applyUpdate body p = p := by
      intro p
      simp [applyUpdate, h1, h2, h3, h4, h5, h6, h7, h8]
    simp [updateProject, hP, hr, findByIdAndUpdate_store,
      updateProjectById_id id _ hsame]

theorem updateProject_no_recognized_fields_witness :
    findProject sampleStore.projects 10 = some alpha ∧
    ({ emptyUpdate with extra := ["colour"] } : ProjectUpdate).recognized = [] ∧
    asDana.role = Role.developer ∧ asDana._id ∈ alpha.assignedDevelopers ∧
    updateProject asDana 10 { emptyUpdate with extra := ["colour"] } sampleStore
      = (⟨400, Body.message "No valid updates provided"⟩, sampleStore) :=
  ⟨rfl, by decide, rfl, by decide,
    (updateProject_no_recognized_fields asDana 10 { emptyUpdate with extra := ["colour"] }
      sampleStore alpha rfl (by decide)).1 rfl (by decide)⟩

/-- C10 as stated fails: Olivia, an owner, sends `PUT /projects/10` with the
empty object; the answer is 200 with the project, not 400. -/
theorem updateProject_owner_empty_payload_accepted :
    emptyUpdate.keys = [] ∧
    findProject sampleStore.projects 10 = some alpha ∧
    updateProject asOlivia 10 emptyUpdate sampleStore
      = (⟨200, Body.projectView (populateAssigned sampleStore alpha)⟩, sampleStore) := by
  refine ⟨by decide, rfl, by decide⟩

/-! ## Requests that name a missing project -/

/-- C11 as the code has it: when the project id of the request is absent
from the project store, a read and an update are answered 404 for every
caller, and a delete is answered 404 for an owner-role caller; a developer's
delete is refused (403) by the owner-only gate, which runs before the lookup.
The stores are unchanged. -/
theorem absent_project_not_found (user : ReqUser) (id : ObjectId) (s : Store)
    (h : findProject s.projects id = none) :
    getProject user id s = ⟨404, Body.message "Project not found"⟩ ∧
    (∀ body, updateProject user id body s = (⟨404, Body.message "Project not found"⟩, s)) ∧
    (user.role = Role.owner →
      deleteProject user id s = (⟨404, Body.message "Project not found"⟩, s)) ∧
    (user.role = Role.developer →
      (deleteProject user id s).1.status = 403 ∧ (deleteProject user id s).2 = s) := by
  refine ⟨?_, ?_, ?_, ?_⟩
  · simp [getProject, h]
  · intro body
    simp [updateProject, h]
  · intro hr
    simp [deleteProject, ownerOnly_owner hr, h]
  · intro hr
    simp [deleteProject, ownerOnly_developer hr]

theorem absent_project_not_found_witness :
    findProject sampleStore.projects 99 = none ∧
    asOtherOwner.role = Role.owner ∧
    deleteProject asOtherOwner 99 sampleStore
      = (⟨404, Body.message "Project not found"⟩, sampleStore) :=
  ⟨rfl, rfl, (absent_project_not_found asOtherOwner 99 sampleStore rfl).2.2.1 rfl⟩

/-- C11 as stated fails: no project has id 99; Dana's delete of project 99
is answered 403, and Dana's update of the existing phase 100 through the path
of project 99 is answered 500. -/
theorem absent_project_forbidden_or_error :
    findProject sampleStore.projects 99 = none ∧
    (deleteProject asDana 99 sampleStore).1.status = 403 ∧
    findPhase sampleStore.phases 100 = some design ∧
    (updatePhase asDana 99 100 ⟨some "completed", none⟩ sampleStore).1.status = 500 := by
  refine ⟨rfl, by decide, rfl, by decide⟩

/-! ## The parent of a phase -/

/-- C12: creating a phase under a project id that does not exist creates a
phase.  No project has id 99; Olivia's `POST /projects/99/phases` is answered
201, the phase 102 is stored with parent 99 and the project store still has
no project 99. -/
theorem addPhase_without_project :
    findProject sampleStore.projects 99 = none ∧
    (∀ ph ∈ sampleStore.phases, (findProject sampleStore.projects ph.project).isSome) ∧
    (addPhase asOlivia 99 102 phaseInput sampleStore).1.status = 201 ∧
    (findPhase (addPhase asOlivia 99 102 phaseInput sampleStore).2.phases 102).map
      (fun ph => ph.project) = some 99 ∧
    findProject (addPhase asOlivia 99 102 phaseInput sampleStore).2.projects 99 = none := by
  refine ⟨rfl, by decide, by decide, by decide, by decide⟩

/-! ## Developer registration -/

theorem insertUser_some {u : User} {users users1 : List User}
    (h : insertUser u users = some users1) : users1 = users ++ [u] := by
  unfold insertUser at h
  split at h
  · simp at h
  · exact (Option.some.inj h).symm

/-- A registration either leaves the stores as they are and is not answered
201, or is answered 201 and appends one developer. -/
theorem register_cases (env : Env) (newId : ObjectId) (body : RegisterInput) (s : Store) :
    ((register env newId body s).1.status ≠ 201 ∧ (register env newId body s).2 = s) ∨
    ((register env newId body s).1.status = 201 ∧
      ∃ u : User, (register env newId body s).2 = { s with users := s.users ++ [u] } ∧
        u._id = newId ∧ u.role = Role.developer ∧ u.skills = [] ∧
        u.assignedProjects = [] ∧ u.username = none) := by
  unfold register
  split
  · exact Or.inl ⟨by simp, rfl⟩
  · split
    · split
      · exact Or.inl ⟨by simp [serverError], rfl⟩
      · dsimp only
        split
        · exact Or.inl ⟨by simp [serverError], rfl⟩
        · rename_i users hins
          right
          refine ⟨rfl, ?_⟩
          rw [insertUser_some hins]
          exact ⟨_, rfl, rfl, rfl, rfl, rfl, rfl⟩
    · exact Or.inl ⟨by simp [serverError], rfl⟩

/-- C13 as the code has it: a registration whose payload misses a required
developer field fails and the stores are unchanged; the answer is the one of
the handler's `catch` (500, as for a storage error), unless the lookup by
email finds a stored identity, when it is 400 'User already exists'.  A
payload without email finds nobody and is answered 500. -/
theorem register_missing_field (env : Env) (newId : ObjectId) (body : RegisterInput)
    (s : Store)
    (hmiss : body.name = none ∨ body.email = none ∨ body.school = none ∨
      body.grade = none ∨ body.hoursPerWeek = none ∨ body.resume = none ∨
      body.password = none) :
    ((∀ u ∈ s.users, body.email ≠ some u.email) →
      register env newId body s = (⟨500, Body.serverError⟩, s)) ∧
    (body.email = none → register env newId body s = (⟨500, Body.serverError⟩, s)) ∧
    ((∃ u ∈ s.users, body.email = some u.email) →
      register env newId body s = (⟨400, Body.message "User already exists"⟩, s)) := by
  have hnone : findUserByEmail s.users body.email = none →
      register env newId body s = (⟨500, Body.serverError⟩, s) := by
    intro hfind
    unfold register
    rw [hfind]
    dsimp only
    split
    · rename_i h1 h2 h3 h4 h5 h6 h7
      rcases hmiss with h | h | h | h | h | h | h <;> simp_all
    · rfl
  refine ⟨?_, ?_, ?_⟩
  · intro hno
    apply hnone
    cases he : body.email with
    | none => rfl
    | some e =>
      simp only [findUserByEmail]
      rw [List.find?_eq_none]
      intro u hu
      have := hno u hu
      rw [he] at this
      simpa using fun h : u.email = e => this (by rw [h])
  · intro he
    apply hnone
    rw [he]
    rfl
  · rintro ⟨u, hu, he⟩
    have hsome : (findUserByEmail s.users body.email).isSome = true := by
      rw [he]
      simp only [findUserByEmail]
      rw [List.find?_isSome]
      exact ⟨u, hu, by simp⟩
    obtain ⟨v, hv⟩ := Option.isSome_iff_exists.mp hsome
    unfold register
    rw [hv]

theorem register_missing_field_witness :
    ({ fullRegistration with school := none } : RegisterInput).school = none ∧
    (∀ u ∈ sampleStore.users,
      ({ fullRegistration with school := none } : RegisterInput).email ≠ some u.email) ∧
    register sampleEnv 5 { fullRegistration with school := none } sampleStore
      = (⟨500, Body.serverError⟩, sampleStore) :=
  ⟨rfl, by decide,
    (register_missing_field sampleEnv 5 { fullRegistration with school := none } sampleStore
      (Or.inr (Or.inr (Or.inl rfl)))).1 (by decide)⟩

/-- C13 as stated fails: a registration without `school`, with an email that
is not registered, and a registration without `email` are answered 500 with
the body of the handler's `catch`, the answer that a complete registration
gets when the insert fails on a duplicate key; they are not answered 400. -/
theorem register_missing_field_server_error :
    (register sampleEnv 5 { fullRegistration with school := none } sampleStore).1
      = ⟨500, Body.serverError⟩ ∧
    (register sampleEnv 5 { fullRegistration with email := none } sampleStore).1
      = ⟨500, Body.serverError⟩ ∧
    (register sampleEnv 1 fullRegistration sampleStore).1 = ⟨500, Body.serverError⟩ ∧
    (register sampleEnv 5 fullRegistration sampleStore).1.status = 201 := by
  refine ⟨by decide, by decide, by decide, by decide⟩

/-- C14: for every registration payload, whatever `role`, `username`,
`skills` or `assignedProjects` it carries, a registration answered 201 adds
exactly one identity, whose role is developer and whose `skills` and
`assignedProjects` are empty; a registration answered otherwise changes
nothing; and in every case the owner identities of the store are the same
before and after. -/
theorem register_creates_developer (env : Env) (newId : ObjectId) (body : RegisterInput)
    (s : Store) :
    ((register env newId body s).1.status = 201 →
      ∃ u : User, (register env newId body s).2 = { s with users := s.users ++ [u] } ∧
        u._id = newId ∧ u.role = Role.developer ∧ u.skills = [] ∧
        u.assignedProjects = [] ∧ u.username = none) ∧
    ((register env newId body s).1.status ≠ 201 → (register env newId body s).2 = s) ∧
    (register env newId body s).2.users.filter (fun u => u.role == Role.owner)
      = s.users.filter (fun u => u.role == Role.owner) := by
  rcases register_cases env newId body s with ⟨h1, h2⟩ | ⟨h1, u, h2, h3, h4, h5, h6, h7⟩
  · exact ⟨fun h => absurd h h1, fun _ => h2, by rw [h2]⟩
  · refine ⟨fun _ => ⟨u, h2, h3, h4, h5, h6, h7⟩, fun h => absurd h1 h, ?_⟩
    rw [h2]
    simp [List.filter_append, h4]

theorem register_creates_developer_witness :
    (register sampleEnv 5
      escalatingRegistration sampleStore).1.status = 201 ∧
    ∃ u : User,
      (register sampleEnv 5
        escalatingRegistration sampleStore).2
        = { sampleStore with users := sampleStore.users ++ [u] } ∧
      u._id = 5 ∧ u.role = Role.developer ∧ u.skills = [] ∧
      u.assignedProjects = [] ∧ u.username = none :=
  ⟨by decide,
    (register_creates_developer sampleEnv 5
      escalatingRegistration sampleStore).1 (by decide)⟩

/-! ## Login -/

/-- A pair that is not in the allow-list gets 401 and the stores are
unchanged. -/
theorem ownerLogin_not_listed (env : Env) (newId : ObjectId) (username password : String)
    (s : Store)
    (h : ∀ o ∈ env.owners, ¬ (o.username = username ∧ o.password = password)) :
    ownerLogin env newId username password s
      = (⟨401, Body.message "Invalid credentials"⟩, s) := by
  have hfind : env.owners.find? (fun o => o.username == username && o.password == password)
      = none := by
    rw [List.find?_eq_none]
    intro o ho
    simpa using h o ho
  simp [ownerLogin, login, hfind]

/-- C15: an allow-listed owner is not given a token when another identity
holds the email that the owner branch builds from the username.  A developer
registers with the email `oscar@company.com` (201); afterwards the login of
the allow-listed pair (`oscar`, `9`) is answered 500 and no owner record is
created, while in the state before that registration it is answered 200. -/
theorem ownerLogin_blocked_by_email :
    (⟨"oscar", "9"⟩ : OwnerEntry) ∈ sampleEnv.owners ∧
    (register sampleEnv 5 squatRegistration sampleStore).1.status = 201 ∧
    login sampleEnv 6 oscarLogin (register sampleEnv 5 squatRegistration sampleStore).2
      = (⟨500, Body.serverError⟩, (register sampleEnv 5 squatRegistration sampleStore).2) ∧
    (login sampleEnv 6 oscarLogin sampleStore).1.status = 200 := by
  refine ⟨by decide, by decide, by decide, by decide⟩

theorem eq_of_email {s : Store} (h : UniqueEmails s) {u v : User}
    (hu : u ∈ s.users) (hv : v ∈ s.users) (he : u.email = v.email) : u = v :=
  List.inj_on_of_nodup_map h hu hv he

theorem findDeveloperByEmail_of_mem {s : Store} (huniq : UniqueEmails s) {x : User}
    (hx : x ∈ s.users) (hr : x.role = Role.developer) :
    findDeveloperByEmail s.users (some x.email) = some x := by
  simp only [findDeveloperByEmail]
  have hsome : (s.users.find?
      (fun u => u.email == x.email && u.role == Role.developer)).isSome = true := by
    rw [List.find?_isSome]
    exact ⟨x, hx, by simp [hr]⟩
  obtain ⟨u0, hu0⟩ := Option.isSome_iff_exists.mp hsome
  have hmem : u0 ∈ s.users := List.mem_of_find?_eq_some hu0
  have hprop : u0.email = x.email ∧ u0.role = Role.developer := by
    simpa using List.find?_some hu0
  rw [hu0, eq_of_email huniq hmem hx hprop.1]

theorem findDeveloperByEmail_none {s : Store} {email : Option String}
    (h : ¬ ∃ x ∈ s.users, email = some x.email ∧ x.role = Role.developer) :
    findDeveloperByEmail s.users email = none := by
  cases email with
  | none => rfl
  | some e =>
    simp only [findDeveloperByEmail]
    rw [List.find?_eq_none]
    intro u hu hcond
    simp only [Bool.and_eq_true, beq_iff_eq] at hcond
    exact h ⟨u, hu, by rw [hcond.1], hcond.2⟩

/-- C16 as the code has it: a login of type other than owner, the emails of
the stored identities being unique.  For a stored developer with the
submitted email: a password that the stored hash verifies gets 200 with the
token of that identity's id and the role developer; a password that it does
not verify gets 401; no password gets 500.  When no stored developer has the
submitted email, in particular when it is the email of an owner record or no
email is submitted, the answer is 401.  So a token is issued if and only if a
stored identity has the submitted email, the role developer and a hash that
verifies the submitted password; the stores are unchanged in every case. -/
theorem developerLogin_iff (env : Env) (newId : ObjectId) (body : LoginInput) (s : Store)
    (htype : body.type ≠ some "owner")
    (huniq : UniqueEmails s) :
    (∀ x ∈ s.users, body.email = some x.email → x.role = Role.developer →
      (∀ pw, body.password = some pw → env.compare pw x.password = true →
        login env newId body s
          = (⟨200, Body.login ⟨x._id, Role.developer⟩ (developerSummary x)⟩, s)) ∧
      (∀ pw, body.password = some pw → env.compare pw x.password = false →
        login env newId body s = (⟨401, Body.message "Invalid credentials"⟩, s)) ∧
      (body.password = none →
        login env newId body s = (⟨500, Body.serverError⟩, s))) ∧
    ((¬ ∃ x ∈ s.users, body.email = some x.email ∧ x.role = Role.developer) →
      login env newId body s = (⟨401, Body.message "Invalid credentials"⟩, s)) ∧
    (login env newId body s).2 = s ∧
    ((∃ t u, (login env newId body s).1 = ⟨200, Body.login t u⟩) ↔
      ∃ x ∈ s.users, body.email = some x.email ∧ x.role = Role.developer ∧
        ∃ pw, body.password = some pw ∧ env.compare pw x.password = true) ∧
    (∀ o ∈ s.users, body.email = some o.email → o.role = Role.owner →
      login env newId body s = (⟨401, Body.message "Invalid credentials"⟩, s)) := by
  have hfound : ∀ x ∈ s.users, body.email = some x.email → x.role = Role.developer →
      (∀ pw, body.password = some pw → env.compare pw x.password = true →
        login env newId body s
          = (⟨200, Body.login ⟨x._id, Role.developer⟩ (developerSummary x)⟩, s)) ∧
      (∀ pw, body.password = some pw → env.compare pw x.password = false →
        login env newId body s = (⟨401, Body.message "Invalid credentials"⟩, s)) ∧
      (body.password = none →
        login env newId body s = (⟨500, Body.serverError⟩, s)) := by
    intro x hx he hr
    have hfind : findDeveloperByEmail s.users body.email = some x := by
      rw [he]
      exact findDeveloperByEmail_of_mem huniq hx hr
    refine ⟨?_, ?_, ?_⟩
    · intro pw hp hc
      simp [login, htype, hfind, hp, hc]
    · intro pw hp hc
      simp [login, htype, hfind, hp, hc]
    · intro hp
      simp [login, htype, hfind, hp, serverError]
  have hmissing : (¬ ∃ x ∈ s.users, body.email = some x.email ∧ x.role = Role.developer) →
      login env newId body s = (⟨401, Body.message "Invalid credentials"⟩, s) := by
    intro hno
    simp [login, htype, findDeveloperByEmail_none hno]
  refine ⟨hfound, hmissing, ?_, ?_, ?_⟩
  · by_cases hex : ∃ x ∈ s.users, body.email = some x.email ∧ x.role = Role.developer
    · obtain ⟨x, hx, he, hr⟩ := hex
      obtain ⟨h1, h2, h3⟩ := hfound x hx he hr
      cases hp : body.password with
      | none => rw [h3 hp]
      | some pw =>
        cases hc : env.compare pw x.password with
        | true => rw [h1 pw hp hc]
        | false => rw [h2 pw hp hc]
    · rw [hmissing hex]
  · constructor
    · rintro ⟨t, u, hlogin⟩
      by_cases hex : ∃ x ∈ s.users, body.email = some x.email ∧ x.role = Role.developer
      · obtain ⟨x, hx, he, hr⟩ := hex
        obtain ⟨h1, h2, h3⟩ := hfound x hx he hr
        cases hp : body.password with
        | none =>
          rw [h3 hp] at hlogin
          simp at hlogin
        | some pw =>
          cases hc : env.compare pw x.password with
          | true => exact ⟨x, hx, he, hr, pw, rfl, hc⟩
          | false =>
            rw [h2 pw hp hc] at hlogin
            simp at hlogin
      · rw [hmissing hex] at hlogin
        simp at hlogin
    · rintro ⟨x, hx, he, hr, pw, hp, hc⟩
      exact ⟨_, _, by rw [(hfound x hx he hr).1 pw hp hc]⟩
  · intro o ho he hor
    apply hmissing
    rintro ⟨x, hx, hxe, hxr⟩
    have hsame : x = o := by
      apply eq_of_email huniq hx ho
      rw [he] at hxe
      exact (Option.some.inj hxe).symm
    rw [hsame, hor] at hxr
    exact absurd hxr (by decide)

theorem developerLogin_iff_witness :
    danaLogin.type ≠ some "owner" ∧ UniqueEmails sampleStore ∧
    dana ∈ sampleStore.users ∧ danaLogin.email = some dana.email ∧
    sampleEnv.compare "2" dana.password = true ∧
    login sampleEnv 6 danaLogin sampleStore
      = (⟨200, Body.login ⟨dana._id, Role.developer⟩ (developerSummary dana)⟩, sampleStore) :=
  ⟨by decide, by decide, by decide, rfl, by decide,
    ((developerLogin_iff sampleEnv 6 danaLogin sampleStore (by decide) (by decide)).1
      dana (by decide) rfl rfl).1 "2" rfl (by decide)⟩

/-- C16 as stated fails: the login with Dana's email and no password is
answered 500, not 401; no token is issued and the stores are unchanged. -/
theorem developerLogin_without_password :
    dana ∈ sampleStore.users ∧ danaLoginNoPassword.email = some dana.email ∧
    danaLoginNoPassword.password = none ∧
    login sampleEnv 6 danaLoginNoPassword sampleStore
      = (⟨500, Body.serverError⟩, sampleStore) := by
  refine ⟨by decide, rfl, rfl, by decide⟩

/-! ## Owner records -/

theorem findOwnerByUsername_none {users : List User} {username : String}
    (h : ∀ x ∈ users, ¬ (x.username = some username ∧ x.role = Role.owner)) :
    findOwnerByUsername users username = none := by
  unfold findOwnerByUsername
  rw [List.find?_eq_none]
  intro x hx
  simpa using h x hx

theorem filter_owner_nil {users : List User} {username : String}
    (h : ∀ x ∈ users, ¬ (x.username = some username ∧ x.role = Role.owner)) :
    users.filter (fun u => u.username == some username && u.role == Role.owner) = [] := by
  rw [List.filter_eq_nil_iff]
  intro x hx
  simpa using h x hx

/-- The first successful login of a username without owner record appends the
record and signs its id. -/
theorem ownerLogin_first (env : Env) (newId : ObjectId) (username password : String)
    (s : Store)
    (hnone : findOwnerByUsername s.users username = none)
    (hok : (ownerLogin env newId username password s).1.status = 200) :
    ∃ r : User, r._id = newId ∧ r.username = some username ∧ r.role = Role.owner ∧
      ownerLogin env newId username password s
        = (⟨200, Body.login ⟨newId, Role.owner⟩ (ownerSummary r)⟩,
            { s with users := s.users ++ [r] }) := by
  unfold ownerLogin login at hok ⊢
  simp only [if_true] at hok ⊢
  split at hok
  · simp at hok
  · rw [hnone] at hok ⊢
    simp only at hok ⊢
    split at hok
    · simp [serverError] at hok
    · rename_i hne
      simp only [hne, if_false] at hok ⊢
      split at hok
      · simp [serverError] at hok
      · rename_i users hins
        rw [insertUser_some hins]
        exact ⟨_, rfl, rfl, rfl, rfl⟩

/-- A successful login of a username with an owner record signs the id of the
record and leaves the stores as they are. -/
theorem ownerLogin_later (env : Env) (newId : ObjectId) (username password : String)
    (s : Store) (r : User)
    (hsome : findOwnerByUsername s.users username = some r)
    (hok : (ownerLogin env newId username password s).1.status = 200) :
    ownerLogin env newId username password s
      = (⟨200, Body.login ⟨r._id, Role.owner⟩ (ownerSummary r)⟩, s) := by
  unfold ownerLogin login at hok ⊢
  simp only [if_true] at hok ⊢
  split at hok
  · simp at hok
  · rw [hsome]

theorem ownerLogins_later (env : Env) (username : String) (r : User)
    (attempts : List (ObjectId × String)) (s : Store)
    (hsome : findOwnerByUsername s.users username = some r)
    (hok : ∀ x ∈ (ownerLogins env username attempts s).1, x.status = 200) :
    (ownerLogins env username attempts s).2 = s ∧
    ∀ x ∈ (ownerLogins env username attempts s).1,
      x = ⟨200, Body.login ⟨r._id, Role.owner⟩ (ownerSummary r)⟩ := by
  induction attempts with
  | nil => simp [ownerLogins]
  | cons a rest ih =>
    simp only [ownerLogins, List.mem_cons, forall_eq_or_imp] at hok ⊢
    have h1 := ownerLogin_later env a.1 username a.2 s r hsome hok.1
    rw [h1] at hok ⊢
    simp only at hok ⊢
    have h2 := ih hok.2
    exact ⟨h2.1, trivial, h2.2⟩

/-- C17: from stores without owner record for `username`, after a first
login and any number of later logins with that username, all answered 200:
the stores are the earlier ones with one record appended, whose `_id` is the
one generated at the first login; it is the only owner record of the
username; and every response carries the token and summary of that
record. -/
theorem owner_materialized_once (env : Env) (username : String)
    (first : ObjectId × String) (rest : List (ObjectId × String)) (s : Store)
    (hnone : ∀ x ∈ s.users, ¬ (x.username = some username ∧ x.role = Role.owner))
    (hok : ∀ x ∈ (ownerLogins env username (first :: rest) s).1, x.status = 200) :
    ∃ r : User, r._id = first.1 ∧
      (ownerLogins env username (first :: rest) s).2 = { s with users := s.users ++ [r] } ∧
      ownerRecords (ownerLogins env username (first :: rest) s).2 username = [r] ∧
      ∀ x ∈ (ownerLogins env username (first :: rest) s).1,
        x = ⟨200, Body.login ⟨first.1, Role.owner⟩ (ownerSummary r)⟩ := by
  simp only [ownerLogins, List.mem_cons, forall_eq_or_imp] at hok ⊢
  obtain ⟨r, hid, hname, hrole, h1⟩ :=
    ownerLogin_first env first.1 username first.2 s (findOwnerByUsername_none hnone) hok.1
  rw [h1] at hok ⊢
  simp only at hok ⊢
  have hfound : findOwnerByUsername (s.users ++ [r]) username = some r := by
    unfold findOwnerByUsername
    rw [List.find?_append]
    have := findOwnerByUsername_none hnone
    unfold findOwnerByUsername at this
    rw [this]
    simp [hname, hrole]
  have h2 := ownerLogins_later env username r rest { s with users := s.users ++ [r] }
    hfound hok.2
  refine ⟨r, hid, h2.1, ?_, rfl, ?_⟩
  · rw [h2.1]
    simp [ownerRecords, List.filter_append, filter_owner_nil hnone, hname, hrole]
  · intro x hx
    rw [← hid]
    exact h2.2 x hx

theorem owner_materialized_once_witness :
    (∀ x ∈ sampleStore.users, ¬ (x.username = some "oscar" ∧ x.role = Role.owner)) ∧
    (∀ x ∈ (ownerLogins sampleEnv "oscar" [(6, "9"), (7, "9"), (8, "9")] sampleStore).1,
      x.status = 200) ∧
    ∃ r : User, r._id = 6 ∧
      (ownerLogins sampleEnv "oscar" [(6, "9"), (7, "9"), (8, "9")] sampleStore).2
        = { sampleStore with users := sampleStore.users ++ [r] } ∧
      ownerRecords (ownerLogins sampleEnv "oscar" [(6, "9"), (7, "9"), (8, "9")]
        sampleStore).2 "oscar" = [r] ∧
      ∀ x ∈ (ownerLogins sampleEnv "oscar" [(6, "9"), (7, "9"), (8, "9")] sampleStore).1,
        x = ⟨200, Body.login ⟨6, Role.owner⟩ (ownerSummary r)⟩ :=
  ⟨by decide, by decide,
    owner_materialized_once sampleEnv "oscar" (6, "9") [(7, "9"), (8, "9")] sampleStore
      (by decide) (by decide)⟩

/-! ## Owner-only routes -/

/-- C18: for a caller whose role is developer the requests to create a
project, assign developers, remove developers, create a phase and delete a
project are refused with 403 for every id and payload, and the stores are
unchanged. -/
theorem ownerOnly_routes_deny_developer (user : ReqUser) (s : Store)
    (hr : user.role = Role.developer) :
    (∀ newId body, (createProject user newId body s).1.status = 403 ∧
      (createProject user newId body s).2 = s) ∧
    (∀ id developerIds, (assignDevelopers user id developerIds s).1.status = 403 ∧
      (assignDevelopers user id developerIds s).2 = s) ∧
    (∀ id developerIds, (removeDevelopers user id developerIds s).1.status = 403 ∧
      (removeDevelopers user id developerIds s).2 = s) ∧
    (∀ id newId body, (addPhase user id newId body s).1.status = 403 ∧
      (addPhase user id newId body s).2 = s) ∧
    (∀ id, (deleteProject user id s).1.status = 403 ∧ (deleteProject user id s).2 = s) := by
  have ho := ownerOnly_developer hr
  refine ⟨?_, ?_, ?_, ?_, ?_⟩
  · intro newId body
    simp [createProject, ho]
  · intro id developerIds
    simp [assignDevelopers, ho]
  · intro id developerIds
    simp [removeDevelopers, ho]
  · intro id newId body
    simp [addPhase, ho]
  · intro id
    simp [deleteProject, ho]

theorem ownerOnly_routes_deny_developer_witness :
    asDana.role = Role.developer ∧
    (assignDevelopers asDana 10 [2, 3] sampleStore).1.status = 403 ∧
    (assignDevelopers asDana 10 [2, 3] sampleStore).2 = sampleStore :=
  ⟨rfl, (ownerOnly_routes_deny_developer asDana sampleStore rfl).2.1 10 [2, 3]⟩

/-! ## Creating a phase -/

theorem findProject_updateProjectById (id pid : ObjectId) (f : Project → Project)
    (hf : ∀ p, (f p)._id = p._id) (l : List Project) :
    findProject (updateProjectById id f l) pid =
      if id = pid then (findProject l pid).map f else findProject l pid := by
  induction l with
  | nil => simp [updateProjectById, findProject]
  | cons p ps ih =>
    unfold findProject at ih ⊢
    unfold updateProjectById
    by_cases hp : p._id = id
    · rw [if_pos hp]
      by_cases hq : id = pid
      · have h1 : ((f p)._id == pid) = true := by rw [hf, hp, hq]; simp
        have h2 : (p._id == pid) = true := by rw [hp, hq]; simp
        simp only [if_pos hq, List.find?_cons, h1, h2, Option.map_some']
      · have hne : p._id ≠ pid := fun h => hq (hp ▸ h)
        have h1 : ((f p)._id == pid) = false := by rw [hf]; simpa using hne
        have h2 : (p._id == pid) = false := by simpa using hne
        simp only [if_neg hq, List.find?_cons, h1, h2]
    · rw [if_neg hp]
      by_cases hpp : p._id = pid
      · have h2 : (p._id == pid) = true := by simpa using hpp
        have hq : ¬ id = pid := fun h => hp (hpp.trans h.symm)
        simp only [if_neg hq, List.find?_cons, h2]
      · have h2 : (p._id == pid) = false := by simpa using hpp
        simp only [List.find?_cons, h2]
        exact ih

/-- C19 as the code has it: the create-phase route asks for the owner role
only.  For every existing project `P` and every owner-role caller, whether
or not the caller's id is `P.owner`, a create-phase request with a name,
both dates and a task list, the generated id being new, is answered 201; the
phase is stored with `P` as its parent and its id is appended to
`P.phases`. -/
theorem addPhase_any_owner (user : ReqUser) (id newId : ObjectId) (s : Store) (P : Project)
    (name : String) (startDate endDate : Nat) (tasks : List String)
    (hr : user.role = Role.owner)
    (hP : findProject s.projects id = some P)
    (hname : name ≠ "")
    (hfresh : findPhase s.phases newId = none) :
    (addPhase user id newId ⟨some name, some startDate, some endDate, some tasks⟩ s).1.status
      = 201 ∧
    (∃ ph, findPhase
        (addPhase user id newId ⟨some name, some startDate, some endDate, some tasks⟩
          s).2.phases newId = some ph ∧ ph.project = id) ∧
    findProject
        (addPhase user id newId ⟨some name, some startDate, some endDate, some tasks⟩
          s).2.projects id = some { P with phases := P.phases ++ [newId] } := by
  have hfind : List.find? (fun p => p._id == newId) s.phases = none := hfresh
  have heq : addPhase user id newId ⟨some name, some startDate, some endDate, some tasks⟩ s
      = (⟨201, Body.phase
            { _id := newId, name := name, project := id, status := "pending",
              startDate := startDate, endDate := endDate,
              tasks := tasks.map (fun task =>
                { name := some task, completed := false, assignedTo := none }),
              assignedDevelopers := [] }⟩,
          { s with
            projects := updateProjectById id
              (fun p => { p with phases := p.phases ++ [newId] }) s.projects,
            phases := s.phases ++
              [{ _id := newId, name := name, project := id, status := "pending",
                 startDate := startDate, endDate := endDate,
                 tasks := tasks.map (fun task =>
                   { name := some task, completed := false, assignedTo := none }),
                 assignedDevelopers := [] }] }) := by
    simp [addPhase, ownerOnly_owner hr, hname, hfresh]
  rw [heq]
  refine ⟨rfl, ?_, ?_⟩
  · simp [findPhase, List.find?_append, hfind]
  · simp only
    have hupd := findProject_updateProjectById id id
      (fun p => { p with phases := p.phases ++ [newId] }) (fun _ => rfl) s.projects
    rw [hupd, hP]
    simp

theorem addPhase_any_owner_witness :
    asOtherOwner.role = Role.owner ∧ asOtherOwner._id ≠ alpha.owner ∧
    findProject sampleStore.projects 10 = some alpha ∧
    findPhase sampleStore.phases 102 = none ∧
    (addPhase asOtherOwner 10 102 ⟨some "Orphan", some 100, some 150, some ["draft"]⟩
      sampleStore).1.status = 201 :=
  ⟨rfl, by decide, rfl, rfl,
    (addPhase_any_owner asOtherOwner 10 102 sampleStore alpha "Orphan" 100 150 ["draft"]
      rfl rfl (by decide) rfl).1⟩

/-- C19 as stated fails: the owner with id 4 did not create Alpha, whose
owner is 1; the create-phase request for Alpha is answered 201 and the phase
102 is stored under Alpha. -/
theorem addPhase_by_other_owner :
    findProject sampleStore.projects 10 = some alpha ∧
    asOtherOwner.role = Role.owner ∧ asOtherOwner._id ≠ alpha.owner ∧
    (addPhase asOtherOwner 10 102 phaseInput sampleStore).1.status = 201 ∧
    (findPhase (addPhase asOtherOwner 10 102 phaseInput sampleStore).2.phases 102).map
      (fun ph => ph.project) = some 10 ∧
    (findProject (addPhase asOtherOwner 10 102 phaseInput sampleStore).2.projects 10).map
      (fun p => p.phases) = some [100, 102] := by
  refine ⟨rfl, rfl, by decide, by decide, by decide, by decide⟩

/-! ## Who can delete a project -/

theorem findProject_append_of_some {l : List Project} {pid : ObjectId} {P : Project}
    (h : findProject l pid = some P) (x : Project) : findProject (l ++ [x]) pid = some P := by
  unfold findProject at h ⊢
  rw [List.find?_append, h]
  rfl

theorem findProject_deleteProjectById_ne (id pid : ObjectId) (hne : id ≠ pid)
    (l : List Project) :
    findProject (deleteProjectById id l) pid = findProject l pid := by
  induction l with
  | nil => rfl
  | cons p ps ih =>
    unfold findProject at ih ⊢
    unfold deleteProjectById
    by_cases hp : p._id = id
    · have h2 : (p._id == pid) = false := by
        have : p._id ≠ pid := fun h => hne (hp.symm.trans h)
        simpa using this
      simp only [if_pos hp, List.find?_cons, h2]
    · rw [if_neg hp]
      by_cases hpp : p._id = pid
      · have h2 : (p._id == pid) = true := by simpa using hpp
        simp only [List.find?_cons, h2]
      · have h2 : (p._id == pid) = false := by simpa using hpp
        simp only [List.find?_cons, h2]
        exact ih

/-- A delete that is answered 200 was sent by an owner-role caller whose id
is the `owner` of the project found. -/
theorem deleteProject_ok_owner (user : ReqUser) (id : ObjectId) (s : Store)
    (hok : (deleteProject user id s).1.status = 200) :
    user.role = Role.owner ∧ ∃ P, findProject s.projects id = some P ∧ P.owner = user._id := by
  unfold deleteProject at hok
  cases hr : user.role with
  | developer =>
    rw [ownerOnly_developer hr] at hok
    simp at hok
  | owner =>
    rw [ownerOnly_owner hr] at hok
    simp only at hok
    refine ⟨rfl, ?_⟩
    cases hf : findProject s.projects id with
    | none => rw [hf] at hok; simp at hok
    | some P =>
      rw [hf] at hok
      simp only at hok
      by_cases hne : P.owner ≠ user._id
      · simp [hne] at hok
      · exact ⟨P, rfl, not_not.mp hne⟩

theorem updatePhase_projects (user : ReqUser) (projectId phaseId : ObjectId)
    (body : PhaseUpdate) (s : Store) :
    (updatePhase user projectId phaseId body s).2.projects = s.projects := by
  unfold updatePhase
  split
  · rfl
  · simp only
    split
    · rfl
    · split <;> rfl

theorem createProject_projects (user : ReqUser) (newId : ObjectId) (body : ProjectInput)
    (s : Store) :
    (createProject user newId body s).2.projects = s.projects ∨
    ∃ x, (createProject user newId body s).2.projects = s.projects ++ [x] := by
  unfold createProject
  cases ownerOnly user with
  | some r => exact Or.inl rfl
  | none =>
    simp only
    split
    · split
      · exact Or.inl rfl
      · split
        · exact Or.inl rfl
        · exact Or.inr ⟨_, rfl⟩
    · exact Or.inl rfl

/-- One request to the project routes keeps a project and its `owner`,
unless it is the delete by that owner or an owner-role update that carries
another `owner`. -/
theorem owned_handle (user : ReqUser) (req : Request) (s : Store) (pid O : ObjectId)
    (h : ∃ P, findProject s.projects pid = some P ∧ P.owner = O)
    (hdel : ¬ (user.role = Role.owner ∧ user._id = O ∧ req = Request.deleteProject pid))
    (hre : ∀ body o, req = Request.updateProject pid body → user.role = Role.owner →
      body.owner = some o → o = O) :
    ∃ P, findProject (handle user req s).2.projects pid = some P ∧ P.owner = O := by
  obtain ⟨P, hP, hO⟩ := h
  have hframe : ∀ (id : ObjectId) (f : Project → Project),
      (∀ p, (f p)._id = p._id) → (∀ p, (f p).owner = p.owner) →
      ∃ Q, findProject (updateProjectById id f s.projects) pid = some Q ∧ Q.owner = O := by
    intro id f hid hown
    rw [findProject_updateProjectById id pid f hid, hP]
    by_cases hq : id = pid
    · exact ⟨f P, by simp [hq], by rw [hown, hO]⟩
    · exact ⟨P, by simp [hq], hO⟩
  cases req with
  | listProjects => exact ⟨P, hP, hO⟩
  | getProject id => exact ⟨P, hP, hO⟩
  | createProject newId body =>
    simp only [handle]
    rcases createProject_projects user newId body s with h1 | ⟨x, h1⟩
    · rw [h1]; exact ⟨P, hP, hO⟩
    · rw [h1]; exact ⟨P, findProject_append_of_some hP x, hO⟩
  | updateProject id body =>
    simp only [handle]
    unfold updateProject
    split
    · exact ⟨P, hP, hO⟩
    · split
      · split
        · exact ⟨P, hP, hO⟩
        · simp only
          split
          · exact ⟨P, hP, hO⟩
          · rw [findByIdAndUpdate_store]
            exact hframe id _ (fun _ => rfl) (fun _ => rfl)
      · rename_i hr
        have hro : user.role = Role.owner := by
          cases hrole : user.role with
          | owner => rfl
          | developer => exact absurd hrole hr
        simp only
        rw [findByIdAndUpdate_store]
        simp only
        rw [findProject_updateProjectById id pid (applyUpdate body) (fun _ => rfl), hP]
        by_cases hq : id = pid
        · subst hq
          refine ⟨applyUpdate body P, by simp, ?_⟩
          cases hbo : body.owner with
          | none => simp [applyUpdate, hbo, hO]
          | some o =>
            have := hre body o rfl hro hbo
            simp [applyUpdate, hbo, this]
        · exact ⟨P, by simp [hq], hO⟩
  | deleteProject id =>
    simp only [handle]
    rcases deleteProject_cases user id s with h1 | h1
    · rw [h1]; exact ⟨P, hP, hO⟩
    · obtain ⟨hr, Q, hQ, hQo⟩ := deleteProject_ok_owner user id s h1
      rw [deleteProject_ok user id s h1]
      simp only
      by_cases hq : id = pid
      · subst hq
        rw [hP] at hQ
        have hPQ : P = Q := Option.some.inj hQ
        subst hPQ
        exact absurd ⟨hr, hQo.symm.trans hO, rfl⟩ hdel
      · rw [findProject_deleteProjectById_ne id pid hq]
        exact ⟨P, hP, hO⟩
  | removeDevelopers id developerIds =>
    simp only [handle]
    unfold removeDevelopers
    cases ownerOnly user with
    | some r => exact ⟨P, hP, hO⟩
    | none =>
      simp only [findByIdAndUpdate_store]
      exact hframe id _ (fun _ => rfl) (fun _ => rfl)
  | assignDevelopers id developerIds =>
    simp only [handle]
    unfold assignDevelopers
    cases ownerOnly user with
    | some r => exact ⟨P, hP, hO⟩
    | none =>
      simp only [findByIdAndUpdate_store]
      exact hframe id _ (fun _ => rfl) (fun _ => rfl)
  | addPhase id newId body =>
    simp only [handle]
    unfold addPhase
    cases ownerOnly user with
    | some r => exact ⟨P, hP, hO⟩
    | none =>
      simp only
      split
      · exact ⟨P, hP, hO⟩
      · split
        · split
          · exact ⟨P, hP, hO⟩
          · split
            · exact ⟨P, hP, hO⟩
            · exact hframe id (fun p => { p with phases := p.phases ++ [newId] })
                (fun _ => rfl) (fun _ => rfl)
        · exact ⟨P, hP, hO⟩
  | updatePhase projectId phaseId body =>
    simp only [handle]
    rw [updatePhase_projects]
    exact ⟨P, hP, hO⟩

theorem register_projects (env : Env) (newId : ObjectId) (body : RegisterInput) (s : Store) :
    (register env newId body s).2.projects = s.projects := by
  rcases register_cases env newId body s with ⟨_, h⟩ | ⟨_, u, h, _⟩ <;> rw [h]

theorem login_projects (env : Env) (newId : ObjectId) (body : LoginInput) (s : Store) :
    (login env newId body s).2.projects = s.projects := by
  unfold login
  split
  · split
    · split
      · rfl
      · split
        · rfl
        · split
          · rfl
          · dsimp only
            split <;> rfl
    · rfl
  · split
    · rfl
    · split
      · rfl
      · split <;> rfl

theorem updateProfile_projects (user : ReqUser) (body : ProfileUpdate) (s : Store) :
    (updateProfile user body s).2.projects = s.projects := by
  unfold updateProfile
  dsimp only
  split <;> rfl

/-- A creation that is answered 201 stores the project under the generated
id with the caller as its `owner`. -/
theorem createProject_ok (user : ReqUser) (newId : ObjectId) (body : ProjectInput)
    (s : Store) (hok : (createProject user newId body s).1.status = 201) :
    ∃ P, findProject (createProject user newId body s).2.projects newId = some P ∧
      P.owner = user._id := by
  unfold createProject at hok ⊢
  cases ho : ownerOnly user with
  | some r =>
    unfold ownerOnly at ho
    split at ho
    · simp at ho
    · simp only [Option.some.injEq] at ho
      subst ho
      simp [ownerOnly] at hok
      simp_all
  | none =>
    rw [ho] at hok
    simp only at hok ⊢
    split at hok
    · split at hok
      · simp [serverError] at hok
      · rename_i hvalid
        split at hok
        · simp [serverError] at hok
        · rename_i hnone
          rw [if_neg hvalid, if_neg hnone]
          have hfind : List.find? (fun p => p._id == newId) s.projects = none := by
            have := findProject_none hnone
            rw [List.find?_eq_none]
            intro p hp
            simpa using this p hp
          have hlast : ∀ x : Project, x._id = newId →
              findProject (s.projects ++ [x]) newId = some x := by
            intro x hx
            simp [findProject, List.find?_append, hfind, hx]
          exact ⟨_, hlast _ rfl, rfl⟩
    · simp [serverError] at hok

/-- One request to the API keeps a project and its `owner`, unless it is the
delete by that owner or an owner-role update that carries another `owner`. -/
theorem owned_api (env : Env) (caller : Option ReqUser) (req : ApiRequest) (s : Store)
    (pid O : ObjectId)
    (h : ∃ P, findProject s.projects pid = some P ∧ P.owner = O)
    (hdel : ¬ DeletesAs pid O (caller, req)) (hre : ¬ Reowns pid O (caller, req)) :
    ∃ P, findProject (api env caller req s).2.projects pid = some P ∧ P.owner = O := by
  cases req with
  | register newId body => simp only [api]; rw [register_projects]; exact h
  | login newId body => simp only [api]; rw [login_projects]; exact h
  | getDevelopers =>
    simp only [api]
    cases caller <;> exact h
  | getProfile =>
    simp only [api]
    cases caller <;> exact h
  | updateProfile body =>
    simp only [api]
    cases caller with
    | none => exact h
    | some user =>
      simp only [auth]
      rw [updateProfile_projects]
      exact h
  | projects r =>
    simp only [api]
    cases caller with
    | none => exact h
    | some user =>
      simp only [auth]
      apply owned_handle user r s pid O h
      · rintro ⟨hr, hid, hreq⟩
        exact hdel ⟨user, rfl, hr, hid, by rw [hreq]⟩
      · intro body o hreq hr hbo
        by_contra hne
        exact hre ⟨user, body, o, rfl, hr, by rw [hreq], hbo, hne⟩

/-- C20 as the code has it: project `pid` is created by the owner `O`; then
comes any sequence of requests to the API, by any callers, in which no
owner-role caller sends an update of `pid` that carries an `owner` other
than `O`.  If no request of the sequence is a delete of `pid` issued by `O`,
the project is still in the project store, with `O` as its owner. -/
theorem deletion_only_by_owner (env : Env) (O : ReqUser) (pid : ObjectId)
    (body : ProjectInput) (s : Store) (steps : List (Option ReqUser × ApiRequest))
    (hcreate : (api env (some O)
      (ApiRequest.projects (Request.createProject pid body)) s).1.status = 201)
    (hsteps : ∀ st ∈ steps, ¬ DeletesAs pid O._id st ∧ ¬ Reowns pid O._id st) :
    ∃ P, findProject
        (run env steps
          (api env (some O) (ApiRequest.projects (Request.createProject pid body)) s).2).projects
        pid = some P ∧ P.owner = O._id := by
  have hstart : ∃ P, findProject
      (api env (some O) (ApiRequest.projects (Request.createProject pid body)) s).2.projects
      pid = some P ∧ P.owner = O._id := by
    simp only [api, auth, handle] at hcreate ⊢
    exact createProject_ok O pid body s hcreate
  generalize (api env (some O) (ApiRequest.projects (Request.createProject pid body)) s).2
    = s1 at hstart
  clear hcreate
  induction steps generalizing s1 with
  | nil => exact hstart
  | cons st rest ih =>
    have hst := hsteps st (List.mem_cons_self _ _)
    have hrest : ∀ x ∈ rest, ¬ DeletesAs pid O._id x ∧ ¬ Reowns pid O._id x :=
      fun x hx => hsteps x (List.mem_cons_of_mem _ hx)
    simp only [run, List.foldl_cons]
    exact ih hrest _ (owned_api env st.1 st.2 s1 pid O._id hstart hst.1 hst.2)

theorem deletion_only_by_owner_witness :
    (api sampleEnv (some asOlivia)
      (ApiRequest.projects (Request.createProject 12 projectInput)) sampleStore).1.status
      = 201 ∧
    ∃ P, findProject
        (run sampleEnv
          [(some asOtherOwner, ApiRequest.projects (Request.deleteProject 12)),
           (some asDana, ApiRequest.projects (Request.deleteProject 12)),
           (some asOtherOwner, ApiRequest.projects (Request.updateProject 12 mixedUpdate))]
          (api sampleEnv (some asOlivia)
            (ApiRequest.projects (Request.createProject 12 projectInput)) sampleStore).2).projects
        12 = some P ∧ P.owner = asOlivia._id :=
  ⟨by decide,
    deletion_only_by_owner sampleEnv asOlivia 12 projectInput sampleStore
      [(some asOtherOwner, ApiRequest.projects (Request.deleteProject 12)),
       (some asDana, ApiRequest.projects (Request.deleteProject 12)),
       (some asOtherOwner, ApiRequest.projects (Request.updateProject 12 mixedUpdate))]
      (by decide)
      (by
        intro st hst
        simp only [List.mem_cons, List.mem_singleton, List.not_mem_nil, or_false] at hst
        rcases hst with rfl | rfl | rfl
        · constructor
          · rintro ⟨u, hu, _, hid, _⟩
            cases hu
            exact absurd hid (by decide)
          · rintro ⟨u, b, o, _, _, hreq, _⟩
            cases hreq
        · constructor
          · rintro ⟨u, hu, hr, _⟩
            cases hu
            exact absurd hr (by decide)
          · rintro ⟨u, b, o, _, _, hreq, _⟩
            cases hreq
        · constructor
          · rintro ⟨u, _, _, _, hreq⟩
            cases hreq
          · rintro ⟨u, b, o, _, _, hreq, hbo, _⟩
            cases hreq
            simp [mixedUpdate, emptyUpdate] at hbo)⟩

/-- C20 as stated fails: Olivia creates project 12; the owner 4 sets the
`owner` of project 12 to 4 and then deletes it.  Both requests are answered
200, none of them is issued by Olivia, and project 12 is no longer in the
project store. -/
theorem deletion_by_other_owner :
    (api sampleEnv (some asOlivia)
      (ApiRequest.projects (Request.createProject 12 projectInput)) sampleStore).1.status
      = 201 ∧
    (findProject afterCreation.projects 12).map (fun p => p.owner) = some asOlivia._id ∧
    (∀ st ∈ takeover, st.1 = some asOtherOwner) ∧ asOtherOwner._id ≠ asOlivia._id ∧
    (api sampleEnv (some asOtherOwner)
      (ApiRequest.projects (Request.deleteProject 12))
      (api sampleEnv (some asOtherOwner)
        (ApiRequest.projects (Request.updateProject 12 ownerChange)) afterCreation).2).1.status
      = 200 ∧
    findProject (run sampleEnv takeover afterCreation).projects 12 = none := by
  refine ⟨by decide, by decide, by decide, by decide, by decide, by decide⟩

/-! ## The frame of a phase update -/

theorem findPhase_some {phases : List Phase} {id : ObjectId} {ph : Phase}
    (h : findPhase phases id = some ph) : ph ∈ phases ∧ ph._id = id := by
  unfold findPhase at h
  exact ⟨List.mem_of_find?_eq_some h, by simpa using List.find?_some h⟩

theorem findPhase_savePhase (ph : Phase) (qid : ObjectId) (l : List Phase) :
    findPhase (savePhase ph l) qid =
      if ph._id = qid then (findPhase l qid).map (fun _ => ph) else findPhase l qid := by
  induction l with
  | nil => simp [savePhase, findPhase]
  | cons q qs ih =>
    unfold findPhase at ih ⊢
    unfold savePhase
    by_cases hq : q._id = ph._id
    · rw [if_pos hq]
      by_cases hp : ph._id = qid
      · have h1 : (ph._id == qid) = true := by simpa using hp
        have h2 : (q._id == qid) = true := by rw [hq]; exact h1
        simp only [if_pos hp, List.find?_cons, h1, h2, Option.map_some']
      · have h1 : (ph._id == qid) = false := by simpa using hp
        have h2 : (q._id == qid) = false := by rw [hq]; exact h1
        simp only [if_neg hp, List.find?_cons, h1, h2]
    · rw [if_neg hq]
      by_cases hqq : q._id = qid
      · have h2 : (q._id == qid) = true := by simpa using hqq
        have hp : ¬ ph._id = qid := fun h => hq (hqq.trans h.symm)
        simp only [if_neg hp, List.find?_cons, h2]
      · have h2 : (q._id == qid) = false := by simpa using hqq
        simp only [List.find?_cons, h2]
        exact ih

/-- What a phase update does to the stores: nothing, with an answer other
than 200, or the save of the phase with the new status and tasks, with the
answer 200. -/
theorem updatePhase_result (user : ReqUser) (projectId phaseId : ObjectId)
    (body : PhaseUpdate) (s : Store) (ph : Phase)
    (hph : findPhase s.phases phaseId = some ph) :
    ((updatePhase user projectId phaseId body s).1.status ≠ 200 ∧
      (updatePhase user projectId phaseId body s).2 = s) ∨
    ((updatePhase user projectId phaseId body s).1.status = 200 ∧
      (updatePhase user projectId phaseId body s).2 =
        { s with phases := savePhase (assignPhaseFields body ph) s.phases }) := by
  unfold updatePhase
  rw [hph]
  simp only
  split
  · rename_i r hden
    left
    refine ⟨?_, rfl⟩
    split at hden
    · split at hden
      · simp only [Option.some.injEq] at hden
        subst hden
        simp [serverError]
      · split at hden
        · simp only [Option.some.injEq] at hden
          subst hden
          simp
        · simp at hden
    · simp at hden
  · split
    · left
      exact ⟨by simp [serverError], rfl⟩
    · right
      exact ⟨rfl, rfl⟩

theorem assignPhaseFields_frame (body : PhaseUpdate) (ph : Phase) :
    (assignPhaseFields body ph)._id = ph._id ∧
    (assignPhaseFields body ph).name = ph.name ∧
    (assignPhaseFields body ph).project = ph.project ∧
    (assignPhaseFields body ph).startDate = ph.startDate ∧
    (assignPhaseFields body ph).endDate = ph.endDate ∧
    (body.status = none → (assignPhaseFields body ph).status = ph.status) ∧
    (body.tasks = none → (assignPhaseFields body ph).tasks = ph.tasks) ∧
    (∀ st, body.status = some st → st ≠ "" → (assignPhaseFields body ph).status = st) ∧
    (∀ ts, body.tasks = some ts → (assignPhaseFields body ph).tasks = ts.map castTask) := by
  unfold assignPhaseFields
  cases hs : body.status with
  | none =>
    cases ht : body.tasks <;> simp
  | some st =>
    by_cases hst : st = ""
    · cases ht : body.tasks <;> simp [hst]
    · cases ht : body.tasks <;> simp [hst]

/-- C21: for every update request of an existing phase, the stored phase
keeps its `_id`, name, parent project, start and end date; a payload without
`status` leaves the status as it is and a payload without `tasks` leaves the
task list as it is; a request answered 200 sets the status and the tasks the
payload carries; every other phase, and the identity and project stores, are
unchanged. -/
theorem updatePhase_frame (user : ReqUser) (projectId phaseId : ObjectId)
    (body : PhaseUpdate) (s : Store) (ph : Phase)
    (hph : findPhase s.phases phaseId = some ph) :
    (updatePhase user projectId phaseId body s).2.users = s.users ∧
    (updatePhase user projectId phaseId body s).2.projects = s.projects ∧
    (∀ qid, qid ≠ phaseId →
      findPhase (updatePhase user projectId phaseId body s).2.phases qid
        = findPhase s.phases qid) ∧
    ∃ ph1, findPhase (updatePhase user projectId phaseId body s).2.phases phaseId = some ph1 ∧
      ph1._id = ph._id ∧ ph1.name = ph.name ∧ ph1.project = ph.project ∧
      ph1.startDate = ph.startDate ∧ ph1.endDate = ph.endDate ∧
      (body.status = none → ph1.status = ph.status) ∧
      (body.tasks = none → ph1.tasks = ph.tasks) ∧
      ((updatePhase user projectId phaseId body s).1.status = 200 →
        (∀ st, body.status = some st → st ≠ "" → ph1.status = st) ∧
        (∀ ts, body.tasks = some ts → ph1.tasks = ts.map castTask)) := by
  have hid : ph._id = phaseId := (findPhase_some hph).2
  have hf := assignPhaseFields_frame body ph
  rcases updatePhase_result user projectId phaseId body s ph hph with ⟨hne, h⟩ | ⟨hok, h⟩
  · rw [h]
    exact ⟨rfl, rfl, fun _ _ => rfl, ph, hph, rfl, rfl, rfl, rfl, rfl, fun _ => rfl,
      fun _ => rfl, fun h200 => absurd h200 hne⟩
  · rw [h]
    refine ⟨rfl, rfl, ?_, ?_⟩
    · intro qid hq
      simp only
      rw [findPhase_savePhase]
      have : ¬ (assignPhaseFields body ph)._id = qid := by
        rw [hf.1]
        exact fun h1 => hq (h1.symm.trans hid)
      simp [this]
    · simp only
      rw [findPhase_savePhase]
      have : (assignPhaseFields body ph)._id = phaseId := by rw [hf.1]; exact hid
      simp only [this, if_true, hph, Option.map_some']
      exact ⟨_, rfl, hf.1, hf.2.1, hf.2.2.1, hf.2.2.2.1, hf.2.2.2.2.1, hf.2.2.2.2.2.1,
        hf.2.2.2.2.2.2.1, fun _ => ⟨hf.2.2.2.2.2.2.2.1, hf.2.2.2.2.2.2.2.2⟩⟩

theorem updatePhase_frame_witness :
    findPhase sampleStore.phases 100 = some design ∧
    ∃ ph1,
      findPhase (updatePhase asDana 10 100 ⟨none, some [⟨some "wireframes", some true, none⟩]⟩
        sampleStore).2.phases 100 = some ph1 ∧
      ph1.status = design.status ∧ ph1.name = design.name :=
  ⟨rfl,
    (updatePhase_frame asDana 10 100 ⟨none, some [⟨some "wireframes", some true, none⟩]⟩
      sampleStore design rfl).2.2.2.elim
      (fun ph1 h => ⟨ph1, h.1, h.2.2.2.2.2.2.1 rfl, h.2.2.1⟩)⟩

/-! ## The frame of a developer's project update -/

/-- A developer's update that is answered 200 found the project, carried a
`status`, and wrote the filtered update. -/
theorem updateProject_developer_ok (user : ReqUser) (id : ObjectId) (body : ProjectUpdate)
    (s : Store) (hr : user.role = Role.developer)
    (hok : (updateProject user id body s).1.status = 200) :
    ∃ P st, findProject s.projects id = some P ∧ body.status = some st ∧
      (updateProject user id body s).2 =
        { s with projects :=
            updateProjectById id (applyUpdate (allowedUpdates body)) s.projects } := by
  unfold updateProject at hok ⊢
  cases hf : findProject s.projects id with
  | none => rw [hf] at hok; simp at hok
  | some P =>
    rw [hf] at hok
    simp only [hr, if_true] at hok ⊢
    by_cases hm : P.assignedDevelopers.contains user._id = true
    · simp only [hm, not_true_eq_false, if_false] at hok ⊢
      cases hs : body.status with
      | none =>
        simp [keys_allowedUpdates, hs] at hok
      | some st =>
        refine ⟨P, st, rfl, rfl, ?_⟩
        simp [keys_allowedUpdates, hs, findByIdAndUpdate_store]
    · have hm2 : user._id ∉ P.assignedDevelopers := by simpa using hm
      simp [hm2] at hok

/-- C22: for every project update by a developer that is answered 200,
whatever the payload: the project keeps its `_id`, name, description, start
date, end date, owner, assigned developers and phases, and gets the status
of the payload; every other project, and the identity and phase stores, are
unchanged. -/
theorem updateProject_developer_frame (user : ReqUser) (id : ObjectId)
    (body : ProjectUpdate) (s : Store)
    (hr : user.role = Role.developer)
    (hok : (updateProject user id body s).1.status = 200) :
    (updateProject user id body s).2.users = s.users ∧
    (updateProject user id body s).2.phases = s.phases ∧
    (∀ qid, qid ≠ id →
      findProject (updateProject user id body s).2.projects qid = findProject s.projects qid) ∧
    ∃ P P1, findProject s.projects id = some P ∧
      findProject (updateProject user id body s).2.projects id = some P1 ∧
      P1._id = P._id ∧ P1.name = P.name ∧ P1.description = P.description ∧
      P1.startDate = P.startDate ∧ P1.endDate = P.endDate ∧ P1.owner = P.owner ∧
      P1.assignedDevelopers = P.assignedDevelopers ∧ P1.phases = P.phases ∧
      body.status = some P1.status := by
  obtain ⟨P, st, hP, hst, h⟩ := updateProject_developer_ok user id body s hr hok
  rw [h]
  refine ⟨rfl, rfl, ?_, P, applyUpdate (allowedUpdates body) P, hP, ?_, rfl, rfl, rfl, rfl,
    rfl, rfl, rfl, rfl, ?_⟩
  · intro qid hq
    simp only
    rw [findProject_updateProjectById id qid (applyUpdate (allowedUpdates body))
      (fun _ => rfl)]
    rw [if_neg (fun h1 : id = qid => hq h1.symm)]
  · simp only
    rw [findProject_updateProjectById id id (applyUpdate (allowedUpdates body))
      (fun _ => rfl), hP]
    simp
  · simp [applyUpdate, allowedUpdates, hst]

theorem updateProject_developer_frame_witness :
    asDana.role = Role.developer ∧
    (updateProject asDana 10 mixedUpdate sampleStore).1.status = 200 ∧
    ∃ P P1, findProject sampleStore.projects 10 = some P ∧
      findProject (updateProject asDana 10 mixedUpdate sampleStore).2.projects 10 = some P1 ∧
      P1.name = P.name ∧ mixedUpdate.status = some P1.status :=
  ⟨rfl, by decide,
    (updateProject_developer_frame asDana 10 mixedUpdate sampleStore rfl (by decide)).2.2.2.elim
      (fun P h => h.elim (fun P1 h1 =>
        ⟨P, P1, h1.1, h1.2.1, h1.2.2.2.1, h1.2.2.2.2.2.2.2.2.2.2⟩))⟩

/-! ## The status of a project -/

/-- C23: the update of a project runs no validator, so a status outside the
enum of the model is stored.  Every project of the sample state has a status
of the enum; Dana, assigned to Alpha, sends `PUT /projects/10` with status
'Banana'; the answer is 200 and Alpha's stored status is 'Banana'. -/
theorem updateProject_status_outside_enum :
    (∀ p ∈ sampleStore.projects, p.status ∈ projectStatuses) ∧
    asDana._id ∈ alpha.assignedDevelopers ∧
    "Banana" ∉ projectStatuses ∧
    (updateProject asDana 10 bananaUpdate sampleStore).1.status = 200 ∧
    (findProject (updateProject asDana 10 bananaUpdate sampleStore).2.projects 10).map
      (fun p => p.status) = some "Banana" ∧
    (updateProject asOlivia 11 bananaUpdate sampleStore).1.status = 200 ∧
    (findProject (updateProject asOlivia 11 bananaUpdate sampleStore).2.projects 11).map
      (fun p => p.status) = some "Banana" := by
  refine ⟨by decide, by decide, by decide, by decide, by decide, by decide, by decide⟩

/-! ## The response interceptor of the client -/

theorem getItem_removeItem (key removed : String) (storage : List (String × String)) :
    getItem key (removeItem removed storage) =
      if key = removed then none else getItem key storage := by
  induction storage with
  | nil => simp [getItem, removeItem]
  | cons kv rest ih =>
    unfold getItem removeItem at ih ⊢
    by_cases hr : kv.1 = removed
    · have h1 : (kv.1 != removed) = false := by simpa using hr
      rw [List.filter_cons_of_neg (by simpa using hr), ih]
      by_cases hk : key = removed
      · simp [hk]
      · have h2 : (kv.1 == key) = false := by
          have : kv.1 ≠ key := fun h => hk (h.symm.trans hr)
          simpa using this
        simp only [if_neg hk, List.find?_cons, h2]
    · rw [List.filter_cons_of_pos (by simpa using hr)]
      by_cases hkv : kv.1 = key
      · have h2 : (kv.1 == key) = true := by simpa using hkv
        have hk : ¬ key = removed := fun h => hr (hkv.trans h)
        simp only [if_neg hk, List.find?_cons, h2]
      · have h2 : (kv.1 == key) = false := by simpa using hkv
        simp only [List.find?_cons, h2]
        exact ih

/-- C24: the error handler of the response interceptor rejects with the
error it got, in every case.  When the response has status 401 the entries
`token` and `user` are gone from local storage, every other entry is as
before and the page goes to '/'; when there is no response, or its status is
not 401, the browser state is unchanged. -/
theorem onResponseError_effect (error : AxiosError) (b : Browser) :
    (onResponseError error b).2 = Settled.rejected error ∧
    ((∃ r, error.response = some r ∧ r.status = 401) →
      getItem "token" (onResponseError error b).1.localStorage = none ∧
      getItem "user" (onResponseError error b).1.localStorage = none ∧
      (∀ key, key ≠ "token" → key ≠ "user" →
        getItem key (onResponseError error b).1.localStorage = getItem key b.localStorage) ∧
      (onResponseError error b).1.href = "/") ∧
    (error.response = none → (onResponseError error b).1 = b) ∧
    (∀ r, error.response = some r → r.status ≠ 401 → (onResponseError error b).1 = b) := by
  refine ⟨?_, ?_, ?_, ?_⟩
  · unfold onResponseError
    split <;> rfl
  · rintro ⟨r, hr, h401⟩
    have hcond : error.response.map (fun r => r.status) = some 401 := by simp [hr, h401]
    have hres : onResponseError error b =
        ({ localStorage := removeItem "user" (removeItem "token" b.localStorage),
           href := "/" }, Settled.rejected error) := by
      simp [onResponseError, hcond]
    rw [hres]
    refine ⟨?_, ?_, ?_, rfl⟩
    · simp [getItem_removeItem]
    · simp [getItem_removeItem]
    · intro key h1 h2
      simp [getItem_removeItem, h1, h2]
  · intro hnone
    simp [onResponseError, hnone]
  · intro r hr hne
    simp [onResponseError, hr, hne]

theorem onResponseError_effect_witness :
    (∃ r, (⟨some ⟨401⟩, "Request failed"⟩ : AxiosError).response = some r ∧ r.status = 401) ∧
    getItem "token" loggedIn.localStorage = some "t1" ∧
    getItem "token"
      (onResponseError ⟨some ⟨401⟩, "Request failed"⟩ loggedIn).1.localStorage = none ∧
    (onResponseError ⟨some ⟨403⟩, "Request failed"⟩ loggedIn).1 = loggedIn :=
  ⟨⟨⟨401⟩, rfl, rfl⟩, by decide,
    ((onResponseError_effect ⟨some ⟨401⟩, "Request failed"⟩ loggedIn).2.1
      ⟨⟨401⟩, rfl, rfl⟩).1,
    (onResponseError_effect ⟨some ⟨403⟩, "Request failed"⟩ loggedIn).2.2.2 ⟨403⟩ rfl
      (by decide)⟩

/-! ## What a created phase is -/

/-- A create-phase request that is answered 201 carried a name, both dates
and a task list, and stored the new document. -/
theorem addPhase_ok (user : ReqUser) (id newId : ObjectId) (body : PhaseInput) (s : Store)
    (hok : (addPhase user id newId body s).1.status = 201) :
    ∃ name startDate endDate tasks,
      body.name = some name ∧ body.startDate = some startDate ∧
      body.endDate = some endDate ∧ body.tasks = some tasks ∧
      addPhase user id newId body s =
        (⟨201, Body.phase (newPhaseDocument id newId name startDate endDate tasks)⟩,
          { s with
            projects := updateProjectById id
              (fun p => { p with phases := p.phases ++ [newId] }) s.projects,
            phases := s.phases ++
              [newPhaseDocument id newId name startDate endDate tasks] }) := by
  unfold addPhase at hok ⊢
  cases hr : user.role with
  | developer =>
    rw [ownerOnly_developer hr] at hok
    simp at hok
  | owner =>
    rw [ownerOnly_owner hr] at hok ⊢
    simp only at hok ⊢
    cases ht : body.tasks with
    | none => rw [ht] at hok; simp [serverError] at hok
    | some tasks =>
      rw [ht] at hok
      simp only at hok ⊢
      cases hn : body.name with
      | none => rw [hn] at hok; simp [serverError] at hok
      | some name =>
        cases hs : body.startDate with
        | none => rw [hn, hs] at hok; simp [serverError] at hok
        | some startDate =>
          cases he : body.endDate with
          | none => rw [hn, hs, he] at hok; simp [serverError] at hok
          | some endDate =>
            rw [hn, hs, he] at hok
            simp only at hok ⊢
            by_cases hname : name = ""
            · simp [hname, serverError] at hok
            · by_cases hdup : (findPhase s.phases newId).isSome = true
              · simp [hname, hdup, serverError] at hok
              · refine ⟨name, startDate, endDate, tasks, rfl, rfl, rfl, rfl, ?_⟩
                simp only [hname, hdup, if_false]
                rfl

/-- C25: a create-phase request with the task names `tasks` that is answered
201 adds exactly one phase, at the end of the phase store and returned in
the body: its `_id` is the generated one, its parent is the project named in
the path, its status is 'pending', and its task list has the length of
`tasks`, the task at each position having the name at that position,
`completed = false` and no assignee.  The phases list of the named project is
the earlier list followed by the new id; every other project is unchanged. -/
theorem addPhase_postcondition (user : ReqUser) (id newId : ObjectId) (body : PhaseInput)
    (s : Store)
    (hok : (addPhase user id newId body s).1.status = 201) :
    ∃ tasks ph, body.tasks = some tasks ∧
      (addPhase user id newId body s).1 = ⟨201, Body.phase ph⟩ ∧
      (addPhase user id newId body s).2.phases = s.phases ++ [ph] ∧
      ph._id = newId ∧ ph.project = id ∧ ph.status = "pending" ∧
      body.name = some ph.name ∧ body.startDate = some ph.startDate ∧
      body.endDate = some ph.endDate ∧
      ph.tasks.length = tasks.length ∧
      (∀ i : Nat, ph.tasks[i]? = (tasks[i]?).map
        (fun task => (⟨some task, false, none⟩ : Task))) ∧
      (∀ P, findProject s.projects id = some P →
        findProject (addPhase user id newId body s).2.projects id
          = some { P with phases := P.phases ++ [newId] }) ∧
      (∀ qid, qid ≠ id →
        findProject (addPhase user id newId body s).2.projects qid
          = findProject s.projects qid) := by
  obtain ⟨name, startDate, endDate, tasks, hn, hs, he, ht, h⟩ := addPhase_ok user id newId body s hok
  rw [h]
  refine ⟨tasks, newPhaseDocument id newId name startDate endDate tasks, ht, rfl, rfl, rfl,
    rfl, rfl, hn, hs, he, ?_, ?_, ?_, ?_⟩
  · simp [newPhaseDocument]
  · intro i
    simp [newPhaseDocument, List.getElem?_map]
  · intro P hP
    simp only
    have hupd := findProject_updateProjectById id id
      (fun p => { p with phases := p.phases ++ [newId] }) (fun _ => rfl) s.projects
    rw [hupd, hP]
    simp
  · intro qid hq
    simp only
    have hupd := findProject_updateProjectById id qid
      (fun p => { p with phases := p.phases ++ [newId] }) (fun _ => rfl) s.projects
    rw [hupd, if_neg (fun h1 : id = qid => hq h1.symm)]

theorem addPhase_postcondition_witness :
    (addPhase asOlivia 10 102 phaseInput sampleStore).1.status = 201 ∧
    ∃ tasks ph, phaseInput.tasks = some tasks ∧
      (addPhase asOlivia 10 102 phaseInput sampleStore).2.phases = sampleStore.phases ++ [ph] ∧
      ph.tasks.length = tasks.length ∧ ph.status = "pending" :=
  ⟨by decide,
    (addPhase_postcondition asOlivia 10 102 phaseInput sampleStore (by decide)).elim
      (fun tasks h => h.elim (fun ph h1 =>
        ⟨tasks, ph, h1.1, h1.2.2.1, h1.2.2.2.2.2.2.2.2.2.1, h1.2.2.2.2.2.1⟩))⟩

/-! ## Progress bars of the client -/

theorem quotient_bounds (fl : Rounding) (k n : Nat) (hk : k ≤ n) (hn : 0 < n) :
    0 ≤ fl.round ((k : ℚ) / (n : ℚ)) ∧ fl.round ((k : ℚ) / (n : ℚ)) ≤ 1 := by
  have hn0 : (0 : ℚ) < n := by exact_mod_cast hn
  have hkn : (k : ℚ) ≤ n := by exact_mod_cast hk
  have h0 : (0 : ℚ) ≤ (k : ℚ) / n := div_nonneg (by positivity) hn0.le
  have h1 : (k : ℚ) / n ≤ 1 := (div_le_one hn0).mpr hkn
  constructor
  · have := fl.mono _ _ h0
    rwa [fl.zero] at this
  · have := fl.mono _ _ h1
    rwa [fl.one] at this

theorem width_bounds (fl : Rounding) (k n : Nat) (hk : k ≤ n) (hn : 0 < n) :
    0 ≤ fl.round (fl.round ((k : ℚ) / (n : ℚ)) * 100) ∧
    fl.round (fl.round ((k : ℚ) / (n : ℚ)) * 100) ≤ 100 := by
  obtain ⟨h0, h1⟩ := quotient_bounds fl k n hk hn
  constructor
  · have := fl.mono 0 (fl.round ((k : ℚ) / (n : ℚ)) * 100) (by positivity)
    rwa [fl.zero] at this
  · have := fl.mono (fl.round ((k : ℚ) / (n : ℚ)) * 100) 100 (by linarith)
    rwa [fl.hundred] at this

theorem width_all (fl : Rounding) (n : Nat) (hn : 0 < n) :
    fl.round (fl.round ((n : ℚ) / (n : ℚ)) * 100) = 100 := by
  have hn0 : (n : ℚ) ≠ 0 := by exact_mod_cast (Nat.pos_iff_ne_zero.mp hn)
  rw [div_self hn0, fl.one, one_mul, fl.hundred]

/-- With fewer than `2 ^ 32` items, not all of them completed, the two
roundings do not reach 100. -/
theorem width_lt (fl : Rounding) (k n : Nat) (hk : k < n) (hlen : n < 2 ^ 32) :
    fl.round (fl.round ((k : ℚ) / (n : ℚ)) * 100) < 100 := by
  have hn : 0 < n := Nat.lt_of_le_of_lt (Nat.zero_le k) hk
  have hn0 : (0 : ℚ) < n := by exact_mod_cast hn
  rcases Nat.eq_zero_or_pos k with hk0 | hkpos
  · subst hk0
    simp [fl.zero]
  · have hk1 : (1 : ℚ) ≤ k := by exact_mod_cast hkpos
    have hkn : (k : ℚ) + 1 ≤ n := by exact_mod_cast hk
    have hnb : (n : ℚ) ≤ 2 ^ 32 := by exact_mod_cast hlen.le
    set x : ℚ := (k : ℚ) / n with hx
    have hxlo : 1 / 2 ^ 32 ≤ x := by
      rw [hx, div_le_div_iff₀ (by positivity) hn0]
      nlinarith
    have hxhi : x ≤ 1 - 1 / 2 ^ 32 := by
      rw [hx, div_le_iff₀ hn0]
      have : (n : ℚ) * (1 / 2 ^ 32) ≤ 1 := by
        rw [mul_one_div, div_le_one (by positivity)]
        exact hnb
      nlinarith
    have hsmall : (1 : ℚ) / 2 ^ 1022 ≤ 1 / 2 ^ 33 := by
      apply one_div_le_one_div_of_le (by positivity)
      exact pow_le_pow_right₀ (by norm_num) (by norm_num)
    have hbig : (100 : ℚ) ≤ 2 ^ 1023 := by
      calc (100 : ℚ) ≤ 2 ^ 7 := by norm_num
        _ ≤ 2 ^ 1023 := pow_le_pow_right₀ (by norm_num) (by norm_num)
    have h33 : (1 : ℚ) / 2 ^ 33 ≤ 1 / 2 ^ 32 := by norm_num
    have hnear1 := fl.near x (by linarith) (by linarith)
    have hq := abs_le.mp hnear1
    set q : ℚ := fl.round x with hqdef
    have hx0 : 0 < x := lt_of_lt_of_le (by positivity) hxlo
    have hqhi : q ≤ x + x / 2 ^ 53 := by linarith [hq.2]
    have hqlo : x - x / 2 ^ 53 ≤ q := by linarith [hq.1]
    have hq1 : q ≤ 1 := (quotient_bounds fl k n hk.le hn).2
    have hxq : x / 2 ^ 53 ≤ x / 2 := by
      apply div_le_div_of_nonneg_left hx0.le (by norm_num) (by norm_num)
    have hqpos : 1 / 2 ^ 33 ≤ q := by
      have : x / 2 ≤ q := by linarith
      have h2 : (1 : ℚ) / 2 ^ 33 = 1 / 2 ^ 32 / 2 := by norm_num
      linarith
    have hy0 : 0 < q := lt_of_lt_of_le (by positivity) hqpos
    have hnear2 := fl.near (q * 100) (by linarith) (by linarith)
    have hw := abs_le.mp hnear2
    have hwhi : fl.round (q * 100) ≤ q * 100 + q * 100 / 2 ^ 53 := by linarith [hw.2]
    have hqb : q ≤ (1 - 1 / 2 ^ 32) * (1 + 1 / 2 ^ 53) := by
      have : x + x / 2 ^ 53 = x * (1 + 1 / 2 ^ 53) := by ring
      rw [this] at hqhi
      have hmul : x * (1 + 1 / 2 ^ 53) ≤ (1 - 1 / 2 ^ 32) * (1 + 1 / 2 ^ 53) :=
        mul_le_mul_of_nonneg_right hxhi (by positivity)
      linarith
    have hfin : q * 100 + q * 100 / 2 ^ 53 < 100 := by
      have e : q * 100 + q * 100 / 2 ^ 53 = q * (100 * (1 + 1 / 2 ^ 53)) := by ring
      rw [e]
      have hc : (0 : ℚ) < 100 * (1 + 1 / 2 ^ 53) := by positivity
      have := mul_le_mul_of_nonneg_right hqb hc.le
      have hnum : (1 - 1 / 2 ^ 32) * (1 + 1 / 2 ^ 53) * (100 * (1 + 1 / 2 ^ 53)) < (100 : ℚ) := by
        norm_num
      linarith
    linarith

/-- The width of a bar over a list that is not empty, `p` telling the
completed items. -/
theorem width_of_list (fl : Rounding) {α : Type} (p : α → Bool) (l : List α) (hne : l ≠ []) :
    ∃ w, timesHundred fl (divide fl (l.filter p).length l.length) = JSNumber.finite w ∧
      0 ≤ w ∧ w ≤ 100 ∧
      ((∀ a ∈ l, p a = true) → w = 100) ∧
      (l.length < 2 ^ 32 → w = 100 → ∀ a ∈ l, p a = true) := by
  have hn : 0 < l.length := List.length_pos.mpr hne
  have hn0 : l.length ≠ 0 := Nat.pos_iff_ne_zero.mp hn
  have hk : (l.filter p).length ≤ l.length := List.length_filter_le p l
  refine ⟨fl.round (fl.round (((l.filter p).length : ℚ) / (l.length : ℚ)) * 100), ?_, ?_, ?_,
    ?_, ?_⟩
  · simp [divide, timesHundred, hn0]
  · exact (width_bounds fl _ _ hk hn).1
  · exact (width_bounds fl _ _ hk hn).2
  · intro hall
    rw [List.filter_length_eq_length.mpr hall]
    exact width_all fl _ hn
  · intro hlen hw
    by_contra hnot
    have hlt : (l.filter p).length < l.length := by
      apply lt_of_le_of_ne hk
      intro he
      exact hnot (List.filter_length_eq_length.mp he)
    have := width_lt fl _ _ hlt hlen
    linarith

/-- C26: the progress bar of a project's phases and the progress bar of a
phase's tasks are not rendered when the list is missing or empty, so that no
division by zero is evaluated.  Over a list that is not empty the width is a
finite number from 0 to 100, it is 100 when every item is completed, and, the
list having fewer than `2 ^ 32` items as every JavaScript array has, it is
100 only when every item is completed. -/
theorem progressWidth_range (fl : Rounding) :
    phaseProgressWidth fl none = none ∧
    phaseProgressWidth fl (some []) = none ∧
    (∀ phases : List PhaseView, phases ≠ [] →
      ∃ w, phaseProgressWidth fl (some phases) = some (JSNumber.finite w) ∧
        0 ≤ w ∧ w ≤ 100 ∧
        ((∀ p ∈ phases, p.doc.status = "completed") → w = 100) ∧
        (phases.length < 2 ^ 32 → w = 100 → ∀ p ∈ phases, p.doc.status = "completed")) ∧
    taskProgressWidth fl none = none ∧
    taskProgressWidth fl (some []) = none ∧
    (∀ tasks : List Task, tasks ≠ [] →
      ∃ w, taskProgressWidth fl (some tasks) = some (JSNumber.finite w) ∧
        0 ≤ w ∧ w ≤ 100 ∧
        ((∀ t ∈ tasks, t.completed = true) → w = 100) ∧
        (tasks.length < 2 ^ 32 → w = 100 → ∀ t ∈ tasks, t.completed = true)) := by
  refine ⟨rfl, rfl, ?_, rfl, rfl, ?_⟩
  · intro phases hne
    obtain ⟨w, hw, h0, h100, hall, honly⟩ :=
      width_of_list fl (fun p : PhaseView => p.doc.status == "completed") phases hne
    refine ⟨w, ?_, h0, h100, ?_, ?_⟩
    · have hn : 0 < phases.length := List.length_pos.mpr hne
      simp only [phaseProgressWidth, gt_iff_lt, hn, if_true, hw]
    · intro hc
      exact hall (fun a ha => by simpa using hc a ha)
    · intro hlen hw100 a ha
      simpa using honly hlen hw100 a ha
  · intro tasks hne
    obtain ⟨w, hw, h0, h100, hall, honly⟩ :=
      width_of_list fl (fun t : Task => t.completed) tasks hne
    refine ⟨w, ?_, h0, h100, hall, honly⟩
    have hn : 0 < tasks.length := List.length_pos.mpr hne
    simp only [taskProgressWidth, gt_iff_lt, hn, if_true, hw]

theorem progressWidth_range_witness :
    listedPhases ≠ [] ∧ build.tasks ≠ [] ∧ listedPhases.length < 2 ^ 32 ∧
    (∃ w, phaseProgressWidth exactArithmetic (some listedPhases) = some (JSNumber.finite w) ∧
      0 ≤ w ∧ w ≤ 100 ∧ (w = 100 → ∀ p ∈ listedPhases, p.doc.status = "completed")) ∧
    (∃ w, taskProgressWidth exactArithmetic (some build.tasks) = some (JSNumber.finite w) ∧
      0 ≤ w ∧ w ≤ 100) :=
  ⟨by decide, by decide, by decide,
    (((progressWidth_range exactArithmetic).2.2.1 listedPhases (by decide)).imp
      fun _ h => ⟨h.1, h.2.1, h.2.2.1, h.2.2.2.2 (by decide)⟩),
    (((progressWidth_range exactArithmetic).2.2.2.2.2 build.tasks (by decide)).imp
      fun _ h => ⟨h.1, h.2.1, h.2.2.1⟩)⟩

/-! ## Dates shown by the client -/

theorem localDay_localMidnight (offset : Int) (day : Fin dayCount) :
    localDay offset (localMidnight offset day) = (day.val : Int) := by
  unfold localDay localMidnight
  have h : (day.val : Int) * msPerDay - offset * msPerMinute + offset * msPerMinute
      = (day.val : Int) * msPerDay := by
    ring
  rw [h]
  exact Int.mul_ediv_cancel _ (by decide)

/-- Under every local timezone offset, an empty or missing input gives the
empty string, a date string is shown as the calendar day that its date part
names, and a `Date` is shown as the calendar day of its ISO (UTC) form. -/
theorem formatDateForDisplay_shown (offset : Int) :
    formatDateForDisplay offset DateInput.missing = Shown.blank ∧
    formatDateForDisplay offset DateInput.empty = Shown.blank ∧
    (∀ dateStr, formatDateForDisplay offset (DateInput.iso dateStr)
      = Shown.day (dateStr.datePart.val : Int)) ∧
    (∀ d, formatDateForDisplay offset (DateInput.date d)
      = Shown.day ((toISOString d).datePart.val : Int)) := by
  refine ⟨rfl, rfl, ?_, ?_⟩
  · intro dateStr
    simp [formatDateForDisplay, localDay_localMidnight]
  · intro d
    simp [formatDateForDisplay, localDay_localMidnight]

/-- C27 fails on a `Date`: with local time five hours behind UTC, the `Date`
2022-01-08T01:00:00.000Z has the local calendar day 18999 (2022-01-07) and is
shown as the day 19000 (2022-01-08), the day of its ISO form; the function
shows that day under every offset, here also with local time nine hours ahead
of UTC, where it is the local day. -/
theorem formatDateForDisplay_date_object_utc_day :
    localDay (-300) winterNight.value = 18999 ∧
    formatDateForDisplay (-300) (DateInput.date winterNight) = Shown.day 19000 ∧
    localDay 540 winterNight.value = 19000 ∧
    formatDateForDisplay 540 (DateInput.date winterNight) = Shown.day 19000 := by
  refine ⟨by decide, by decide, by decide, by decide⟩

/-! ## The task list of the add-phase form -/

theorem splitComma_ne_nil (s : List Char) : splitComma s ≠ [] := by
  cases s with
  | nil => simp [splitComma]
  | cons c cs =>
    unfold splitComma
    split
    · simp
    · split <;> simp

/-- The segments joined by commas are the string. -/
theorem intercalate_splitComma (s : List Char) :
    List.intercalate [','] (splitComma s) = s := by
  induction s with
  | nil => simp [splitComma, List.intercalate]
  | cons c cs ih =>
    unfold splitComma
    by_cases hc : c = ','
    · rw [if_pos hc]
      have hne := splitComma_ne_nil cs
      cases hsp : splitComma cs with
      | nil => exact absurd hsp hne
      | cons seg rest =>
        rw [hsp] at ih
        simp only [List.intercalate, List.intersperse_cons_cons, List.flatten_cons,
          List.nil_append, List.singleton_append] at ih ⊢
        rw [ih, hc]
    · rw [if_neg hc]
      cases hsp : splitComma cs with
      | nil => exact absurd hsp (splitComma_ne_nil cs)
      | cons seg rest =>
        rw [hsp] at ih
        simp only
        cases rest with
        | nil =>
          simp only [List.intercalate, List.intersperse_single, List.flatten_cons, List.flatten_nil,
            List.append_nil] at ih ⊢
          rw [ih]
        | cons seg2 rest2 =>
          simp only [List.intercalate, List.intersperse_cons_cons, List.flatten_cons,
            List.cons_append] at ih ⊢
          rw [ih]

theorem mem_splitComma (s : List Char) :
    ∀ seg ∈ splitComma s, ',' ∉ seg ∧ ∀ c ∈ seg, c ∈ s := by
  induction s with
  | nil =>
    intro seg hseg
    simp only [splitComma, List.mem_singleton] at hseg
    subst hseg
    simp
  | cons c cs ih =>
    intro seg hseg
    unfold splitComma at hseg
    by_cases hc : c = ','
    · rw [if_pos hc] at hseg
      rcases List.mem_cons.mp hseg with h | h
      · subst h
        simp
      · exact ⟨(ih seg h).1, fun x hx => List.mem_cons_of_mem _ ((ih seg h).2 x hx)⟩
    · rw [if_neg hc] at hseg
      cases hsp : splitComma cs with
      | nil => exact absurd hsp (splitComma_ne_nil cs)
      | cons seg0 rest =>
        rw [hsp] at hseg ih
        simp only at hseg
        rcases List.mem_cons.mp hseg with h | h
        · subst h
          have h0 := ih seg0 (List.mem_cons_self _ _)
          refine ⟨?_, ?_⟩
          · intro hmem
            rcases List.mem_cons.mp hmem with h1 | h1
            · exact hc h1.symm
            · exact h0.1 h1
          · intro x hx
            rcases List.mem_cons.mp hx with h1 | h1
            · rw [h1]; exact List.mem_cons_self _ _
            · exact List.mem_cons_of_mem _ (h0.2 x h1)
        · have h0 := ih seg (List.mem_cons_of_mem _ h)
          exact ⟨h0.1, fun x hx => List.mem_cons_of_mem _ (h0.2 x hx)⟩

theorem trim_sublist (t : List Char) : (trim t).Sublist t :=
  (List.rdropWhile_prefix isWhiteSpace _).sublist.trans (List.dropWhile_sublist isWhiteSpace)

theorem trim_eq_nil_iff (t : List Char) : trim t = [] ↔ isBlank t = true := by
  unfold trim isBlank
  rw [List.rdropWhile_eq_nil_iff, List.all_eq_true]
  constructor
  · intro h
    have hnil : t.dropWhile isWhiteSpace = [] := by
      cases hd : t.dropWhile isWhiteSpace with
      | nil => rfl
      | cons a rest =>
        have ha : isWhiteSpace a = true := h a (by rw [hd]; exact List.mem_cons_self _ _)
        have hnot := List.head_dropWhile_not isWhiteSpace t (by rw [hd]; simp)
        simp only [hd, List.head_cons] at hnot
        rw [ha] at hnot
        exact absurd hnot (by decide)
    exact List.dropWhile_eq_nil_iff.mp hnil
  · intro h x hx
    exact h x ((List.dropWhile_sublist isWhiteSpace).subset hx)

theorem trim_head (t : List Char) (c : Char) (h : (trim t).head? = some c) :
    isWhiteSpace c = false := by
  unfold trim at h
  obtain ⟨r, hr⟩ := List.rdropWhile_prefix isWhiteSpace (t.dropWhile isWhiteSpace)
  cases hd : (t.dropWhile isWhiteSpace).rdropWhile isWhiteSpace with
  | nil => rw [hd] at h; simp at h
  | cons a rest =>
    rw [hd] at h hr
    simp only [List.head?_cons, Option.some.injEq] at h
    subst h
    have hne : t.dropWhile isWhiteSpace ≠ [] := by
      rw [← hr]; simp
    have hnot := List.head_dropWhile_not isWhiteSpace t hne
    have hhead : (t.dropWhile isWhiteSpace).head hne = a := by
      simp only [← hr, List.cons_append, List.head_cons]
    rw [hhead] at hnot
    exact hnot

theorem trim_getLast (t : List Char) (c : Char) (h : (trim t).getLast? = some c) :
    isWhiteSpace c = false := by
  unfold trim at h
  have hne : (t.dropWhile isWhiteSpace).rdropWhile isWhiteSpace ≠ [] := by
    intro hnil
    rw [hnil] at h
    simp at h
  have hnot := List.rdropWhile_last_not isWhiteSpace (t.dropWhile isWhiteSpace) hne
  rw [List.getLast?_eq_getLast _ hne] at h
  simp only [Option.some.injEq] at h
  rw [h] at hnot
  simpa using hnot

/-- C28: for every input string `s` of the add-phase form, the list
`s.split(',').map(trim).filter(non-empty)`: no element is empty, starts or
ends with white space, or contains a comma; the list is the non-blank
segments between the commas of `s`, trimmed, in their order; and it is empty
when `s` is empty or has only commas and white space. -/
theorem parseTasks_spec (s : List Char) :
    (∀ t ∈ parseTasks s, t ≠ [] ∧
      (∀ c, t.head? = some c → isWhiteSpace c = false) ∧
      (∀ c, t.getLast? = some c → isWhiteSpace c = false) ∧ ',' ∉ t) ∧
    parseTasks s = ((splitComma s).filter (fun seg => !isBlank seg)).map trim ∧
    List.intercalate [','] (splitComma s) = s ∧
    (∀ seg ∈ splitComma s, ',' ∉ seg) ∧
    ((∀ c ∈ s, c = ',' ∨ isWhiteSpace c = true) → parseTasks s = []) := by
  refine ⟨?_, ?_, intercalate_splitComma s, fun seg h => (mem_splitComma s seg h).1, ?_⟩
  · intro t ht
    simp only [parseTasks, List.mem_filter, List.mem_map] at ht
    obtain ⟨⟨seg, hseg, rfl⟩, hne⟩ := ht
    refine ⟨?_, trim_head seg, trim_getLast seg, ?_⟩
    · intro hnil
      rw [hnil] at hne
      simp at hne
    · intro hmem
      exact (mem_splitComma s seg hseg).1 ((trim_sublist seg).subset hmem)
  · unfold parseTasks
    rw [List.filter_map]
    congr 1
    apply List.filter_congr
    intro seg _
    simp only [Function.comp_apply]
    rw [Bool.eq_iff_iff]
    simp only [Bool.not_eq_true', List.isEmpty_eq_false]
    rw [← Bool.not_eq_true, ← trim_eq_nil_iff]
  · intro hall
    unfold parseTasks
    rw [List.filter_eq_nil_iff]
    intro t ht
    simp only [List.mem_map] at ht
    obtain ⟨seg, hseg, rfl⟩ := ht
    have hblank : isBlank seg = true := by
      unfold isBlank
      rw [List.all_eq_true]
      intro c hc
      have hin := mem_splitComma s seg hseg
      rcases hall c (hin.2 c hc) with h | h
      · rw [h] at hc
        exact absurd hc hin.1
      · exact h
    rw [(trim_eq_nil_iff seg).mpr hblank]
    simp

theorem parseTasks_spec_witness :
    (∀ c ∈ " , ,, ".toList, c = ',' ∨ isWhiteSpace c = true) ∧
    parseTasks " , ,, ".toList = [] ∧
    parseTasks " wire frames , ,review,,".toList = ["wire frames".toList, "review".toList] :=
  ⟨by decide, (parseTasks_spec " , ,, ".toList).2.2.2.2 (by decide), by decide⟩

/-! ## The frame of a profile update -/

theorem updateProfile_store (user : ReqUser) (body : ProfileUpdate) (s : Store) :
    (updateProfile user body s).2 =
      { s with users :=
          updateUserById user._id (applyProfileUpdate (allowedProfileUpdates body)) s.users } := by
  unfold updateProfile
  dsimp only
  split <;> rfl

theorem findUser_updateUserById (id uid : ObjectId) (f : User → User)
    (hf : ∀ u, (f u)._id = u._id) (l : List User) :
    findUser (updateUserById id f l) uid =
      if id = uid then (findUser l uid).map f else findUser l uid := by
  induction l with
  | nil => simp [updateUserById, findUser]
  | cons u us ih =>
    unfold findUser at ih ⊢
    unfold updateUserById
    by_cases hu : u._id = id
    · rw [if_pos hu]
      by_cases hq : id = uid
      · have h1 : ((f u)._id == uid) = true := by rw [hf, hu, hq]; simp
        have h2 : (u._id == uid) = true := by rw [hu, hq]; simp
        simp only [if_pos hq, List.find?_cons, h1, h2, Option.map_some']
      · have hne : u._id ≠ uid := fun h => hq (hu ▸ h)
        have h1 : ((f u)._id == uid) = false := by rw [hf]; simpa using hne
        have h2 : (u._id == uid) = false := by simpa using hne
        simp only [if_neg hq, List.find?_cons, h1, h2]
    · rw [if_neg hu]
      by_cases huu : u._id = uid
      · have h2 : (u._id == uid) = true := by simpa using huu
        have hq : ¬ id = uid := fun h => hu (huu.trans h.symm)
        simp only [if_neg hq, List.find?_cons, h2]
      · have h2 : (u._id == uid) = false := by simpa using huu
        simp only [List.find?_cons, h2]
        exact ih

/-- C29: for every caller and payload, `PUT /developers/profile` leaves the
project and phase stores and every identity other than the caller's as they
are; the caller's identity keeps its `_id`, role, email, username, password
and assigned projects, whatever the payload carries, and gets the name,
school, grade, hours per week, resume and skills that the payload carries. -/
theorem updateProfile_frame (user : ReqUser) (body : ProfileUpdate) (s : Store) :
    (updateProfile user body s).2.projects = s.projects ∧
    (updateProfile user body s).2.phases = s.phases ∧
    (∀ uid, uid ≠ user._id →
      findUser (updateProfile user body s).2.users uid = findUser s.users uid) ∧
    (findUser s.users user._id = none →
      findUser (updateProfile user body s).2.users user._id = none) ∧
    (∀ u, findUser s.users user._id = some u →
      ∃ u1, findUser (updateProfile user body s).2.users user._id = some u1 ∧
        u1._id = u._id ∧ u1.role = u.role ∧ u1.email = u.email ∧
        u1.username = u.username ∧ u1.password = u.password ∧
        u1.assignedProjects = u.assignedProjects ∧
        u1.name = body.name.getD u.name ∧ u1.skills = body.skills.getD u.skills ∧
        (∀ v, body.school = some v → u1.school = some v) ∧
        (∀ v, body.grade = some v → u1.grade = some v) ∧
        (∀ v, body.hoursPerWeek = some v → u1.hoursPerWeek = some v) ∧
        (∀ v, body.resume = some v → u1.resume = some v)) := by
  rw [updateProfile_store]
  have hfind := fun uid => findUser_updateUserById user._id uid
    (applyProfileUpdate (allowedProfileUpdates body)) (fun _ => rfl) s.users
  refine ⟨rfl, rfl, ?_, ?_, ?_⟩
  · intro uid hne
    simp only
    rw [hfind uid, if_neg (fun h : user._id = uid => hne h.symm)]
  · intro hnone
    simp only
    rw [hfind user._id, hnone]
    simp
  · intro u hu
    simp only
    rw [hfind user._id, hu]
    simp only [if_true, Option.map_some']
    refine ⟨_, rfl, rfl, rfl, rfl, rfl, rfl, rfl, rfl, rfl, ?_, ?_, ?_, ?_⟩
    · intro v hv
      simp [applyProfileUpdate, allowedProfileUpdates, hv]
    · intro v hv
      simp [applyProfileUpdate, allowedProfileUpdates, hv]
    · intro v hv
      simp [applyProfileUpdate, allowedProfileUpdates, hv]
    · intro v hv
      simp [applyProfileUpdate, allowedProfileUpdates, hv]

theorem updateProfile_frame_witness :
    findUser sampleStore.users asDana._id = some dana ∧
    ∃ u1, findUser (updateProfile asDana escalatingProfile sampleStore).2.users asDana._id
        = some u1 ∧
      u1.role = Role.developer ∧ u1.email = "dana@school.edu" ∧ u1.password = "h2" ∧
      u1.assignedProjects = [10] ∧ u1.name = "Dana D." :=
  ⟨rfl,
    ((updateProfile_frame asDana escalatingProfile sampleStore).2.2.2.2 dana rfl).elim
      (fun u1 h => ⟨u1, h.1, h.2.2.1, h.2.2.2.1, h.2.2.2.2.2.1, h.2.2.2.2.2.2.1,
        h.2.2.2.2.2.2.2.1⟩)⟩

/-! ## Responses without password -/

theorem withoutPassword_erase (u : User) (populated : Option (List ProjectSummary)) :
    withoutPassword (erasePassword u) populated = withoutPassword u populated := rfl

theorem findUser_map_erase (l : List User) (id : ObjectId) :
    findUser (l.map erasePassword) id = (findUser l id).map erasePassword := by
  unfold findUser
  rw [List.find?_map]
  rfl

theorem updateUserById_map_erase (id : ObjectId) (f : User → User)
    (hf : ∀ u, erasePassword (f u) = f (erasePassword u)) (l : List User) :
    (updateUserById id f l).map erasePassword = updateUserById id f (l.map erasePassword) := by
  induction l with
  | nil => rfl
  | cons u us ih =>
    simp only [updateUserById, List.map_cons]
    have hid : (erasePassword u)._id = u._id := rfl
    rw [hid]
    split
    · simp [hf]
    · simp [ih]

theorem applyProfileUpdate_erase (body : ProfileUpdate) (u : User) :
    erasePassword (applyProfileUpdate (allowedProfileUpdates body) u)
      = applyProfileUpdate (allowedProfileUpdates body) (erasePassword u) := rfl

/-- The response of a query for one identity reads the stores without the
passwords. -/
theorem profile_of_erased (l1 l2 : List User) (id : ObjectId)
    (g : User → Body) (hg : ∀ u, g (erasePassword u) = g u)
    (h : l1.map erasePassword = l2.map erasePassword) :
    (match findUser l1 id with
      | none => (⟨200, Body.null⟩ : Response)
      | some u => ⟨200, g u⟩) =
    (match findUser l2 id with
      | none => (⟨200, Body.null⟩ : Response)
      | some u => ⟨200, g u⟩) := by
  have h1 := findUser_map_erase l1 id
  have h2 := findUser_map_erase l2 id
  rw [h, h2] at h1
  cases hf1 : findUser l1 id with
  | none =>
    cases hf2 : findUser l2 id with
    | none => rfl
    | some v => rw [hf1, hf2] at h1; simp at h1
  | some u =>
    cases hf2 : findUser l2 id with
    | none => rw [hf1, hf2] at h1; simp at h1
    | some v =>
      rw [hf1, hf2] at h1
      simp only [Option.map_some', Option.some.injEq] at h1
      simp only
      rw [← hg u, ← hg v, h1]

/-- A login that is answered 200 returns a token and the summary of an
identity. -/
theorem login_ok_body (env : Env) (newId : ObjectId) (body : LoginInput) (s : Store)
    (hok : (login env newId body s).1.status = 200) :
    ∃ (t : Token) (u : User),
      (login env newId body s).1.body = Body.login t (ownerSummary u) ∨
      (login env newId body s).1.body = Body.login t (developerSummary u) := by
  revert hok
  unfold login
  repeat' split
  all_goals try dsimp only
  repeat' split
  all_goals first
    | (intro h; simp [serverError] at h; done)
    | (intro _; exact ⟨_, _, Or.inl rfl⟩)
    | (intro _; exact ⟨_, _, Or.inr rfl⟩)

theorem filter_map_of_erased {β : Type} (f : User → Bool) (g : User → β)
    (hf : ∀ u, f (erasePassword u) = f u) (hg : ∀ u, g (erasePassword u) = g u)
    (l1 l2 : List User) (h : l1.map erasePassword = l2.map erasePassword) :
    (l1.filter f).map g = (l2.filter f).map g := by
  have key : ∀ l : List User,
      (l.filter f).map g = ((l.map erasePassword).filter f).map g := by
    intro l
    induction l with
    | nil => rfl
    | cons u us ih =>
      simp only [List.map_cons, List.filter_cons, hf]
      split
      · simp only [List.map_cons, hg, ih]
      · exact ih
  rw [key l1, key l2, h]

theorem updateProfile_response (user : ReqUser) (body : ProfileUpdate) (s : Store) :
    (updateProfile user body s).1 =
      (match findUser
          (updateUserById user._id (applyProfileUpdate (allowedProfileUpdates body)) s.users)
          user._id with
        | none => (⟨200, Body.null⟩ : Response)
        | some u => ⟨200, Body.user (withoutPassword u none)⟩) := by
  unfold updateProfile
  dsimp only
  split <;> simp [*]

/-- C30: two states of the stores that differ at most in the stored password
values get the same responses from `GET /developers`, `GET
/developers/profile` and `PUT /developers/profile`, for every caller and
payload, and still differ at most in the passwords after the profile update.
The `user` summary of a login does not depend on the stored password, and the
body of a login answered 200 is a token with such a summary. -/
theorem responses_without_password (env : Env) (newId : ObjectId) (credentials : LoginInput)
    (user : ReqUser) (body : ProfileUpdate) (s t : Store) (h : SamePublic s t) :
    getDevelopers user s = getDevelopers user t ∧
    getProfile user s = getProfile user t ∧
    (updateProfile user body s).1 = (updateProfile user body t).1 ∧
    SamePublic (updateProfile user body s).2 (updateProfile user body t).2 ∧
    (∀ (u : User) (p : String),
      ownerSummary { u with password := p } = ownerSummary u ∧
      developerSummary { u with password := p } = developerSummary u) ∧
    ((login env newId credentials s).1.status = 200 →
      ∃ (tk : Token) (u : User),
        (login env newId credentials s).1.body = Body.login tk (ownerSummary u) ∨
        (login env newId credentials s).1.body = Body.login tk (developerSummary u)) := by
  obtain ⟨hu, hp, hph⟩ := h
  have hupd : (updateUserById user._id (applyProfileUpdate (allowedProfileUpdates body))
      s.users).map erasePassword =
      (updateUserById user._id (applyProfileUpdate (allowedProfileUpdates body))
        t.users).map erasePassword := by
    rw [updateUserById_map_erase _ _ (applyProfileUpdate_erase body),
      updateUserById_map_erase _ _ (applyProfileUpdate_erase body), hu]
  refine ⟨?_, ?_, ?_, ?_, fun _ _ => ⟨rfl, rfl⟩, login_ok_body env newId credentials s⟩
  · unfold getDevelopers
    cases ownerOnly user with
    | some r => rfl
    | none =>
      simp only [hp]
      rw [filter_map_of_erased (fun u => u.role == Role.developer)
        (fun u => withoutPassword u (some (populateProjects t.projects selectProjectName
          u.assignedProjects)))
        (fun _ => rfl) (fun _ => rfl) s.users t.users hu]
  · unfold getProfile
    rw [hp]
    exact profile_of_erased s.users t.users user._id
      (fun u => Body.user (withoutPassword u (some (populateProjects t.projects
        selectProjectDetails u.assignedProjects))))
      (fun _ => rfl) hu
  · rw [updateProfile_response, updateProfile_response]
    exact profile_of_erased _ _ user._id (fun u => Body.user (withoutPassword u none))
      (fun _ => rfl) hupd
  · rw [updateProfile_store, updateProfile_store]
    exact ⟨hupd, hp, hph⟩

theorem responses_without_password_witness :
    SamePublic sampleStore rehashedStore ∧ sampleStore ≠ rehashedStore ∧
    getDevelopers asOlivia sampleStore = getDevelopers asOlivia rehashedStore ∧
    (getDevelopers asOlivia sampleStore).status = 200 :=
  ⟨by decide, by decide,
    (responses_without_password sampleEnv 6 danaLogin asOlivia escalatingProfile sampleStore
      rehashedStore (by decide)).1,
    by decide⟩

end ProjectTracking
